import Mathlib

/-!
Verification development for a four-core MESI cache-coherence simulator.

The definitions below are a shallow embedding of the C++ sources:
`Cache.cpp`, `CacheSet.cpp`, the MESI `CacheLine` implementation, the
`MainMemory` sparse store, the `Simulator` coherence callback and cycle
loop, the `Processor` front end, the `TraceReader`, and the command-line
validation in `validateConfig`/`main`.  C++ `unsigned int` arithmetic is
modelled on `Nat` with an explicit reduction modulo 2^32 (`u32`) wherever
the source performs unsigned arithmetic; `std::vector` becomes `List`;
`std::map` becomes an association list with first-match lookup; pointers
into a set's line array become indices.
-/

namespace CacheSim

/-- Reduction modulo 2^32, the semantics of C++ unsigned int arithmetic. -/
def u32 (n : Nat) : Nat := n % 4294967296

theorem u32_add_left (a b : Nat) : u32 (u32 a + b) = u32 (a + b) := by
  simp [u32, Nat.add_mod, Nat.mod_mod_of_dvd]

theorem u32_lt (n : Nat) : u32 n < 4294967296 := by
  simp [u32]
  omega

/-! ## MESI states and cache lines (CacheLine.h / the MESI CacheLine implementation) -/

/-- The four MESI protocol states. -/
inductive MESIState where
  | MODIFIED
  | EXCLUSIVE
  | SHARED
  | INVALID
deriving DecidableEq, Repr

/-- One cache line: MESI state, dirty bit, tag, LRU counter and the data
block (a byte vector of the configured block size). -/
structure CacheLine where
  mesiState : MESIState
  dirty : Bool
  tag : Nat
  lruCounter : Nat
  data : List Nat
deriving DecidableEq, Repr

instance : Inhabited CacheLine := ⟨⟨.INVALID, false, 0, 0, []⟩⟩

/-- CacheLine constructor: INVALID, clean, tag 0, lru 0, zero-filled data. -/
def CacheLine.mkLine (blockSize : Nat) : CacheLine :=
  ⟨.INVALID, false, 0, 0, List.replicate blockSize 0⟩

/-- valid = any state except INVALID. -/
def CacheLine.isValid (l : CacheLine) : Bool := l.mesiState != .INVALID

/-- isDirty: MODIFIED implies dirty, otherwise the stored dirty bit. -/
def CacheLine.isDirty (l : CacheLine) : Bool := l.mesiState == .MODIFIED || l.dirty

/-- CacheLine::setMESIState: adjusts the dirty bit while transitioning. -/
def CacheLine.setMESIState (l : CacheLine) (s : MESIState) : CacheLine :=
  let d1 := if l.mesiState = .MODIFIED ∧ s ≠ .MODIFIED then true else l.dirty
  let d2 := if s = .INVALID then false else d1
  let d3 := if (s = .SHARED ∨ s = .EXCLUSIVE) ∧ l.mesiState = .MODIFIED then false else d2
  { l with mesiState := s, dirty := d3 }

/-- CacheLine::reset: invalidate and zero everything, keeping the size. -/
def CacheLine.reset (l : CacheLine) : CacheLine :=
  ⟨.INVALID, false, 0, 0, List.replicate l.data.length 0⟩

/-- CacheLine::loadData: rejected on size mismatch, otherwise installs the
data, tag and state; the load is clean unless the state is MODIFIED. -/
def CacheLine.loadData (l : CacheLine) (newData : List Nat) (newTag : Nat)
    (s : MESIState) : CacheLine :=
  if newData.length ≠ l.data.length then l
  else { l with data := newData, tag := newTag, mesiState := s,
                dirty := s == .MODIFIED }

/-- CacheLine::writeWord: guarded by validity and bounds; writes four bytes
little-endian, makes the line MODIFIED and dirty. -/
def CacheLine.writeWord (l : CacheLine) (offset value : Nat) : CacheLine :=
  if l.isValid = false then l
  else if l.data.length ≤ offset + 3 then l
  else
    let d0 := l.data.set offset (value % 256)
    let d1 := d0.set (offset + 1) (value / 256 % 256)
    let d2 := d1.set (offset + 2) (value / 65536 % 256)
    let d3 := d2.set (offset + 3) (value / 16777216 % 256)
    { l with data := d3, mesiState := .MODIFIED, dirty := true }

/-- CacheLine::setDirty: on a valid line, set dirty and move to MODIFIED. -/
def CacheLine.setDirtyOp (l : CacheLine) : CacheLine :=
  if l.isValid then { l with dirty := true, mesiState := .MODIFIED } else l

/-- CacheLine::clearDirty: clear the bit; a MODIFIED line becomes EXCLUSIVE. -/
def CacheLine.clearDirtyOp (l : CacheLine) : CacheLine :=
  let l1 := { l with dirty := false }
  if l.mesiState = .MODIFIED then { l1 with mesiState := .EXCLUSIVE } else l1

/-- The mutating operations of CacheLine, for quantifying over call sequences. -/
inductive LineOp where
  | loadData (newData : List Nat) (newTag : Nat) (s : MESIState)
  | writeWord (offset value : Nat)
  | setMESIState (s : MESIState)
  | setDirty
  | clearDirty
  | reset
deriving Repr

/-- Apply one CacheLine operation. -/
def CacheLine.applyOp (l : CacheLine) : LineOp → CacheLine
  | .loadData d t s => l.loadData d t s
  | .writeWord o v => l.writeWord o v
  | .setMESIState s => l.setMESIState s
  | .setDirty => l.setDirtyOp
  | .clearDirty => l.clearDirtyOp
  | .reset => l.reset

/-- Apply a sequence of CacheLine operations, oldest first. -/
def CacheLine.applyOps (l : CacheLine) (ops : List LineOp) : CacheLine :=
  ops.foldl CacheLine.applyOp l

/-- The dirty-bit invariant: the stored bit only holds in state MODIFIED. -/
def dirtyInv (l : CacheLine) : Prop := l.dirty = true → l.mesiState = .MODIFIED

theorem dirtyInv_mkLine (blockSize : Nat) : dirtyInv (CacheLine.mkLine blockSize) := by
  simp [dirtyInv, CacheLine.mkLine]

theorem dirtyInv_applyOp (l : CacheLine) (op : LineOp) (h : dirtyInv l) :
    dirtyInv (l.applyOp op) := by
  cases op with
  | loadData d t s =>
    simp only [CacheLine.applyOp, CacheLine.loadData]
    split
    · exact h
    · cases s <;> simp [dirtyInv]
  | writeWord o v =>
    simp only [CacheLine.applyOp, CacheLine.writeWord]
    split
    · exact h
    · split
      · exact h
      · simp [dirtyInv]
  | setMESIState s =>
    simp only [CacheLine.applyOp, CacheLine.setMESIState]
    cases s <;> cases hm : l.mesiState <;>
      simp_all [dirtyInv]
  | setDirty =>
    simp only [CacheLine.applyOp, CacheLine.setDirtyOp]
    split
    · simp [dirtyInv]
    · exact h
  | clearDirty =>
    simp only [CacheLine.applyOp, CacheLine.clearDirtyOp]
    split <;> simp [dirtyInv]
  | reset =>
    simp [CacheLine.applyOp, CacheLine.reset, dirtyInv]

theorem dirtyInv_applyOps (l : CacheLine) (ops : List LineOp) (h : dirtyInv l) :
    dirtyInv (l.applyOps ops) := by
  induction ops generalizing l with
  | nil => exact h
  | cons op rest ih => exact ih _ (dirtyInv_applyOp l op h)

theorem isDirty_eq_of_dirtyInv (l : CacheLine) (h : dirtyInv l) :
    l.isDirty = (l.mesiState == .MODIFIED) := by
  cases hd : l.dirty with
  | false => simp [CacheLine.isDirty, hd]
  | true => simp [CacheLine.isDirty, hd, h hd]

/-- **C8.** For every CacheLine and every sequence of its operations
(loadData, writeWord, setMESIState, setDirty, clearDirty, reset) starting
from a freshly constructed line, isDirty() returns true exactly when the
MESI state is MODIFIED, and the stored dirty bit never holds while the
state is non-MODIFIED. -/
theorem isDirty_iff_modified (blockSize : Nat) (ops : List LineOp) :
    ((CacheLine.mkLine blockSize).applyOps ops).isDirty
        = (((CacheLine.mkLine blockSize).applyOps ops).mesiState == .MODIFIED)
    ∧ (!((CacheLine.mkLine blockSize).applyOps ops).dirty
        || (((CacheLine.mkLine blockSize).applyOps ops).mesiState == .MODIFIED)) = true := by
  have hinv := dirtyInv_applyOps (CacheLine.mkLine blockSize) ops (dirtyInv_mkLine blockSize)
  refine ⟨isDirty_eq_of_dirtyInv _ hinv, ?_⟩
  cases hd : ((CacheLine.mkLine blockSize).applyOps ops).dirty with
  | false => simp
  | true => simp [hinv hd]

/-! ## Main memory (MainMemory.h / its implementation) -/

/-- The sparse block store: block size, statistics, and the address map
(std::map modelled as an association list with first-match lookup). -/
structure MainMemory where
  blockSize : Nat
  readCount : Nat
  writeCount : Nat
  mem : List (Nat × List Nat)
deriving DecidableEq, Repr

/-- map::find. -/
def memLookup : List (Nat × List Nat) → Nat → Option (List Nat)
  | [], _ => none
  | (k, v) :: rest, a => if k = a then some v else memLookup rest a

/-- map insert-or-assign (map[key] = value). -/
def memInsert : List (Nat × List Nat) → Nat → List Nat → List (Nat × List Nat)
  | [], a, d => [(a, d)]
  | (k, v) :: rest, a, d =>
      if k = a then (k, d) :: rest else (k, v) :: memInsert rest a d

/-- MainMemory constructor. -/
def MainMemory.mkMemory (blockSize : Nat) : MainMemory := ⟨blockSize, 0, 0, []⟩

/-- MainMemory::readBlock: counts the read; returns the stored block, or
stores and returns a zero block when the address is absent. -/
def MainMemory.readBlock (m : MainMemory) (blockAddress : Nat) :
    MainMemory × List Nat :=
  let m1 := { m with readCount := u32 (m.readCount + 1) }
  match memLookup m1.mem blockAddress with
  | some d => (m1, d)
  | none =>
      let z := List.replicate m1.blockSize 0
      ({ m1 with mem := memInsert m1.mem blockAddress z }, z)

/-- MainMemory::writeBlock: counts the write first; a size-mismatched block
is rejected (logged) and the mapping is left unchanged. -/
def MainMemory.writeBlock (m : MainMemory) (blockAddress : Nat) (d : List Nat) :
    MainMemory :=
  let m1 := { m with writeCount := u32 (m.writeCount + 1) }
  if d.length ≠ m1.blockSize then m1
  else { m1 with mem := memInsert m1.mem blockAddress d }

/-- **C10.** A MainMemory::writeBlock call whose data size differs from the
configured blockSize leaves the stored mapping (and the read counter and
block size) unchanged, yet still increments the writeCount statistic. -/
theorem writeBlock_size_mismatch (m : MainMemory) (a : Nat) (d : List Nat)
    (h : d.length ≠ m.blockSize) :
    (m.writeBlock a d).mem = m.mem
    ∧ (m.writeBlock a d).writeCount = u32 (m.writeCount + 1)
    ∧ (m.writeBlock a d).readCount = m.readCount
    ∧ (m.writeBlock a d).blockSize = m.blockSize := by
  simp [MainMemory.writeBlock, h]

/-- Witness for C10 at a concrete memory and a 3-byte block offered to a
4-byte memory. -/
theorem writeBlock_size_mismatch_witness :
    (([1, 2, 3] : List Nat).length ≠ (MainMemory.mkMemory 4).blockSize)
    ∧ ((MainMemory.mkMemory 4).writeBlock 32 [1, 2, 3]).mem = (MainMemory.mkMemory 4).mem
    ∧ ((MainMemory.mkMemory 4).writeBlock 32 [1, 2, 3]).writeCount
        = u32 ((MainMemory.mkMemory 4).writeCount + 1) := by
  refine ⟨by decide, ?_, ?_⟩
  · exact (writeBlock_size_mismatch (MainMemory.mkMemory 4) 32 [1, 2, 3] (by decide)).1
  · exact (writeBlock_size_mismatch (MainMemory.mkMemory 4) 32 [1, 2, 3] (by decide)).2.1

/-! ## Command-line configuration (CommandLine.h, validateConfig, main) -/

/-- SimulationConfig; std::string appName is modelled as a character list. -/
structure SimulationConfig where
  appName : List Char
  setBits : Int
  associativity : Int
  blockBits : Int
  outputFile : List Char
  helpRequested : Bool
deriving DecidableEq, Repr

/-- validateConfig: help short-circuits; otherwise requires a nonempty
application name and positive -s, -E, -b.  (No condition on s+b.) -/
def validateConfig (config : SimulationConfig) : Bool :=
  if config.helpRequested then true
  else
    let valid := true
    let valid := if config.appName.isEmpty then false else valid
    let valid := if config.setBits ≤ 0 then false else valid
    let valid := if config.associativity ≤ 0 then false else valid
    let valid := if config.blockBits ≤ 0 then false else valid
    valid

/-- The three ways main can proceed after parsing. -/
inductive MainOutcome where
  | exitHelp
  | exitInvalidArgs
  | runSimulation
deriving DecidableEq, Repr

/-- The dispatch at the top of main: help exits 0, a failed validation
exits 1 without running, otherwise the simulation is constructed and run. -/
def mainDispatch (config : SimulationConfig) : MainOutcome :=
  if config.helpRequested then .exitHelp
  else if validateConfig config = false then .exitInvalidArgs
  else .runSimulation

/-- A configuration with s + b = 40 > 32 and otherwise valid fields. -/
def wideConfig : SimulationConfig :=
  { appName := ['a', 'p', 'p', '1'], setBits := 20, associativity := 2,
    blockBits := 20, outputFile := [], helpRequested := false }

/-- **C9 counterexample.** A configuration with s+b > 32 passes
validateConfig and main proceeds to run the simulation instead of
rejecting it with exit code 1. -/
theorem wideConfig_not_rejected :
    wideConfig.setBits + wideConfig.blockBits > 32
    ∧ validateConfig wideConfig = true
    ∧ mainDispatch wideConfig = .runSimulation := by
  refine ⟨by decide, by decide, by decide⟩

/-- **C9 (amended).** With help not requested, main exits with code 1
(without running the simulation) exactly when the application name is
missing or one of -s, -E, -b is non-positive; the condition s+b > 32 is
not checked anywhere in validateConfig or main. -/
theorem mainDispatch_invalid_iff (config : SimulationConfig)
    (h : config.helpRequested = false) :
    mainDispatch config = .exitInvalidArgs
      ↔ (config.appName.isEmpty = true ∨ config.setBits ≤ 0
          ∨ config.associativity ≤ 0 ∨ config.blockBits ≤ 0) := by
  simp only [mainDispatch, validateConfig, h, if_false, Bool.false_eq_true]
  by_cases h1 : config.appName.isEmpty <;>
    by_cases h2 : config.setBits ≤ 0 <;>
      by_cases h3 : config.associativity ≤ 0 <;>
        by_cases h4 : config.blockBits ≤ 0 <;>
          simp [h1, h2, h3, h4]

/-- Witness for the amended C9 at a concrete invalid configuration
(missing application name). -/
theorem mainDispatch_invalid_iff_witness :
    mainDispatch { appName := [], setBits := 2, associativity := 2,
                   blockBits := 4, outputFile := [], helpRequested := false }
      = .exitInvalidArgs := by
  exact (mainDispatch_invalid_iff _ rfl).mpr (Or.inl (by decide))

/-! ## Addresses (Address.h / Address.cpp) -/

/-- A 32-bit address with the configured set-index and block-offset widths. -/
structure Address where
  address : Nat
  s : Nat
  b : Nat
deriving DecidableEq, Repr

/-- Address constructor: masks the value to 32 bits. -/
def Address.mkAddr (addr setBits blockBits : Nat) : Address :=
  ⟨u32 addr, setBits, blockBits⟩

/-- Tag: the address shifted right by s + b. -/
def Address.getTag (a : Address) : Nat := a.address / 2 ^ (a.s + a.b)

/-- Set index: the middle s bits. -/
def Address.getIndex (a : Address) : Nat := a.address / 2 ^ a.b % 2 ^ a.s

/-- Block offset: the low b bits. -/
def Address.getOffset (a : Address) : Nat := a.address % 2 ^ a.b

/-- Block address: the address with the low b bits cleared. -/
def Address.getBlockAddress (a : Address) : Nat :=
  a.address - a.address % 2 ^ a.b

/-! ## Cache sets (CacheSet.h / CacheSet.cpp) -/

/-- A cache set: the line array, the per-set LRU counter and associativity. -/
structure CacheSet where
  lines : List CacheLine
  lruCounter : Nat
  associativity : Nat
deriving DecidableEq, Repr

instance : Inhabited CacheSet := ⟨⟨[], 0, 0⟩⟩

/-- CacheSet constructor. -/
def CacheSet.mkSet (associativity blockSize : Nat) : CacheSet :=
  ⟨List.replicate associativity (CacheLine.mkLine blockSize), 0, associativity⟩

/-- CacheSet::findLine: index of the first valid line with the tag. -/
def findLineIdx : List CacheLine → Nat → Option Nat
  | [], _ => none
  | l :: rest, tag =>
      if l.isValid && l.tag == tag then some 0
      else (findLineIdx rest tag).map (fun k => k + 1)

/-- CacheSet::findInvalidLine: index of the first invalid line. -/
def findInvalidIdx : List CacheLine → Option Nat
  | [] => none
  | l :: rest =>
      if !l.isValid then some 0
      else (findInvalidIdx rest).map (fun k => k + 1)

/-- The scan of CacheSet::findVictim over valid lines: the first index
attaining the minimum LRU counter. -/
def minLRUIdx (lines : List CacheLine) : Nat :=
  (List.range lines.length).foldl
    (fun best k =>
      if (lines.getD k default).lruCounter < (lines.getD best default).lruCounter
      then k else best) 0

/-- CacheSet::findVictim: an invalid line if one exists, else the valid
line with the minimum LRU counter (first index on ties).  Returns none for
an empty line array, where the source would dereference out of bounds. -/
def CacheSet.findVictimIdx (s : CacheSet) : Option Nat :=
  match findInvalidIdx s.lines with
  | some k => some k
  | none => if s.lines.isEmpty then none else some (minLRUIdx s.lines)

/-- Stable insertion of an (lru, index) pair into an ascending list.  The
source uses std::sort, whose tie order is unspecified; ties are broken
here stably, which is one refinement of that behaviour. -/
def insertByLRU (p : Nat × Nat) : List (Nat × Nat) → List (Nat × Nat)
  | [] => [p]
  | q :: rest => if q.1 ≤ p.1 then q :: insertByLRU p rest else p :: q :: rest

/-- Ascending sort of (lru, index) pairs. -/
def sortByLRU : List (Nat × Nat) → List (Nat × Nat)
  | [] => []
  | p :: rest => insertByLRU p (sortByLRU rest)

/-- The overflow renumbering inside CacheSet::updateLRU: valid lines are
reassigned 0, 1, … in ascending order of their old LRU counters. -/
def renumberLines (lines : List CacheLine) : List CacheLine :=
  let validIdx := (List.range lines.length).filter
    (fun k => (lines.getD k default).isValid)
  let pairs := validIdx.map (fun k => ((lines.getD k default).lruCounter, k))
  let sorted := sortByLRU pairs
  (List.range sorted.length).foldl
    (fun ls i =>
      let k := (sorted.getD i (0, 0)).2
      ls.set k { (ls.getD k default) with lruCounter := i })
    lines

/-- CacheSet::updateLRU on the line at index k: increment the set counter
(32-bit), renumber on overflow, and stamp the new counter onto the line. -/
def CacheSet.updateLRU (s : CacheSet) (k : Nat) : CacheSet :=
  let c1 := u32 (s.lruCounter + 1)
  if c1 = 4294967295 then
    let lines1 := renumberLines s.lines
    let c2 := (s.lines.filter (fun l => l.isValid)).length
    { s with lines := lines1.set k { (lines1.getD k default) with lruCounter := c2 },
             lruCounter := c2 }
  else
    { s with lines := s.lines.set k { (s.lines.getD k default) with lruCounter := c1 },
             lruCounter := c1 }

/-! ## Per-core caches and the simulator state (Cache.h / Cache.cpp /
Simulator.h / Simulator.cpp) -/

/-- The five coherence transactions. -/
inductive BusTransaction where
  | BUS_RD
  | BUS_RDX
  | BUS_UPGR
  | FLUSH
  | INVALIDATE
deriving DecidableEq, Repr

/-- A per-core cache.  The C++ constructor leaves evictionCount and
writebackCount out of its initializer list; they are modelled as starting
at zero. -/
structure Cache where
  coreId : Nat
  sets : List CacheSet
  setBits : Nat
  blockBits : Nat
  numSets : Nat
  blockSize : Nat
  associativity : Nat
  accessCount : Nat
  hitCount : Nat
  missCount : Nat
  readCount : Nat
  writeCount : Nat
  coherenceCount : Nat
  evictionCount : Nat
  writebackCount : Nat
  pendingMiss : Bool
  missResolveTime : Nat
  currentCycle : Nat
  dataSourceCache : Int
deriving DecidableEq, Repr

instance : Inhabited Cache :=
  ⟨{ coreId := 0, sets := [], setBits := 0, blockBits := 0, numSets := 0,
     blockSize := 0, associativity := 0, accessCount := 0, hitCount := 0,
     missCount := 0, readCount := 0, writeCount := 0, coherenceCount := 0,
     evictionCount := 0, writebackCount := 0, pendingMiss := false,
     missResolveTime := 0, currentCycle := 0, dataSourceCache := -1 }⟩

/-- Cache constructor. -/
def Cache.mkCache (coreId numSets associativity blockSize setBits blockBits : Nat) :
    Cache :=
  { coreId, sets := List.replicate numSets (CacheSet.mkSet associativity blockSize),
    setBits, blockBits, numSets, blockSize, associativity,
    accessCount := 0, hitCount := 0, missCount := 0, readCount := 0,
    writeCount := 0, coherenceCount := 0, evictionCount := 0, writebackCount := 0,
    pendingMiss := false, missResolveTime := 0, currentCycle := 0,
    dataSourceCache := -1 }

/-- One record of a memory trace, after parsing: a well-formed R/W line,
a line with an unknown opcode (skipped with a warning), or a line on which
token extraction fails (treated as end of file for that core). -/
inductive TraceRec where
  | rw (isWrite : Bool) (address : Nat)
  | badOp
  | blank
deriving DecidableEq, Repr

/-- One core's view of the trace reader, plus a ghost count of the
well-formed records it has consumed. -/
structure TraceStream where
  remaining : List TraceRec
  fileEnded : Bool
  consumedRW : Nat
deriving DecidableEq, Repr

instance : Inhabited TraceStream := ⟨⟨[], true, 0⟩⟩

/-- A processor front end. -/
structure Processor where
  coreId : Nat
  blocked : Bool
  cyclesBlocked : Nat
  instructionsExecuted : Nat
deriving DecidableEq, Repr

instance : Inhabited Processor := ⟨⟨0, false, 0, 0⟩⟩

/-- The cache-organization part of SimulationConfig. -/
structure Config where
  setBits : Nat
  blockBits : Nat
  associativity : Nat
deriving DecidableEq, Repr

/-- The whole simulator: configuration, the four caches and processors,
the trace reader, memory, the bus bookkeeping (busBusyUntil is the
file-scope static in Simulator.cpp) and the global statistics. -/
structure SimState where
  cfg : Config
  caches : List Cache
  processors : List Processor
  traces : List TraceStream
  mainMemory : MainMemory
  busBusyUntil : Nat
  invalidationCount : Nat
  busTrafficBytes : Nat
  cacheToCache : Nat
  currentCycle : Nat
  totalInstructions : Nat
  totalCycles : Nat
  totalMemoryAccesses : Nat
  totalCacheHits : Nat
  totalCacheMisses : Nat
deriving DecidableEq, Repr

/-- Cache::handleBusTransaction: the snoop reaction of one cache.  Returns
the updated cache, the updated memory, the providedData flag and the
handled flag (the C++ return value). -/
def Cache.handleBusTransaction (c : Cache) (mem : MainMemory) (t : BusTransaction)
    (addr : Address) : Cache × MainMemory × Bool × Bool :=
  let setIndex := addr.getIndex
  let tag := addr.getTag
  if c.sets.length ≤ setIndex then (c, mem, false, false)
  else
    let cset := c.sets.getD setIndex default
    match findLineIdx cset.lines tag with
    | none => (c, mem, false, false)
    | some k =>
      let line := cset.lines.getD k default
      let putLine := fun (l : CacheLine) =>
        { c with sets := c.sets.set setIndex { cset with lines := cset.lines.set k l } }
      match t with
      | .BUS_RD =>
        match line.mesiState with
        | .MODIFIED =>
            (putLine (line.setMESIState .SHARED),
             mem.writeBlock addr.getBlockAddress line.data, true, true)
        | .EXCLUSIVE => (putLine (line.setMESIState .SHARED), mem, true, true)
        | .SHARED => (c, mem, true, true)
        | .INVALID => (c, mem, false, false)
      | .BUS_RDX =>
        match line.mesiState with
        | .INVALID => (c, mem, false, false)
        | .MODIFIED =>
            (putLine (line.setMESIState .INVALID),
             mem.writeBlock addr.getBlockAddress line.data, true, true)
        | _ => (putLine (line.setMESIState .INVALID), mem, false, true)
      | .INVALIDATE =>
        match line.mesiState with
        | .INVALID => (c, mem, false, false)
        | .MODIFIED =>
            (putLine (line.setMESIState .INVALID),
             mem.writeBlock addr.getBlockAddress line.data, true, true)
        | _ => (putLine (line.setMESIState .INVALID), mem, false, true)
      | .BUS_UPGR =>
        match line.mesiState with
        | .SHARED => (putLine (line.setMESIState .INVALID), mem, false, true)
        | _ => (c, mem, false, false)
      | .FLUSH => (c, mem, false, true)

/-- The snoop loop of the Simulator coherence callback: every cache except
the requester reacts in ascending core order; the first provider becomes
the source core and counts one cache-to-cache transfer. -/
def snoopCores (t : BusTransaction) (addr : Address) (req : Nat) :
    List Nat → SimState → Bool → Int → SimState × Bool × Int
  | [], st, dp, src => (st, dp, src)
  | core :: rest, st, dp, src =>
    if core = req then snoopCores t addr req rest st dp src
    else
      let h := (st.caches.getD core default).handleBusTransaction st.mainMemory t addr
      let st1 := { st with caches := st.caches.set core h.1, mainMemory := h.2.1 }
      if h.2.2.1 && !dp then
        snoopCores t addr req rest
          { st1 with cacheToCache := u32 (st1.cacheToCache + 1) } true (Int.ofNat core)
      else snoopCores t addr req rest st1 dp src

/-- Whether a cache holds a valid line with this tag in this set (the
sharer test inside the BUS_RDX accounting loop). -/
def cacheHasValidMatch (c : Cache) (setIdx tag : Nat) : Bool :=
  (c.sets.getD setIdx default).lines.any (fun l => l.isValid && l.tag == tag)

/-- The BUS_RDX sharer count: peers (requester excluded) holding a valid
copy of the block, counted before any snooping happens. -/
def countSharers (st : SimState) (addr : Address) (req : Nat) : Nat :=
  ((List.range st.caches.length).filter (fun c => c ≠ req)).countP
    (fun c => cacheHasValidMatch (st.caches.getD c default) addr.getIndex addr.getTag)

/-- The Simulator coherence callback: account hold length, traffic bytes
and invalidations per transaction type, arbitrate the bus, then snoop. -/
def busTransact (st : SimState) (t : BusTransaction) (addr : Address) (req : Nat) :
    SimState × Bool × Int :=
  let blockSize := 2 ^ st.cfg.blockBits
  let numWords := blockSize / 4
  let acct :=
    match t with
    | .BUS_RD =>
        ({ st with busTrafficBytes := u32 (st.busTrafficBytes + blockSize) },
         2 * numWords)
    | .BUS_RDX =>
        let sharers := countSharers st addr req
        ({ st with invalidationCount := u32 (st.invalidationCount + sharers),
                   busTrafficBytes := u32 (st.busTrafficBytes + blockSize) },
         2 * numWords)
    | .BUS_UPGR =>
        ({ st with invalidationCount := u32 (st.invalidationCount + 1) }, 2)
    | .INVALIDATE =>
        ({ st with invalidationCount := u32 (st.invalidationCount + 1) }, 2)
    | .FLUSH =>
        ({ st with busTrafficBytes := u32 (st.busTrafficBytes + blockSize) }, 100)
  let st1 := acct.1
  let startCycle := max st1.currentCycle st1.busBusyUntil
  let st2 := { st1 with busBusyUntil := u32 (startCycle + acct.2) }
  snoopCores t addr req (List.range st2.caches.length) st2 false (-1)

/-- The data of the first valid line with this tag, if any. -/
def findValidLineData : List CacheLine → Nat → Option (List Nat)
  | [], _ => none
  | l :: rest, tag =>
      if l.isValid && l.tag == tag then some l.data else findValidLineData rest tag

/-- Cache::fetchBlockFromMemoryOrCache: take the block from the recorded
source cache if it still holds a valid copy, else read main memory. -/
def fetchBlockFromMemoryOrCache (st : SimState) (c : Cache) (addr : Address) :
    MainMemory × List Nat :=
  let blockAddr := addr.getBlockAddress
  let peerData : Option (List Nat) :=
    if 0 ≤ c.dataSourceCache ∧ c.dataSourceCache < (st.caches.length : Int) then
      let supplier := st.caches.getD c.dataSourceCache.toNat default
      if addr.getIndex < supplier.sets.length then
        findValidLineData (supplier.sets.getD addr.getIndex default).lines addr.getTag
      else none
    else none
  match peerData with
  | some d => (st.mainMemory, d)
  | none => st.mainMemory.readBlock blockAddr

/-- The victim's block address as reconstructed in Cache::read/write:
(tag << (s+b)) | (setIndex << b) in 32-bit arithmetic. -/
def victimBlockAddress (victimTag setIndex setBits blockBits : Nat) : Nat :=
  Nat.lor (u32 (victimTag <<< (setBits + blockBits))) (u32 (setIndex <<< blockBits))

/-- The victim bookkeeping shared by the Cache::read and Cache::write miss
paths: eviction/writeback counters, the FLUSH transaction and the memory
writeback of a dirty victim, and the base missResolveTime. -/
def missVictimPhase (st : SimState) (setIndex : Nat) (victim : CacheLine)
    (c1 : Cache) : SimState × Cache :=
  let c2 :=
    if victim.isValid then
      { c1 with evictionCount := u32 (c1.evictionCount + 1),
                writebackCount := if victim.isDirty
                  then u32 (c1.writebackCount + 1) else c1.writebackCount }
    else c1
  if victim.isValid && victim.isDirty then
    let vba := victimBlockAddress victim.tag setIndex c2.setBits c2.blockBits
    let flushAddr := Address.mkAddr vba c2.setBits c2.blockBits
    let s1 := (busTransact st .FLUSH flushAddr c2.coreId).1
    let c3 := { c2 with coherenceCount := u32 (c2.coherenceCount + 1) }
    let s2 := { s1 with mainMemory := s1.mainMemory.writeBlock vba victim.data }
    (s2, { c3 with missResolveTime := u32 (c3.currentCycle + 100) })
  else (st, { c2 with missResolveTime := c2.currentCycle })

/-- The miss branch of Cache::read: victim handling, BUS_RD, state choice,
fill timing, fetch, and the install into the victim line. -/
def cacheReadMiss (st : SimState) (r : Nat) (addr : Address) (c1 : Cache)
    (setIndex tag : Nat) (cset : CacheSet) : SimState × Bool :=
  match cset.findVictimIdx with
  | none => ({ st with caches := st.caches.set r c1 }, false)
  | some v =>
    let victim := cset.lines.getD v default
    let afterWb := missVictimPhase st setIndex victim c1
    let bd := busTransact afterWb.1 .BUS_RD addr afterWb.2.coreId
    let st1 := bd.1
    let c4 := { afterWb.2 with coherenceCount := u32 (afterWb.2.coherenceCount + 1) }
    let c5 := if bd.2.1 then { c4 with dataSourceCache := bd.2.2 } else c4
    let newState := if (0 : Int) ≤ c5.dataSourceCache
                    then MESIState.SHARED else MESIState.EXCLUSIVE
    let mrt := if (0 : Int) ≤ c5.dataSourceCache
               then u32 (c5.missResolveTime + 2 * (c5.blockSize / 4))
               else u32 (c5.missResolveTime + 100)
    let c6 := { c5 with missResolveTime := mrt }
    let fd := fetchBlockFromMemoryOrCache st1 c6 addr
    let st2 := { st1 with mainMemory := fd.1 }
    let victim2 := victim.loadData fd.2 tag newState
    let cset2 := { cset with lines := cset.lines.set v victim2 }
    let c7 := { c6 with sets := c6.sets.set setIndex cset2 }
    ({ st2 with caches := st2.caches.set r c7 }, false)

/-- Cache::read on the cache at position r of the simulator, returning the
new system state and the C++ return value (true on hit). -/
def cacheRead (st : SimState) (r : Nat) (addr : Address) : SimState × Bool :=
  let c0 := st.caches.getD r default
  let c0 := { c0 with accessCount := u32 (c0.accessCount + 1),
                      readCount := u32 (c0.readCount + 1) }
  if c0.pendingMiss then ({ st with caches := st.caches.set r c0 }, false)
  else
    let setIndex := addr.getIndex
    let tag := addr.getTag
    if c0.sets.length ≤ setIndex then ({ st with caches := st.caches.set r c0 }, false)
    else
      let cset := c0.sets.getD setIndex default
      match findLineIdx cset.lines tag with
      | some k =>
          let c1 := { c0 with hitCount := u32 (c0.hitCount + 1),
                              sets := c0.sets.set setIndex (cset.updateLRU k) }
          ({ st with caches := st.caches.set r c1 }, true)
      | none =>
          let c1 := { c0 with missCount := u32 (c0.missCount + 1), pendingMiss := true,
                              dataSourceCache := -1 }
          cacheReadMiss st r addr c1 setIndex tag cset

/-- Whether a cache's set holds an INVALID line whose stale tag field
matches (the test of the fallback source scan in Cache::write). -/
def cacheHasStaleMatch (c : Cache) (setIdx tag : Nat) : Bool :=
  if setIdx < c.sets.length then
    (c.sets.getD setIdx default).lines.any (fun l => !l.isValid && l.tag == tag)
  else false

/-- The fallback scan of Cache::write after an unprovided BUS_RDX: the
first other core holding an invalidated entry with a matching tag. -/
def findStaleSource (st : SimState) (me setIdx tag : Nat) : Option Nat :=
  ((List.range st.caches.length).filter (fun i => i ≠ me)).find?
    (fun i => cacheHasStaleMatch (st.caches.getD i default) setIdx tag)

/-- The hit branch of Cache::write: LRU update, BUS_UPGR when SHARED, the
transition to MODIFIED, and the word write. -/
def cacheWriteHit (st : SimState) (r : Nat) (addr : Address) (c1 : Cache)
    (setIndex offset k : Nat) (cset : CacheSet) : SimState × Bool :=
  let cset1 := cset.updateLRU k
  let line := cset1.lines.getD k default
  let curState := line.mesiState
  let afterUpgr :=
    if curState = .SHARED then
      ((busTransact st .BUS_UPGR addr c1.coreId).1,
       { c1 with coherenceCount := u32 (c1.coherenceCount + 1) })
    else (st, c1)
  let line2 := if curState = .SHARED ∨ curState = .EXCLUSIVE
               then line.setMESIState .MODIFIED else line
  let wordOffset := offset - offset % 4
  let line3 := line2.writeWord wordOffset 3735928559
  let cset2 := { cset1 with lines := cset1.lines.set k line3 }
  let c2 := { afterUpgr.2 with sets := afterUpgr.2.sets.set setIndex cset2 }
  ({ afterUpgr.1 with caches := afterUpgr.1.caches.set r c2 }, true)

/-- The miss branch of Cache::write: victim handling, BUS_RDX, the stale
fallback source scan, fetch, fill timing, and the MODIFIED install plus
the word write. -/
def cacheWriteMiss (st : SimState) (r : Nat) (addr : Address) (c1 : Cache)
    (setIndex tag offset : Nat) (cset : CacheSet) : SimState × Bool :=
  match cset.findVictimIdx with
  | none => ({ st with caches := st.caches.set r c1 }, false)
  | some v =>
    let victim := cset.lines.getD v default
    let afterWb := missVictimPhase st setIndex victim c1
    let bd := busTransact afterWb.1 .BUS_RDX addr afterWb.2.coreId
    let st1 := bd.1
    let c4 := { afterWb.2 with coherenceCount := u32 (afterWb.2.coherenceCount + 1) }
    let c5 :=
      if bd.2.1 then { c4 with dataSourceCache := bd.2.2 }
      else
        match findStaleSource st1 c4.coreId setIndex tag with
        | some i => { c4 with dataSourceCache := Int.ofNat i }
        | none => c4
    let fd := fetchBlockFromMemoryOrCache st1 c5 addr
    let st2 := { st1 with mainMemory := fd.1 }
    let mrt := if (0 : Int) ≤ c5.dataSourceCache
               then u32 (c5.missResolveTime + 2 * (c5.blockSize / 4))
               else u32 (c5.missResolveTime + 100)
    let c6 := { c5 with missResolveTime := mrt }
    let wordOffset := offset - offset % 4
    let victim2 := (victim.loadData fd.2 tag .MODIFIED).writeWord wordOffset 3735928559
    let cset2 := { cset with lines := cset.lines.set v victim2 }
    let c7 := { c6 with sets := c6.sets.set setIndex cset2 }
    ({ st2 with caches := st2.caches.set r c7 }, false)

/-- Cache::write on the cache at position r of the simulator, returning
the new system state and the C++ return value (true on hit). -/
def cacheWrite (st : SimState) (r : Nat) (addr : Address) : SimState × Bool :=
  let c0 := st.caches.getD r default
  let c0 := { c0 with accessCount := u32 (c0.accessCount + 1),
                      writeCount := u32 (c0.writeCount + 1) }
  if c0.pendingMiss then ({ st with caches := st.caches.set r c0 }, false)
  else
    let setIndex := addr.getIndex
    let tag := addr.getTag
    let offset := addr.getOffset
    if c0.sets.length ≤ setIndex then ({ st with caches := st.caches.set r c0 }, false)
    else
      let cset := c0.sets.getD setIndex default
      match findLineIdx cset.lines tag with
      | some k =>
          let c1 := { c0 with hitCount := u32 (c0.hitCount + 1) }
          cacheWriteHit st r addr c1 setIndex offset k cset
      | none =>
          let c1 := { c0 with missCount := u32 (c0.missCount + 1), pendingMiss := true,
                              dataSourceCache := -1 }
          cacheWriteMiss st r addr c1 setIndex tag offset cset

/-- Cache::checkMissResolved: clears a pending miss whose resolve time has
been reached. -/
def Cache.checkMissResolved (c : Cache) : Cache × Bool :=
  if c.pendingMiss && c.missResolveTime ≤ c.currentCycle then
    ({ c with pendingMiss := false }, true)
  else (c, false)

/-- A reachability step for the coherence subsystem: one trace access
(which calls Cache::read or Cache::write), or the per-cycle bookkeeping
(Cache::setCycle on every cache followed by Cache::checkMissResolved). -/
inductive SimStep where
  | access (core : Nat) (isWrite : Bool) (address : Nat)
  | tick (cycle : Nat)
deriving Repr

/-- Apply one reachability step. -/
def applyStep (st : SimState) : SimStep → SimState
  | .access core isWrite a =>
      let addr := Address.mkAddr a st.cfg.setBits st.cfg.blockBits
      if isWrite then (cacheWrite st core addr).1 else (cacheRead st core addr).1
  | .tick cycle =>
      let ticked := st.caches.map (fun c => { c with currentCycle := u32 cycle })
      let st1 := { st with currentCycle := u32 cycle, caches := ticked }
      { st1 with caches := st1.caches.map (fun c => c.checkMissResolved.1) }

/-- Apply a list of steps, oldest first. -/
def execSteps (steps : List SimStep) (st : SimState) : SimState :=
  steps.foldl applyStep st

/-- The initial simulator state built by Simulator::initializeComponents:
four caches with all lines INVALID, four idle processors, the trace
streams, empty memory, and all counters zero. -/
def initState (cfg : Config) (traceLists : List (List TraceRec)) : SimState :=
  let numSets := 2 ^ cfg.setBits
  let blockSize := 2 ^ cfg.blockBits
  { cfg,
    caches := (List.range 4).map (fun i =>
      Cache.mkCache i numSets cfg.associativity blockSize cfg.setBits cfg.blockBits),
    processors := (List.range 4).map (fun i =>
      { coreId := i, blocked := false, cyclesBlocked := 0, instructionsExecuted := 0 }),
    traces := (List.range 4).map (fun i =>
      { remaining := traceLists.getD i [], fileEnded := false, consumedRW := 0 }),
    mainMemory := MainMemory.mkMemory blockSize,
    busBusyUntil := 0, invalidationCount := 0, busTrafficBytes := 0,
    cacheToCache := 0, currentCycle := 0, totalInstructions := 0,
    totalCycles := 0, totalMemoryAccesses := 0, totalCacheHits := 0,
    totalCacheMisses := 0 }

/-! ## Block-holding predicates and basic lemmas -/

/-- A line holds the block with this tag: valid with a matching tag. -/
def isMatch (l : CacheLine) (tag : Nat) : Prop := l.isValid = true ∧ l.tag = tag

instance (l : CacheLine) (tag : Nat) : Decidable (isMatch l tag) := by
  unfold isMatch
  infer_instance

/-- Some line of the list holds the block. -/
def hasMatch (lines : List CacheLine) (tag : Nat) : Prop :=
  ∃ l ∈ lines, isMatch l tag

/-- Some line holds the block in state MODIFIED. -/
def hasMatchM (lines : List CacheLine) (tag : Nat) : Prop :=
  ∃ l ∈ lines, l.mesiState = .MODIFIED ∧ l.tag = tag

/-- Some line holds the block in state MODIFIED or EXCLUSIVE. -/
def hasMatchME (lines : List CacheLine) (tag : Nat) : Prop :=
  ∃ l ∈ lines, (l.mesiState = .MODIFIED ∨ l.mesiState = .EXCLUSIVE) ∧ l.tag = tag

/-- At most one line of the list holds the block. -/
def atMostOneMatch (lines : List CacheLine) (tag : Nat) : Prop :=
  ∀ (k1 k2 : Nat) (l1 l2 : CacheLine), lines[k1]? = some l1 → lines[k2]? = some l2 →
    isMatch l1 tag → isMatch l2 tag → k1 = k2

/-- The lines of cache c, set idx, inside a simulator state. -/
def linesAt (st : SimState) (c idx : Nat) : List CacheLine :=
  ((st.caches.getD c default).sets.getD idx default).lines

/-- Cache c holds the block (idx, tag) in some valid state. -/
def holdsAny (st : SimState) (c idx tag : Nat) : Prop :=
  hasMatch (linesAt st c idx) tag

/-- Cache c holds the block (idx, tag) in state MODIFIED. -/
def holdsM (st : SimState) (c idx tag : Nat) : Prop :=
  hasMatchM (linesAt st c idx) tag

/-- Cache c holds the block (idx, tag) in MODIFIED or EXCLUSIVE. -/
def holdsME (st : SimState) (c idx tag : Nat) : Prop :=
  hasMatchME (linesAt st c idx) tag

instance (lines : List CacheLine) (tag : Nat) : Decidable (hasMatch lines tag) := by
  unfold hasMatch
  infer_instance

instance (lines : List CacheLine) (tag : Nat) : Decidable (hasMatchM lines tag) := by
  unfold hasMatchM
  infer_instance

instance (lines : List CacheLine) (tag : Nat) : Decidable (hasMatchME lines tag) := by
  unfold hasMatchME
  infer_instance

instance (st : SimState) (c idx tag : Nat) : Decidable (holdsAny st c idx tag) := by
  unfold holdsAny
  infer_instance

instance (st : SimState) (c idx tag : Nat) : Decidable (holdsM st c idx tag) := by
  unfold holdsM
  infer_instance

instance (st : SimState) (c idx tag : Nat) : Decidable (holdsME st c idx tag) := by
  unfold holdsME
  infer_instance

theorem hasMatchM_hasMatch {lines : List CacheLine} {tag : Nat}
    (h : hasMatchM lines tag) : hasMatch lines tag := by
  obtain ⟨l, hl, hs, ht⟩ := h
  exact ⟨l, hl, by simp [CacheLine.isValid, hs], ht⟩

theorem hasMatchME_hasMatch {lines : List CacheLine} {tag : Nat}
    (h : hasMatchME lines tag) : hasMatch lines tag := by
  obtain ⟨l, hl, hs, ht⟩ := h
  rcases hs with hs | hs <;>
    exact ⟨l, hl, by simp [CacheLine.isValid, hs], ht⟩

theorem hasMatchM_hasMatchME {lines : List CacheLine} {tag : Nat}
    (h : hasMatchM lines tag) : hasMatchME lines tag := by
  obtain ⟨l, hl, hs, ht⟩ := h
  exact ⟨l, hl, Or.inl hs, ht⟩

/-! ### findLineIdx lemmas -/

theorem findLineIdx_none_iff (lines : List CacheLine) (tag : Nat) :
    findLineIdx lines tag = none ↔ ¬ hasMatch lines tag := by
  induction lines with
  | nil => simp [findLineIdx, hasMatch]
  | cons l rest ih =>
    by_cases h : (l.isValid && l.tag == tag) = true
    · simp only [findLineIdx, h, if_true]
      have hm : isMatch l tag := by
        simp only [Bool.and_eq_true, beq_iff_eq] at h
        exact ⟨h.1, h.2⟩
      constructor
      · intro hc
        exact absurd hc (by simp)
      · intro hf
        exact absurd ⟨l, List.mem_cons_self l rest, hm⟩ hf
    · simp only [findLineIdx, h, if_false]
      have hnl : ¬ isMatch l tag := by
        intro hml
        simp [hml.1, hml.2] at h
      constructor
      · intro ho
        have hrn : findLineIdx rest tag = none := by
          cases hfr : findLineIdx rest tag with
          | none => rfl
          | some k => simp [hfr] at ho
        intro hmm
        obtain ⟨x, hx, hm⟩ := hmm
        rcases List.mem_cons.mp hx with rfl | hx2
        · exact hnl hm
        · exact (ih.mp hrn) ⟨x, hx2, hm⟩
      · intro hno
        have hrn : ¬ hasMatch rest tag := by
          intro hmm
          obtain ⟨x, hx, hm⟩ := hmm
          exact hno ⟨x, List.mem_cons_of_mem _ hx, hm⟩
        simp [ih.mpr hrn]

theorem findLineIdx_some {lines : List CacheLine} {tag : Nat} {k : Nat}
    (h : findLineIdx lines tag = some k) :
    ∃ l : CacheLine, lines[k]? = some l ∧ isMatch l tag := by
  induction lines generalizing k with
  | nil => simp [findLineIdx] at h
  | cons l rest ih =>
    by_cases hc : (l.isValid && l.tag == tag) = true
    · simp only [findLineIdx, hc, if_true, Option.some_inj] at h
      subst h
      refine ⟨l, by simp, ?_⟩
      simp only [Bool.and_eq_true, beq_iff_eq] at hc
      exact ⟨hc.1, hc.2⟩
    · simp only [findLineIdx, hc, if_false] at h
      cases hfr : findLineIdx rest tag with
      | none => simp [hfr] at h
      | some k0 =>
        simp only [hfr, Option.map_some'] at h
        obtain ⟨l0, hl0, hm0⟩ := ih hfr
        cases h
        exact ⟨l0, by simpa using hl0, hm0⟩

theorem findLineIdx_some_of_hasMatch {lines : List CacheLine} {tag : Nat}
    (h : hasMatch lines tag) : ∃ k : Nat, findLineIdx lines tag = some k := by
  cases hf : findLineIdx lines tag with
  | none => exact absurd h ((findLineIdx_none_iff lines tag).mp hf)
  | some k => exact ⟨k, rfl⟩

/-! ### Index formulations of the holding predicates -/

theorem hasMatch_iff_idx (lines : List CacheLine) (tag : Nat) :
    hasMatch lines tag ↔ ∃ (k : Nat) (l : CacheLine), lines[k]? = some l ∧ isMatch l tag := by
  unfold hasMatch
  constructor
  · intro hmm
    obtain ⟨l, hl, hm⟩ := hmm
    obtain ⟨k, hk⟩ := List.mem_iff_getElem?.mp hl
    exact ⟨k, l, hk, hm⟩
  · intro hmm
    obtain ⟨k, l, hk, hm⟩ := hmm
    exact ⟨l, List.mem_iff_getElem?.mpr ⟨k, hk⟩, hm⟩

theorem hasMatchM_iff_idx (lines : List CacheLine) (tag : Nat) :
    hasMatchM lines tag ↔ ∃ (k : Nat) (l : CacheLine), lines[k]? = some l
      ∧ l.mesiState = .MODIFIED ∧ l.tag = tag := by
  unfold hasMatchM
  constructor
  · intro hmm
    obtain ⟨l, hl, hm⟩ := hmm
    obtain ⟨k, hk⟩ := List.mem_iff_getElem?.mp hl
    exact ⟨k, l, hk, hm⟩
  · intro hmm
    obtain ⟨k, l, hk, hm⟩ := hmm
    exact ⟨l, List.mem_iff_getElem?.mpr ⟨k, hk⟩, hm⟩

theorem hasMatchME_iff_idx (lines : List CacheLine) (tag : Nat) :
    hasMatchME lines tag ↔ ∃ (k : Nat) (l : CacheLine), lines[k]? = some l
      ∧ (l.mesiState = .MODIFIED ∨ l.mesiState = .EXCLUSIVE) ∧ l.tag = tag := by
  unfold hasMatchME
  constructor
  · intro hmm
    obtain ⟨l, hl, hm⟩ := hmm
    obtain ⟨k, hk⟩ := List.mem_iff_getElem?.mp hl
    exact ⟨k, l, hk, hm⟩
  · intro hmm
    obtain ⟨k, l, hk, hm⟩ := hmm
    exact ⟨l, List.mem_iff_getElem?.mpr ⟨k, hk⟩, hm⟩

/-! ### getD/set helper lemmas -/

theorem getD_set_self {α : Type} [Inhabited α] (l : List α) (i : Nat) (a : α)
    (h : i < l.length) : (l.set i a).getD i default = a := by
  simp [List.getD_eq_getElem?_getD, List.getElem?_set_eq h]

theorem getD_set_ne {α : Type} [Inhabited α] (l : List α) {i j : Nat} (a : α)
    (h : i ≠ j) : (l.set i a).getD j default = l.getD j default := by
  simp [List.getD_eq_getElem?_getD, List.getElem?_set_ne h]

theorem getD_eq_of_getElem? {α : Type} [Inhabited α] {l : List α} {i : Nat} {a : α}
    (h : l[i]? = some a) : l.getD i default = a := by
  simp [List.getD_eq_getElem?_getD, h]

theorem lt_length_of_getElem? {α : Type} {l : List α} {i : Nat} {a : α}
    (h : l[i]? = some a) : i < l.length := by
  by_contra hc
  rw [List.getElem?_eq_none (by omega)] at h
  exact Option.noConfusion h

/-! ### Effect of replacing one line on the holding predicates -/

theorem set_other_tag_hasMatch {lines : List CacheLine} {k : Nat}
    {line l2 : CacheLine} (hk : lines[k]? = some line) (htag : l2.tag = line.tag)
    {tag2 : Nat} (hne : tag2 ≠ line.tag) :
    hasMatch (lines.set k l2) tag2 ↔ hasMatch lines tag2 := by
  rw [hasMatch_iff_idx, hasMatch_iff_idx]
  constructor
  · intro hmm
    obtain ⟨j, x, hj, hm⟩ := hmm
    by_cases hjk : k = j
    · subst hjk
      rw [List.getElem?_set_eq (lt_length_of_getElem? hk)] at hj
      cases hj
      exact absurd (htag ▸ hm.2) (Ne.symm hne)
    · rw [List.getElem?_set_ne hjk] at hj
      exact ⟨j, x, hj, hm⟩
  · intro hmm
    obtain ⟨j, x, hj, hm⟩ := hmm
    by_cases hjk : k = j
    · subst hjk
      rw [hk] at hj
      cases hj
      exact absurd hm.2 (Ne.symm hne)
    · exact ⟨j, x, by rw [List.getElem?_set_ne hjk]; exact hj, hm⟩

theorem set_other_tag_hasMatchM {lines : List CacheLine} {k : Nat}
    {line l2 : CacheLine} (hk : lines[k]? = some line) (htag : l2.tag = line.tag)
    {tag2 : Nat} (hne : tag2 ≠ line.tag) :
    hasMatchM (lines.set k l2) tag2 ↔ hasMatchM lines tag2 := by
  rw [hasMatchM_iff_idx, hasMatchM_iff_idx]
  constructor
  · intro hmm
    obtain ⟨j, x, hj, hm⟩ := hmm
    by_cases hjk : k = j
    · subst hjk
      rw [List.getElem?_set_eq (lt_length_of_getElem? hk)] at hj
      cases hj
      exact absurd (htag ▸ hm.2) (Ne.symm hne)
    · rw [List.getElem?_set_ne hjk] at hj
      exact ⟨j, x, hj, hm⟩
  · intro hmm
    obtain ⟨j, x, hj, hm⟩ := hmm
    by_cases hjk : k = j
    · subst hjk
      rw [hk] at hj
      cases hj
      exact absurd hm.2 (Ne.symm hne)
    · exact ⟨j, x, by rw [List.getElem?_set_ne hjk]; exact hj, hm⟩

theorem set_other_tag_hasMatchME {lines : List CacheLine} {k : Nat}
    {line l2 : CacheLine} (hk : lines[k]? = some line) (htag : l2.tag = line.tag)
    {tag2 : Nat} (hne : tag2 ≠ line.tag) :
    hasMatchME (lines.set k l2) tag2 ↔ hasMatchME lines tag2 := by
  rw [hasMatchME_iff_idx, hasMatchME_iff_idx]
  constructor
  · intro hmm
    obtain ⟨j, x, hj, hm⟩ := hmm
    by_cases hjk : k = j
    · subst hjk
      rw [List.getElem?_set_eq (lt_length_of_getElem? hk)] at hj
      cases hj
      exact absurd (htag ▸ hm.2) (Ne.symm hne)
    · rw [List.getElem?_set_ne hjk] at hj
      exact ⟨j, x, hj, hm⟩
  · intro hmm
    obtain ⟨j, x, hj, hm⟩ := hmm
    by_cases hjk : k = j
    · subst hjk
      rw [hk] at hj
      cases hj
      exact absurd hm.2 (Ne.symm hne)
    · exact ⟨j, x, by rw [List.getElem?_set_ne hjk]; exact hj, hm⟩

theorem set_invalid_no_match {lines : List CacheLine} {k : Nat}
    {line l2 : CacheLine} {tag : Nat} (hk : lines[k]? = some line)
    (hmatch : isMatch line tag) (hinv : l2.isValid = false)
    (hone : atMostOneMatch lines tag) :
    ¬ hasMatch (lines.set k l2) tag := by
  intro hmm
  obtain ⟨j, x, hj, hm⟩ := (hasMatch_iff_idx _ _).mp hmm
  by_cases hjk : k = j
  · subst hjk
    rw [List.getElem?_set_eq (lt_length_of_getElem? hk)] at hj
    cases hj
    simp [isMatch, hinv] at hm
  · rw [List.getElem?_set_ne hjk] at hj
    exact hjk (hone k j line x hk hj hmatch hm)

theorem set_nonME_no_matchME {lines : List CacheLine} {k : Nat}
    {line l2 : CacheLine} {tag : Nat} (hk : lines[k]? = some line)
    (hmatch : isMatch line tag) (htag : l2.tag = line.tag)
    (hs1 : l2.mesiState ≠ .MODIFIED) (hs2 : l2.mesiState ≠ .EXCLUSIVE)
    (hone : atMostOneMatch lines tag) :
    ¬ hasMatchME (lines.set k l2) tag := by
  intro hmm
  obtain ⟨j, x, hj, hm⟩ := (hasMatchME_iff_idx _ _).mp hmm
  by_cases hjk : k = j
  · subst hjk
    rw [List.getElem?_set_eq (lt_length_of_getElem? hk)] at hj
    cases hj
    rcases hm.1 with hx | hx
    · exact hs1 hx
    · exact hs2 hx
  · rw [List.getElem?_set_ne hjk] at hj
    have hxm : isMatch x tag := by
      refine ⟨?_, hm.2⟩
      rcases hm.1 with hx | hx <;> simp [CacheLine.isValid, hx]
    exact hjk (hone k j line x hk hj hmatch hxm)

theorem set_valid_same_tag_hasMatch {lines : List CacheLine} {k : Nat}
    {line l2 : CacheLine} {tag : Nat} (hk : lines[k]? = some line)
    (hmatch : isMatch line tag) (hv : l2.isValid = true) (ht : l2.tag = line.tag) :
    hasMatch (lines.set k l2) tag ↔ hasMatch lines tag := by
  rw [hasMatch_iff_idx, hasMatch_iff_idx]
  constructor
  · intro hmm
    obtain ⟨j, x, hj, hm⟩ := hmm
    by_cases hjk : k = j
    · subst hjk
      exact ⟨k, line, hk, hmatch⟩
    · rw [List.getElem?_set_ne hjk] at hj
      exact ⟨j, x, hj, hm⟩
  · intro _
    refine ⟨k, l2, List.getElem?_set_eq (lt_length_of_getElem? hk), hv, ?_⟩
    rw [ht, hmatch.2]

theorem set_preserves_atMostOne {lines : List CacheLine} {k : Nat}
    {line l2 : CacheLine} (hk : lines[k]? = some line)
    (ht : l2.tag = line.tag) (hv : line.isValid = true)
    (tag2 : Nat) (hone : atMostOneMatch lines tag2) :
    atMostOneMatch (lines.set k l2) tag2 := by
  intro j1 j2 x1 x2 hj1 hj2 hm1 hm2
  have key : ∀ (j : Nat) (x : CacheLine), (lines.set k l2)[j]? = some x → isMatch x tag2 →
      ∃ y : CacheLine, lines[j]? = some y ∧ isMatch y tag2 := by
    intro j x hj hm
    by_cases hjk : k = j
    · subst hjk
      rw [List.getElem?_set_eq (lt_length_of_getElem? hk)] at hj
      cases hj
      exact ⟨line, hk, hv, by rw [← ht, hm.2]⟩
    · rw [List.getElem?_set_ne hjk] at hj
      exact ⟨x, hj, hm⟩
  obtain ⟨y1, hy1, hm1b⟩ := key j1 x1 hj1 hm1
  obtain ⟨y2, hy2, hm2b⟩ := key j2 x2 hj2 hm2
  exact hone j1 j2 y1 y2 hy1 hy2 hm1b hm2b

theorem set_install_atMostOne {lines : List CacheLine} {k : Nat}
    {l2 : CacheLine} {tag : Nat} (hnm : ¬ hasMatch lines tag) (ht : l2.tag = tag)
    (tag2 : Nat) (hone : atMostOneMatch lines tag2) :
    atMostOneMatch (lines.set k l2) tag2 := by
  intro j1 j2 x1 x2 hj1 hj2 hm1 hm2
  by_cases htag : tag2 = tag
  · subst htag
    have key : ∀ (j : Nat) (x : CacheLine), (lines.set k l2)[j]? = some x →
        isMatch x tag2 → j = k := by
      intro j x hj hm
      by_cases hjk : k = j
      · omega
      · rw [List.getElem?_set_ne hjk] at hj
        exact absurd ((hasMatch_iff_idx _ _).mpr ⟨j, x, hj, hm⟩) hnm
    rw [key j1 x1 hj1 hm1, key j2 x2 hj2 hm2]
  · have key : ∀ (j : Nat) (x : CacheLine), (lines.set k l2)[j]? = some x →
        isMatch x tag2 → ∃ y : CacheLine, lines[j]? = some y ∧ isMatch y tag2 := by
      intro j x hj hm
      by_cases hjk : k = j
      · subst hjk
        by_cases hlen : k < lines.length
        · rw [List.getElem?_set_eq hlen] at hj
          cases hj
          exact absurd (ht ▸ hm.2).symm (by omega)
        · rw [List.getElem?_eq_none (by simp; omega)] at hj
          exact Option.noConfusion hj
      · rw [List.getElem?_set_ne hjk] at hj
        exact ⟨x, hj, hm⟩
    obtain ⟨y1, hy1, hm1b⟩ := key j1 x1 hj1 hm1
    obtain ⟨y2, hy2, hm2b⟩ := key j2 x2 hj2 hm2
    exact hone j1 j2 y1 y2 hy1 hy2 hm1b hm2b

/-! ### Characterizing one cache's snoop reaction -/

/-- The line array of set idx in cache c. -/
def Cache.linesIn (c : Cache) (idx : Nat) : List CacheLine :=
  (c.sets.getD idx default).lines

theorem linesAt_eq_linesIn (st : SimState) (c idx : Nat) :
    linesAt st c idx = (st.caches.getD c default).linesIn idx := rfl

/-- The cache part of handleBusTransaction (it never depends on memory). -/
def snoopCacheEffect (c : Cache) (t : BusTransaction) (addr : Address) : Cache :=
  (c.handleBusTransaction (MainMemory.mkMemory 0) t addr).1

/-- The providedData flag of handleBusTransaction (memory-independent). -/
def snoopProvides (c : Cache) (t : BusTransaction) (addr : Address) : Bool :=
  (c.handleBusTransaction (MainMemory.mkMemory 0) t addr).2.2.1

theorem handleBusTransaction_factor (c : Cache) (mem : MainMemory) (t : BusTransaction)
    (addr : Address) :
    (c.handleBusTransaction mem t addr).1 = snoopCacheEffect c t addr
    ∧ (c.handleBusTransaction mem t addr).2.2.1 = snoopProvides c t addr := by
  unfold snoopCacheEffect snoopProvides Cache.handleBusTransaction
  dsimp only
  split
  · exact ⟨rfl, rfl⟩
  · split
    · exact ⟨rfl, rfl⟩
    · rename_i k hk
      cases t <;>
        cases hs : ((c.sets.getD addr.getIndex default).lines.getD k default).mesiState <;>
          simp [hs]

/-- Snooping only rewrites the sets; every other field of the cache is kept. -/
theorem snoopCacheEffect_shape (c : Cache) (t : BusTransaction) (addr : Address) :
    snoopCacheEffect c t addr = { c with sets := (snoopCacheEffect c t addr).sets } := by
  unfold snoopCacheEffect Cache.handleBusTransaction
  dsimp only
  split
  · rfl
  · split
    · rfl
    · rename_i k hk
      cases t <;>
        cases hs : ((c.sets.getD addr.getIndex default).lines.getD k default).mesiState <;>
          simp [hs]

theorem snoopCacheEffect_sets_length (c : Cache) (t : BusTransaction) (addr : Address) :
    (snoopCacheEffect c t addr).sets.length = c.sets.length := by
  unfold snoopCacheEffect Cache.handleBusTransaction
  dsimp only
  split
  · rfl
  · split
    · rfl
    · rename_i k hk
      cases t <;>
        cases hs : ((c.sets.getD addr.getIndex default).lines.getD k default).mesiState <;>
          simp [hs]

theorem getD_default_of_le {α : Type} [Inhabited α] {l : List α} {i : Nat}
    (h : l.length ≤ i) : l.getD i default = default := by
  simp [List.getD_eq_getElem?_getD, List.getElem?_eq_none h]

/-- Snooping never touches any other set. -/
theorem snoopCacheEffect_other_set (c : Cache) (t : BusTransaction) (addr : Address)
    {idx2 : Nat} (h2 : idx2 ≠ addr.getIndex) :
    (snoopCacheEffect c t addr).sets.getD idx2 default = c.sets.getD idx2 default := by
  unfold snoopCacheEffect Cache.handleBusTransaction
  dsimp only
  split
  · rfl
  · split
    · rfl
    · rename_i k hk
      cases t <;>
        cases hs : ((c.sets.getD addr.getIndex default).lines.getD k default).mesiState <;>
          simp [hs] <;> rw [List.getElem?_set_ne (Ne.symm h2)]

theorem setMESIState_tag (l : CacheLine) (s : MESIState) :
    (l.setMESIState s).tag = l.tag := rfl

theorem setMESIState_lru (l : CacheLine) (s : MESIState) :
    (l.setMESIState s).lruCounter = l.lruCounter := rfl

theorem setMESIState_state (l : CacheLine) (s : MESIState) :
    (l.setMESIState s).mesiState = s := rfl

theorem setMESIState_data (l : CacheLine) (s : MESIState) :
    (l.setMESIState s).data = l.data := rfl

theorem default_cacheSet_lines : (default : CacheSet).lines = [] := rfl

theorem snoop_clears_match (c : Cache) (t : BusTransaction) (addr : Address)
    (ht : t = .BUS_RDX ∨ t = .INVALIDATE)
    (hone : atMostOneMatch (c.linesIn addr.getIndex) addr.getTag) :
    ¬ hasMatch ((snoopCacheEffect c t addr).linesIn addr.getIndex) addr.getTag := by
  unfold Cache.linesIn at hone ⊢
  unfold snoopCacheEffect Cache.handleBusTransaction
  dsimp only
  rcases ht with rfl | rfl <;>
  · split
    case isTrue hb =>
      rw [getD_default_of_le hb]
      simp [hasMatch, default_cacheSet_lines]
    case isFalse hb =>
      split
      case h_1 heq => exact (findLineIdx_none_iff _ _).mp heq
      case h_2 k hk =>
        obtain ⟨line0, hl0, hm0⟩ := findLineIdx_some hk
        have hgd : (c.sets.getD addr.getIndex default).lines.getD k default = line0 :=
          getD_eq_of_getElem? hl0
        rw [hgd]
        have hidx : addr.getIndex < c.sets.length := Nat.lt_of_not_le hb
        cases hs : line0.mesiState
        case INVALID =>
          exact absurd hm0.1 (by simp [CacheLine.isValid, hs])
        all_goals {
          dsimp only
          rw [getD_set_self _ _ _ hidx]
          exact set_invalid_no_match hl0 hm0
            (by simp [CacheLine.isValid, setMESIState_state]) hone
        }


theorem snoop_RD_no_matchME (c : Cache) (addr : Address)
    (hone : atMostOneMatch (c.linesIn addr.getIndex) addr.getTag) :
    ¬ hasMatchME ((snoopCacheEffect c .BUS_RD addr).linesIn addr.getIndex) addr.getTag := by
  unfold Cache.linesIn at hone ⊢
  unfold snoopCacheEffect Cache.handleBusTransaction
  dsimp only
  split
  case isTrue hb =>
    rw [getD_default_of_le hb]
    simp [hasMatchME, default_cacheSet_lines]
  case isFalse hb =>
    split
    case h_1 heq =>
      intro hme
      exact (findLineIdx_none_iff _ _).mp heq (hasMatchME_hasMatch hme)
    case h_2 k hk =>
      obtain ⟨line0, hl0, hm0⟩ := findLineIdx_some hk
      have hgd : (c.sets.getD addr.getIndex default).lines.getD k default = line0 :=
        getD_eq_of_getElem? hl0
      rw [hgd]
      have hidx : addr.getIndex < c.sets.length := Nat.lt_of_not_le hb
      cases hs : line0.mesiState
      case INVALID =>
        exact absurd hm0.1 (by simp [CacheLine.isValid, hs])
      case SHARED =>
        dsimp only
        intro hme
        obtain ⟨j, x, hj, hx⟩ := (hasMatchME_iff_idx _ _).mp hme
        have hxm : isMatch x addr.getTag := by
          refine ⟨?_, hx.2⟩
          rcases hx.1 with h1 | h1 <;> simp [CacheLine.isValid, h1]
        have hjk : j = k := hone j k x line0 hj hl0 hxm hm0
        subst hjk
        rw [hl0] at hj
        cases hj
        rcases hx.1 with h1 | h1 <;> rw [h1] at hs <;> exact MESIState.noConfusion hs
      all_goals {
        dsimp only
        rw [getD_set_self _ _ _ hidx]
        exact set_nonME_no_matchME hl0 hm0 (setMESIState_tag _ _)
          (by simp [setMESIState_state]) (by simp [setMESIState_state]) hone
      }

theorem snoop_RD_hasMatch_iff (c : Cache) (addr : Address) :
    hasMatch ((snoopCacheEffect c .BUS_RD addr).linesIn addr.getIndex) addr.getTag
      ↔ hasMatch (c.linesIn addr.getIndex) addr.getTag := by
  unfold Cache.linesIn
  unfold snoopCacheEffect Cache.handleBusTransaction
  dsimp only
  split
  case isTrue hb => exact Iff.rfl
  case isFalse hb =>
    split
    case h_1 heq => exact Iff.rfl
    case h_2 k hk =>
      obtain ⟨line0, hl0, hm0⟩ := findLineIdx_some hk
      have hgd : (c.sets.getD addr.getIndex default).lines.getD k default = line0 :=
        getD_eq_of_getElem? hl0
      rw [hgd]
      have hidx : addr.getIndex < c.sets.length := Nat.lt_of_not_le hb
      cases hs : line0.mesiState
      case INVALID => exact absurd hm0.1 (by simp [CacheLine.isValid, hs])
      case SHARED => exact Iff.rfl
      all_goals {
        dsimp only
        rw [getD_set_self _ _ _ hidx]
        exact set_valid_same_tag_hasMatch hl0 hm0
          (by simp [CacheLine.isValid, setMESIState_state]) (setMESIState_tag _ _)
      }

theorem snoop_provides_RD_iff (c : Cache) (addr : Address) :
    snoopProvides c .BUS_RD addr = true ↔ hasMatch (c.linesIn addr.getIndex) addr.getTag := by
  unfold Cache.linesIn
  unfold snoopProvides Cache.handleBusTransaction
  dsimp only
  split
  case isTrue hb =>
    rw [getD_default_of_le hb]
    simp [hasMatch, default_cacheSet_lines]
  case isFalse hb =>
    split
    case h_1 heq =>
      exact iff_of_false (by simp) ((findLineIdx_none_iff _ _).mp heq)
    case h_2 k hk =>
      obtain ⟨line0, hl0, hm0⟩ := findLineIdx_some hk
      have hgd : (c.sets.getD addr.getIndex default).lines.getD k default = line0 :=
        getD_eq_of_getElem? hl0
      rw [hgd]
      have hmm : hasMatch (c.sets.getD addr.getIndex default).lines addr.getTag :=
        ⟨line0, List.mem_iff_getElem?.mpr ⟨k, hl0⟩, hm0⟩
      cases hs : line0.mesiState
      case INVALID => exact absurd hm0.1 (by simp [CacheLine.isValid, hs])
      all_goals simpa using hmm

theorem snoop_provides_RDX_M (c : Cache) (addr : Address)
    (h : snoopProvides c .BUS_RDX addr = true) :
    hasMatchM (c.linesIn addr.getIndex) addr.getTag := by
  unfold Cache.linesIn
  unfold snoopProvides Cache.handleBusTransaction at h
  dsimp only at h
  split at h
  case isTrue hb => exact absurd h (by simp)
  case isFalse hb =>
    split at h
    case h_1 heq => exact absurd h (by simp)
    case h_2 k hk =>
      obtain ⟨line0, hl0, hm0⟩ := findLineIdx_some hk
      have hgd : (c.sets.getD addr.getIndex default).lines.getD k default = line0 :=
        getD_eq_of_getElem? hl0
      rw [hgd] at h
      cases hs : line0.mesiState
      case MODIFIED => exact ⟨line0, List.mem_iff_getElem?.mpr ⟨k, hl0⟩, hs, hm0.2⟩
      all_goals { rw [hs] at h; simp at h }

theorem snoop_UPGR_no_match (c : Cache) (addr : Address)
    (hnme : ¬ hasMatchME (c.linesIn addr.getIndex) addr.getTag)
    (hone : atMostOneMatch (c.linesIn addr.getIndex) addr.getTag) :
    ¬ hasMatch ((snoopCacheEffect c .BUS_UPGR addr).linesIn addr.getIndex) addr.getTag := by
  unfold Cache.linesIn at hnme hone ⊢
  unfold snoopCacheEffect Cache.handleBusTransaction
  dsimp only
  split
  case isTrue hb =>
    rw [getD_default_of_le hb]
    simp [hasMatch, default_cacheSet_lines]
  case isFalse hb =>
    split
    case h_1 heq => exact (findLineIdx_none_iff _ _).mp heq
    case h_2 k hk =>
      obtain ⟨line0, hl0, hm0⟩ := findLineIdx_some hk
      have hgd : (c.sets.getD addr.getIndex default).lines.getD k default = line0 :=
        getD_eq_of_getElem? hl0
      rw [hgd]
      have hidx : addr.getIndex < c.sets.length := Nat.lt_of_not_le hb
      have hmem : line0 ∈ (c.sets.getD addr.getIndex default).lines :=
        List.mem_iff_getElem?.mpr ⟨k, hl0⟩
      cases hs : line0.mesiState
      case INVALID => exact absurd hm0.1 (by simp [CacheLine.isValid, hs])
      case MODIFIED => exact absurd ⟨line0, hmem, Or.inl hs, hm0.2⟩ hnme
      case EXCLUSIVE => exact absurd ⟨line0, hmem, Or.inr hs, hm0.2⟩ hnme
      case SHARED =>
        dsimp only
        rw [getD_set_self _ _ _ hidx]
        exact set_invalid_no_match hl0 hm0
          (by simp [CacheLine.isValid, setMESIState_state]) hone

theorem snoop_FLUSH_id (c : Cache) (addr : Address) :
    snoopCacheEffect c .FLUSH addr = c := by
  unfold snoopCacheEffect Cache.handleBusTransaction
  dsimp only
  split
  · rfl
  · split
    · rfl
    · rfl

theorem snoop_preserves_atMostOne (c : Cache) (t : BusTransaction) (addr : Address)
    (idx2 tag2 : Nat) (hone : atMostOneMatch (c.linesIn idx2) tag2) :
    atMostOneMatch ((snoopCacheEffect c t addr).linesIn idx2) tag2 := by
  by_cases hidx2 : idx2 = addr.getIndex
  case neg =>
    unfold Cache.linesIn
    rw [snoopCacheEffect_other_set c t addr hidx2]
    exact hone
  case pos =>
    subst hidx2
    unfold Cache.linesIn at hone ⊢
    unfold snoopCacheEffect Cache.handleBusTransaction
    dsimp only
    split
    case isTrue hb => exact hone
    case isFalse hb =>
      split
      case h_1 heq => exact hone
      case h_2 k hk =>
        obtain ⟨line0, hl0, hm0⟩ := findLineIdx_some hk
        have hgd : (c.sets.getD addr.getIndex default).lines.getD k default = line0 :=
          getD_eq_of_getElem? hl0
        rw [hgd]
        have hidx : addr.getIndex < c.sets.length := Nat.lt_of_not_le hb
        cases t <;>
          cases hs : line0.mesiState <;>
            first
            | exact hone
            | {
                dsimp only
                rw [getD_set_self _ _ _ hidx]
                exact set_preserves_atMostOne hl0 (setMESIState_tag _ _) hm0.1 tag2 hone
              }

/-- The LRU counter of line k in set idx of a cache, when it exists. -/
def lineLRUAt (c : Cache) (idx k : Nat) : Option Nat :=
  ((c.sets.getD idx default).lines[k]?).map (fun l => l.lruCounter)

theorem snoop_set_lru (c : Cache) (t : BusTransaction) (addr : Address) (idx2 : Nat) :
    ((snoopCacheEffect c t addr).sets.getD idx2 default).lruCounter
      = (c.sets.getD idx2 default).lruCounter := by
  by_cases hidx2 : idx2 = addr.getIndex
  case neg => rw [snoopCacheEffect_other_set c t addr hidx2]
  case pos =>
    subst hidx2
    unfold snoopCacheEffect Cache.handleBusTransaction
    dsimp only
    split
    case isTrue hb => rfl
    case isFalse hb =>
      split
      case h_1 heq => rfl
      case h_2 k hk =>
        have hidx : addr.getIndex < c.sets.length := Nat.lt_of_not_le hb
        cases t <;>
          cases hs : ((c.sets.getD addr.getIndex default).lines.getD k default).mesiState <;>
            first
            | rfl
            | { dsimp only; rw [getD_set_self _ _ _ hidx] }

theorem snoop_line_lru (c : Cache) (t : BusTransaction) (addr : Address) (idx2 k2 : Nat) :
    lineLRUAt (snoopCacheEffect c t addr) idx2 k2 = lineLRUAt c idx2 k2 := by
  unfold lineLRUAt
  by_cases hidx2 : idx2 = addr.getIndex
  case neg => rw [snoopCacheEffect_other_set c t addr hidx2]
  case pos =>
    subst hidx2
    unfold snoopCacheEffect Cache.handleBusTransaction
    dsimp only
    split
    case isTrue hb => rfl
    case isFalse hb =>
      split
      case h_1 heq => rfl
      case h_2 k hk =>
        obtain ⟨line0, hl0, hm0⟩ := findLineIdx_some hk
        have hgd : (c.sets.getD addr.getIndex default).lines.getD k default = line0 :=
          getD_eq_of_getElem? hl0
        rw [hgd]
        have hidx : addr.getIndex < c.sets.length := Nat.lt_of_not_le hb
        have key : ∀ s : MESIState,
            (((c.sets.set addr.getIndex
              { c.sets.getD addr.getIndex default with
                lines := (c.sets.getD addr.getIndex default).lines.set k
                  (line0.setMESIState s) }).getD addr.getIndex default).lines[k2]?).map
                    (fun l => l.lruCounter)
              = ((c.sets.getD addr.getIndex default).lines[k2]?).map (fun l => l.lruCounter) := by
          intro s
          rw [getD_set_self _ _ _ hidx]
          by_cases hk2 : k = k2
          case pos =>
            subst hk2
            rw [List.getElem?_set_self (lt_length_of_getElem? hl0), hl0]
            simp [setMESIState_lru]
          case neg => rw [List.getElem?_set_ne hk2]
        cases t <;>
          cases hs : line0.mesiState <;>
            first
            | rfl
            | exact key _

theorem handleBusTransaction_mem_frame (c : Cache) (mem : MainMemory)
    (t : BusTransaction) (addr : Address) :
    (c.handleBusTransaction mem t addr).2.1.readCount = mem.readCount
    ∧ (c.handleBusTransaction mem t addr).2.1.blockSize = mem.blockSize := by
  unfold Cache.handleBusTransaction
  dsimp only
  split
  · exact ⟨rfl, rfl⟩
  · split
    · exact ⟨rfl, rfl⟩
    · rename_i k hk
      cases t <;>
        cases hs : ((c.sets.getD addr.getIndex default).lines.getD k default).mesiState <;>
          simp [hs, MainMemory.writeBlock] <;> split <;> simp

theorem snoopCacheEffect_default (t : BusTransaction) (addr : Address) :
    snoopCacheEffect default t addr = default := by
  unfold snoopCacheEffect Cache.handleBusTransaction
  dsimp only
  rw [if_pos]
  exact Nat.zero_le _

theorem any_congr_mem {α : Type} {l : List α} {f g : α → Bool}
    (h : ∀ a ∈ l, f a = g a) : l.any f = l.any g := by
  induction l with
  | nil => rfl
  | cons a rest ih =>
    simp only [List.any_cons]
    rw [h a (List.mem_cons_self a rest), ih (fun x hx => h x (List.mem_cons_of_mem a hx))]

/-- The parts of the simulator state that snooping can never change. -/
def snoopFrame (st : SimState) :
    Config × Nat × Nat × Nat × Nat × List Processor × List TraceStream
      × Nat × Nat × Nat × Nat × Nat × Nat × Nat × Nat :=
  (st.cfg, st.busBusyUntil, st.invalidationCount, st.busTrafficBytes,
   st.currentCycle, st.processors, st.traces, st.totalInstructions,
   st.totalCycles, st.totalMemoryAccesses, st.totalCacheHits,
   st.totalCacheMisses, st.caches.length, st.mainMemory.readCount,
   st.mainMemory.blockSize)

theorem snoopCores_frame (t : BusTransaction) (addr : Address) (req : Nat)
    (L : List Nat) : ∀ (st : SimState) (dp : Bool) (src : Int),
    snoopFrame (snoopCores t addr req L st dp src).1 = snoopFrame st := by
  induction L with
  | nil =>
    intro st dp src
    rfl
  | cons core rest ih =>
    intro st dp src
    by_cases hc : core = req
    case pos =>
      simp only [snoopCores, hc, if_true]
      exact ih st dp src
    case neg =>
      simp only [snoopCores, hc, if_false]
      have hmem := handleBusTransaction_mem_frame (st.caches.getD core default)
        st.mainMemory t addr
      simp only [List.getD_eq_getElem?_getD] at hmem
      split
      case isTrue hp =>
        refine (ih _ _ _).trans ?_
        simp [snoopFrame, hmem.1, hmem.2]
      case isFalse hp =>
        refine (ih _ _ _).trans ?_
        simp [snoopFrame, hmem.1, hmem.2]

theorem snoopCores_get_unchanged (t : BusTransaction) (addr : Address) (req : Nat)
    (L : List Nat) : ∀ (st : SimState) (dp : Bool) (src : Int) (j : Nat),
    (j ∉ L ∨ j = req) →
    (snoopCores t addr req L st dp src).1.caches.getD j default
      = st.caches.getD j default := by
  induction L with
  | nil => intro st dp src j _; rfl
  | cons core rest ih =>
    intro st dp src j hj
    have hjrest : j ∉ rest ∨ j = req := by
      rcases hj with hj | hj
      · exact Or.inl (fun hr => hj (List.mem_cons_of_mem _ hr))
      · exact Or.inr hj
    by_cases hc : core = req
    case pos =>
      simp only [snoopCores, hc, if_true]
      exact ih st dp src j hjrest
    case neg =>
      have hjc : core ≠ j := by
        rcases hj with hj | hj
        · intro he; exact hj (he ▸ List.mem_cons_self core rest)
        · intro he; exact hc (he.trans hj)
      simp only [snoopCores, hc, if_false]
      split
      case isTrue hp =>
        rw [ih _ _ _ j hjrest]
        exact getD_set_ne _ _ hjc
      case isFalse hp =>
        rw [ih _ _ _ j hjrest]
        exact getD_set_ne _ _ hjc

theorem snoopCores_get_effect (t : BusTransaction) (addr : Address) (req : Nat)
    (L : List Nat) (hnd : L.Nodup) : ∀ (st : SimState) (dp : Bool) (src : Int) (j : Nat),
    j ∈ L → j ≠ req →
    (snoopCores t addr req L st dp src).1.caches.getD j default
      = snoopCacheEffect (st.caches.getD j default) t addr := by
  induction L with
  | nil => intro st dp src j hj _; exact absurd hj (List.not_mem_nil j)
  | cons core rest ih =>
    intro st dp src j hj hreq
    obtain ⟨hcr, hndr⟩ := List.nodup_cons.mp hnd
    by_cases hc : core = req
    case pos =>
      have hjrest : j ∈ rest := by
        rcases List.mem_cons.mp hj with rfl | hr
        · exact absurd hc hreq
        · exact hr
      simp only [snoopCores, hc, if_true]
      exact ih hndr st dp src j hjrest hreq
    case neg =>
      simp only [snoopCores, hc, if_false]
      have hfac := handleBusTransaction_factor (st.caches.getD core default)
        st.mainMemory t addr
      rcases List.mem_cons.mp hj with rfl | hjrest
      case inl =>
        have hstep : ∀ (st1 : SimState) (dp1 : Bool) (src1 : Int),
            st1.caches.getD j default
              = snoopCacheEffect (st.caches.getD j default) t addr →
            (snoopCores t addr req rest st1 dp1 src1).1.caches.getD j default
              = snoopCacheEffect (st.caches.getD j default) t addr := by
          intro st1 dp1 src1 h1
          rw [snoopCores_get_unchanged t addr req rest st1 dp1 src1 j (Or.inl hcr)]
          exact h1
        by_cases hlen : j < st.caches.length
        case pos =>
          split <;>
            exact hstep _ _ _ (by rw [getD_set_self _ _ _ hlen]; exact hfac.1)
        case neg =>
          have hdef : st.caches.getD j default = default :=
            getD_default_of_le (Nat.le_of_not_lt hlen)
          have hset : st.caches.set j ((st.caches.getD j default).handleBusTransaction
              st.mainMemory t addr).1 = st.caches :=
            List.set_eq_of_length_le (Nat.le_of_not_lt hlen)
          split <;>
            exact hstep _ _ _ (by rw [hset, hdef, snoopCacheEffect_default])
      case inr =>
        have hjc : core ≠ j := fun he => hcr (he ▸ hjrest)
        have hkeep : ∀ (st1 : SimState),
            st1.caches.getD j default = st.caches.getD j default →
            ∀ (dp1 : Bool) (src1 : Int),
            (snoopCores t addr req rest st1 dp1 src1).1.caches.getD j default
              = snoopCacheEffect (st.caches.getD j default) t addr := by
          intro st1 h1 dp1 src1
          rw [ih hndr st1 dp1 src1 j hjrest hreq, h1]
        split <;> exact hkeep _ (getD_set_ne _ _ hjc) _ _

theorem snoopCores_dp_true (t : BusTransaction) (addr : Address) (req : Nat)
    (L : List Nat) : ∀ (st : SimState) (src : Int),
    (snoopCores t addr req L st true src).2 = (true, src) := by
  induction L with
  | nil => intro st src; rfl
  | cons core rest ih =>
    intro st src
    by_cases hc : core = req
    case pos =>
      simp only [snoopCores, hc, if_true]
      exact ih st src
    case neg =>
      simp only [snoopCores, hc, if_false, Bool.not_true, Bool.and_false]
      exact ih _ src

theorem snoopCores_src_nonneg (t : BusTransaction) (addr : Address) (req : Nat)
    (L : List Nat) : ∀ (st : SimState) (src : Int),
    (snoopCores t addr req L st false src).2.1 = true →
    0 ≤ (snoopCores t addr req L st false src).2.2 := by
  induction L with
  | nil => intro st src h; exact absurd h (by simp [snoopCores])
  | cons core rest ih =>
    intro st src h
    by_cases hc : core = req
    case pos =>
      simp only [snoopCores, hc, if_true] at h ⊢
      exact ih st src h
    case neg =>
      simp only [snoopCores, hc, if_false] at h ⊢
      by_cases hp : (((st.caches.getD core default).handleBusTransaction
          st.mainMemory t addr).2.2.1 && !false) = true
      case pos =>
        rw [if_pos hp] at h ⊢
        rw [snoopCores_dp_true]
        exact Int.ofNat_nonneg core
      case neg =>
        rw [if_neg hp] at h ⊢
        exact ih _ src h

theorem snoopCores_dp1_true (t : BusTransaction) (addr : Address) (req : Nat)
    (L : List Nat) (st : SimState) (src : Int) :
    (snoopCores t addr req L st true src).2.1 = true := by
  rw [snoopCores_dp_true]

theorem snoopCores_dp (t : BusTransaction) (addr : Address) (req : Nat)
    (L : List Nat) (hnd : L.Nodup) : ∀ (st : SimState) (dp : Bool) (src : Int),
    (snoopCores t addr req L st dp src).2.1
      = (dp || L.any (fun j => decide (j ≠ req)
          && snoopProvides (st.caches.getD j default) t addr)) := by
  induction L with
  | nil => intro st dp src; simp [snoopCores]
  | cons core rest ih =>
    intro st dp src
    obtain ⟨hcr, hndr⟩ := List.nodup_cons.mp hnd
    by_cases hc : core = req
    case pos =>
      simp only [snoopCores, hc, if_true, List.any_cons]
      rw [ih hndr st dp src]
      simp [hc]
    case neg =>
      simp only [snoopCores, hc, if_false, List.any_cons]
      have hfac := handleBusTransaction_factor (st.caches.getD core default)
        st.mainMemory t addr
      have hget : ∀ (st1 : SimState) (x : Cache), st1.caches = st.caches.set core x →
          ∀ j ∈ rest, st1.caches.getD j default = st.caches.getD j default := by
        intro st1 x hx j hj
        rw [hx]
        exact getD_set_ne _ _ (fun he => hcr (he ▸ hj))
      split
      case isTrue hp =>
        simp only [Bool.and_eq_true, Bool.not_eq_true'] at hp
        obtain ⟨hPr, hdp⟩ := hp
        subst hdp
        rw [snoopCores_dp1_true]
        have hP : snoopProvides (st.caches.getD core default) t addr = true := by
          rw [← hfac.2]
          exact hPr
        simp only [List.getD_eq_getElem?_getD] at hP
        simp [hc, hP]
      case isFalse hp =>
        rw [ih hndr _ dp src]
        have hanyr : ∀ (st1 : SimState) (x : Cache), st1.caches = st.caches.set core x →
            rest.any (fun j => decide (j ≠ req)
                && snoopProvides (st1.caches.getD j default) t addr)
              = rest.any (fun j => decide (j ≠ req)
                && snoopProvides (st.caches.getD j default) t addr) := by
          intro st1 x hx
          exact any_congr_mem (fun j hj => by rw [hget st1 x hx j hj])
        rw [hanyr _ _ rfl]
        cases hdp : dp
        case true => simp
        case false =>
          subst hdp
          simp only [Bool.not_false, Bool.and_true] at hp
          have hP : snoopProvides (st.caches.getD core default) t addr = false := by
            rw [← hfac.2]
            simpa using hp
          simp only [List.getD_eq_getElem?_getD] at hP
          simp [hc, hP]

theorem snoopCores_busBusyUntil (t : BusTransaction) (addr : Address) (req : Nat)
    (L : List Nat) (st : SimState) (dp : Bool) (src : Int) :
    (snoopCores t addr req L st dp src).1.busBusyUntil = st.busBusyUntil :=
  congrArg (fun p => p.2.1) (snoopCores_frame t addr req L st dp src)

theorem snoopCores_invalidationCount (t : BusTransaction) (addr : Address) (req : Nat)
    (L : List Nat) (st : SimState) (dp : Bool) (src : Int) :
    (snoopCores t addr req L st dp src).1.invalidationCount = st.invalidationCount :=
  congrArg (fun p => p.2.2.1) (snoopCores_frame t addr req L st dp src)

theorem snoopCores_busTrafficBytes (t : BusTransaction) (addr : Address) (req : Nat)
    (L : List Nat) (st : SimState) (dp : Bool) (src : Int) :
    (snoopCores t addr req L st dp src).1.busTrafficBytes = st.busTrafficBytes :=
  congrArg (fun p => p.2.2.2.1) (snoopCores_frame t addr req L st dp src)

theorem snoopCores_cfg (t : BusTransaction) (addr : Address) (req : Nat)
    (L : List Nat) (st : SimState) (dp : Bool) (src : Int) :
    (snoopCores t addr req L st dp src).1.cfg = st.cfg :=
  congrArg (fun p => p.1) (snoopCores_frame t addr req L st dp src)

theorem snoopCores_currentCycle (t : BusTransaction) (addr : Address) (req : Nat)
    (L : List Nat) (st : SimState) (dp : Bool) (src : Int) :
    (snoopCores t addr req L st dp src).1.currentCycle = st.currentCycle :=
  congrArg (fun p => p.2.2.2.2.1) (snoopCores_frame t addr req L st dp src)

theorem snoopCores_processors (t : BusTransaction) (addr : Address) (req : Nat)
    (L : List Nat) (st : SimState) (dp : Bool) (src : Int) :
    (snoopCores t addr req L st dp src).1.processors = st.processors :=
  congrArg (fun p => p.2.2.2.2.2.1) (snoopCores_frame t addr req L st dp src)

theorem snoopCores_traces (t : BusTransaction) (addr : Address) (req : Nat)
    (L : List Nat) (st : SimState) (dp : Bool) (src : Int) :
    (snoopCores t addr req L st dp src).1.traces = st.traces :=
  congrArg (fun p => p.2.2.2.2.2.2.1) (snoopCores_frame t addr req L st dp src)

theorem snoopCores_caches_length (t : BusTransaction) (addr : Address) (req : Nat)
    (L : List Nat) (st : SimState) (dp : Bool) (src : Int) :
    (snoopCores t addr req L st dp src).1.caches.length = st.caches.length :=
  congrArg (fun p => p.2.2.2.2.2.2.2.2.2.2.2.2.1)
    (snoopCores_frame t addr req L st dp src)

theorem snoopCores_mem_readCount (t : BusTransaction) (addr : Address) (req : Nat)
    (L : List Nat) (st : SimState) (dp : Bool) (src : Int) :
    (snoopCores t addr req L st dp src).1.mainMemory.readCount
      = st.mainMemory.readCount :=
  congrArg (fun p => p.2.2.2.2.2.2.2.2.2.2.2.2.2.1)
    (snoopCores_frame t addr req L st dp src)

theorem snoopCores_mem_blockSize (t : BusTransaction) (addr : Address) (req : Nat)
    (L : List Nat) (st : SimState) (dp : Bool) (src : Int) :
    (snoopCores t addr req L st dp src).1.mainMemory.blockSize
      = st.mainMemory.blockSize :=
  congrArg (fun p => p.2.2.2.2.2.2.2.2.2.2.2.2.2.2)
    (snoopCores_frame t addr req L st dp src)

/-- The snoop pass over all cores (the loop of the coherence callback). -/
theorem snoop_range_spec (t : BusTransaction) (addr : Address) (req : Nat)
    (st2 : SimState) :
    (snoopCores t addr req (List.range st2.caches.length) st2 false (-1)).1.caches.getD
        req default = st2.caches.getD req default
    ∧ (∀ j : Nat, j ≠ req →
        (snoopCores t addr req (List.range st2.caches.length) st2 false (-1)).1.caches.getD
            j default
          = snoopCacheEffect (st2.caches.getD j default) t addr)
    ∧ (snoopCores t addr req (List.range st2.caches.length) st2 false (-1)).2.1
        = (List.range st2.caches.length).any (fun j => decide (j ≠ req)
            && snoopProvides (st2.caches.getD j default) t addr)
    ∧ ((snoopCores t addr req (List.range st2.caches.length) st2 false (-1)).2.1 = true →
        0 ≤ (snoopCores t addr req (List.range st2.caches.length) st2 false (-1)).2.2) := by
  refine ⟨?_, ?_, ?_, ?_⟩
  · exact snoopCores_get_unchanged t addr req _ st2 false (-1) req (Or.inr rfl)
  · intro j hj
    by_cases hjl : j < st2.caches.length
    case pos =>
      exact snoopCores_get_effect t addr req _ (List.nodup_range _) st2 false (-1) j
        (List.mem_range.mpr hjl) hj
    case neg =>
      rw [snoopCores_get_unchanged t addr req _ st2 false (-1) j
        (Or.inl (fun hm => hjl (List.mem_range.mp hm)))]
      rw [getD_default_of_le (Nat.le_of_not_lt hjl), snoopCacheEffect_default]
  · exact snoopCores_dp t addr req _ (List.nodup_range _) st2 false (-1)
  · exact snoopCores_src_nonneg t addr req _ st2 (-1)

/-- The accounting and arbitration stage of the coherence callback (the
switch plus the busBusyUntil update), before the snoop loop. -/
def acctBus (st : SimState) (t : BusTransaction) (addr : Address) (req : Nat) :
    SimState :=
  let blockSize := 2 ^ st.cfg.blockBits
  let numWords := blockSize / 4
  let acct :=
    match t with
    | .BUS_RD =>
        ({ st with busTrafficBytes := u32 (st.busTrafficBytes + blockSize) },
         2 * numWords)
    | .BUS_RDX =>
        let sharers := countSharers st addr req
        ({ st with invalidationCount := u32 (st.invalidationCount + sharers),
                   busTrafficBytes := u32 (st.busTrafficBytes + blockSize) },
         2 * numWords)
    | .BUS_UPGR =>
        ({ st with invalidationCount := u32 (st.invalidationCount + 1) }, 2)
    | .INVALIDATE =>
        ({ st with invalidationCount := u32 (st.invalidationCount + 1) }, 2)
    | .FLUSH =>
        ({ st with busTrafficBytes := u32 (st.busTrafficBytes + blockSize) }, 100)
  { acct.1 with
    busBusyUntil := u32 (max acct.1.currentCycle acct.1.busBusyUntil + acct.2) }

theorem busTransact_eq_snoop (st : SimState) (t : BusTransaction) (addr : Address)
    (req : Nat) :
    busTransact st t addr req
      = snoopCores t addr req (List.range (acctBus st t addr req).caches.length)
          (acctBus st t addr req) false (-1) := by
  cases t <;> rfl

/-- The bus hold length per transaction (the table of §4.4, first column). -/
def holdLength (t : BusTransaction) (blockSize : Nat) : Nat :=
  match t with
  | .BUS_RD => 2 * (blockSize / 4)
  | .BUS_RDX => 2 * (blockSize / 4)
  | .BUS_UPGR => 2
  | .INVALIDATE => 2
  | .FLUSH => 100

/-- The traffic counter after one transaction (second column of the table;
RD, RDX and FLUSH add blockSize bytes, UPGR and INVALIDATE add none). -/
def trafficAfter (st : SimState) (t : BusTransaction) : Nat :=
  match t with
  | .BUS_RD => u32 (st.busTrafficBytes + 2 ^ st.cfg.blockBits)
  | .BUS_RDX => u32 (st.busTrafficBytes + 2 ^ st.cfg.blockBits)
  | .BUS_UPGR => st.busTrafficBytes
  | .INVALIDATE => st.busTrafficBytes
  | .FLUSH => u32 (st.busTrafficBytes + 2 ^ st.cfg.blockBits)

/-- The invalidation counter after one transaction (third column: RDX adds
the sharer count, UPGR and INVALIDATE add one, RD and FLUSH add none). -/
def invalAfter (st : SimState) (t : BusTransaction) (addr : Address) (req : Nat) :
    Nat :=
  match t with
  | .BUS_RDX => u32 (st.invalidationCount + countSharers st addr req)
  | .BUS_UPGR => u32 (st.invalidationCount + 1)
  | .INVALIDATE => u32 (st.invalidationCount + 1)
  | _ => st.invalidationCount

theorem acctBus_caches (st : SimState) (t : BusTransaction) (addr : Address)
    (req : Nat) : (acctBus st t addr req).caches = st.caches := by
  cases t <;> rfl

theorem acctBus_fields (st : SimState) (t : BusTransaction) (addr : Address)
    (req : Nat) :
    (acctBus st t addr req).cfg = st.cfg
    ∧ (acctBus st t addr req).currentCycle = st.currentCycle
    ∧ (acctBus st t addr req).processors = st.processors
    ∧ (acctBus st t addr req).traces = st.traces
    ∧ (acctBus st t addr req).mainMemory = st.mainMemory
    ∧ (acctBus st t addr req).busBusyUntil
        = u32 (max st.currentCycle st.busBusyUntil + holdLength t (2 ^ st.cfg.blockBits))
    ∧ (acctBus st t addr req).busTrafficBytes = trafficAfter st t
    ∧ (acctBus st t addr req).invalidationCount = invalAfter st t addr req := by
  cases t <;> exact ⟨rfl, rfl, rfl, rfl, rfl, rfl, rfl, rfl⟩

/-- Full characterization of one coherence callback invocation. -/
theorem busTransact_spec (st : SimState) (t : BusTransaction) (addr : Address)
    (req : Nat) :
    (busTransact st t addr req).1.busBusyUntil
        = u32 (max st.currentCycle st.busBusyUntil + holdLength t (2 ^ st.cfg.blockBits))
    ∧ (busTransact st t addr req).1.busTrafficBytes = trafficAfter st t
    ∧ (busTransact st t addr req).1.invalidationCount = invalAfter st t addr req
    ∧ (busTransact st t addr req).1.cfg = st.cfg
    ∧ (busTransact st t addr req).1.currentCycle = st.currentCycle
    ∧ (busTransact st t addr req).1.processors = st.processors
    ∧ (busTransact st t addr req).1.traces = st.traces
    ∧ (busTransact st t addr req).1.caches.length = st.caches.length
    ∧ (busTransact st t addr req).1.mainMemory.readCount = st.mainMemory.readCount
    ∧ (busTransact st t addr req).1.mainMemory.blockSize = st.mainMemory.blockSize
    ∧ (busTransact st t addr req).1.caches.getD req default = st.caches.getD req default
    ∧ (∀ j : Nat, j ≠ req →
        (busTransact st t addr req).1.caches.getD j default
          = snoopCacheEffect (st.caches.getD j default) t addr)
    ∧ ((busTransact st t addr req).2.1
        = (List.range st.caches.length).any (fun j => decide (j ≠ req)
            && snoopProvides (st.caches.getD j default) t addr))
    ∧ ((busTransact st t addr req).2.1 = true → 0 ≤ (busTransact st t addr req).2.2) := by
  have hf := acctBus_fields st t addr req
  have hc := acctBus_caches st t addr req
  have hr := snoop_range_spec t addr req (acctBus st t addr req)
  rw [busTransact_eq_snoop]
  refine ⟨?_, ?_, ?_, ?_, ?_, ?_, ?_, ?_, ?_, ?_, ?_, ?_, ?_, ?_⟩
  · rw [snoopCores_busBusyUntil, hf.2.2.2.2.2.1]
  · rw [snoopCores_busTrafficBytes, hf.2.2.2.2.2.2.1]
  · rw [snoopCores_invalidationCount, hf.2.2.2.2.2.2.2]
  · rw [snoopCores_cfg, hf.1]
  · rw [snoopCores_currentCycle, hf.2.1]
  · rw [snoopCores_processors, hf.2.2.1]
  · rw [snoopCores_traces, hf.2.2.2.1]
  · rw [snoopCores_caches_length, hc]
  · rw [snoopCores_mem_readCount, hf.2.2.2.2.1]
  · rw [snoopCores_mem_blockSize, hf.2.2.2.2.1]
  · rw [hr.1, hc]
  · intro j hj
    rw [hr.2.1 j hj, hc]
  · rw [hr.2.2.1, hc]
  · exact hr.2.2.2

/-! ## C2: accesses while a miss is pending -/

/-- The running example configuration: s=1 (2 sets), b=2 (4-byte blocks),
associativity 1. -/
def cfgEx : Config := { setBits := 1, blockBits := 2, associativity := 1 }

/-- The initial state of the running example. -/
def stEx0 : SimState := initState cfgEx [[], [], [], []]

/-- The state after core 0 read-misses on address 0x8 (tag 1, set 0):
core 0 now has a pending miss. -/
def stEx1 : SimState := (cacheRead stEx0 0 (Address.mkAddr 8 1 2)).1

/-- **C2 counterexample.**  A read issued while the cache has a pending
miss still increments accessCount and readCount: the statistics counters
are not left unchanged as the claim states. -/
theorem blocked_read_changes_counters :
    (stEx1.caches.getD 0 default).pendingMiss = true
    ∧ ((cacheRead stEx1 0 (Address.mkAddr 8 1 2)).1.caches.getD 0 default).accessCount = 2
    ∧ (stEx1.caches.getD 0 default).accessCount = 1
    ∧ ((cacheRead stEx1 0 (Address.mkAddr 8 1 2)).1.caches.getD 0 default).readCount = 2
    ∧ (cacheRead stEx1 0 (Address.mkAddr 8 1 2)).2 = false := by decide

/-- accessCount and readCount bumped as at the top of Cache::read. -/
def bumpReadCounters (c : Cache) : Cache :=
  { c with accessCount := u32 (c.accessCount + 1), readCount := u32 (c.readCount + 1) }

/-- accessCount and writeCount bumped as at the top of Cache::write. -/
def bumpWriteCounters (c : Cache) : Cache :=
  { c with accessCount := u32 (c.accessCount + 1), writeCount := u32 (c.writeCount + 1) }

/-- **C2 (amended).**  A read or write issued while pendingMiss is true
returns "blocked" and does no other work: the whole simulator state is
unchanged except that the requesting cache's accessCount and readCount
(for a read) or writeCount (for a write) are incremented (32-bit).
hitCount, missCount, the sets, the pending-miss state, memory, the bus
counters and all other caches are untouched. -/
theorem blocked_access_spec (st : SimState) (r : Nat) (addr : Address)
    (hp : (st.caches.getD r default).pendingMiss = true) :
    cacheRead st r addr
      = ({ st with caches := st.caches.set r (bumpReadCounters (st.caches.getD r default)) },
         false)
    ∧ cacheWrite st r addr
      = ({ st with caches := st.caches.set r (bumpWriteCounters (st.caches.getD r default)) },
         false) := by
  constructor
  · unfold cacheRead bumpReadCounters
    dsimp only
    split
    · rfl
    · simp_all
  · unfold cacheWrite bumpWriteCounters
    dsimp only
    split
    · rfl
    · simp_all

/-- Witness for the amended C2 at the concrete blocked state. -/
theorem blocked_access_spec_witness :
    (stEx1.caches.getD 0 default).pendingMiss = true
    ∧ (cacheRead stEx1 0 (Address.mkAddr 8 1 2)).2 = false := by
  refine ⟨by decide, ?_⟩
  rw [(blocked_access_spec stEx1 0 (Address.mkAddr 8 1 2) (by decide)).1]

/-! ## C5: the bus accounting table -/

theorem countP_congr_mem {α : Type} {l : List α} {p q : α → Bool}
    (h : ∀ a ∈ l, p a = q a) : l.countP p = l.countP q := by
  induction l with
  | nil => rfl
  | cons a rest ih =>
    rw [List.countP_cons, List.countP_cons, h a (List.mem_cons_self a rest),
      ih (fun x hx => h x (List.mem_cons_of_mem a hx))]

theorem cacheHasValidMatch_iff (c : Cache) (idx tag : Nat) :
    cacheHasValidMatch c idx tag = true ↔ hasMatch (c.linesIn idx) tag := by
  unfold cacheHasValidMatch Cache.linesIn hasMatch isMatch
  simp [List.any_eq_true]

/-- The sharer count of the BUS_RDX accounting equals the number of peer
caches holding the block in a non-INVALID state. -/
theorem countSharers_eq (st : SimState) (addr : Address) (req : Nat) :
    countSharers st addr req
      = ((List.range st.caches.length).filter (fun c => c ≠ req)).countP
          (fun c => decide (holdsAny st c addr.getIndex addr.getTag)) := by
  unfold countSharers
  refine countP_congr_mem (fun c _ => ?_)
  have h := cacheHasValidMatch_iff (st.caches.getD c default) addr.getIndex addr.getTag
  rw [← linesAt_eq_linesIn] at h
  unfold holdsAny
  cases hb : cacheHasValidMatch (st.caches.getD c default) addr.getIndex addr.getTag
  · rw [hb] at h
    simp only [Bool.false_eq_true, false_iff] at h
    simp [h]
  · simp [h.mp hb]

/-- **C5.**  Per issued transaction the bus accounts exactly per the table:
BUS_RD and BUS_RDX hold the bus 2·(blockSize/4) cycles from
max(currentCycle, busBusyUntil) and add blockSize traffic bytes once;
BUS_UPGR and INVALIDATE hold 2 cycles, add no traffic and exactly one
invalidation (even with no sharer); FLUSH holds 100 cycles and adds
blockSize bytes; BUS_RDX adds as many invalidations as there are peer
caches holding a non-INVALID copy of the block at issue time.  Counter
arithmetic is 32-bit as stored. -/
theorem bus_accounting_table (st : SimState) (addr : Address) (req : Nat) :
    ((busTransact st .BUS_RD addr req).1.busBusyUntil
        = u32 (max st.currentCycle st.busBusyUntil + 2 * (2 ^ st.cfg.blockBits / 4))
      ∧ (busTransact st .BUS_RD addr req).1.busTrafficBytes
          = u32 (st.busTrafficBytes + 2 ^ st.cfg.blockBits)
      ∧ (busTransact st .BUS_RD addr req).1.invalidationCount = st.invalidationCount)
    ∧ ((busTransact st .BUS_RDX addr req).1.busBusyUntil
        = u32 (max st.currentCycle st.busBusyUntil + 2 * (2 ^ st.cfg.blockBits / 4))
      ∧ (busTransact st .BUS_RDX addr req).1.busTrafficBytes
          = u32 (st.busTrafficBytes + 2 ^ st.cfg.blockBits)
      ∧ (busTransact st .BUS_RDX addr req).1.invalidationCount
          = u32 (st.invalidationCount
              + ((List.range st.caches.length).filter (fun c => c ≠ req)).countP
                  (fun c => decide (holdsAny st c addr.getIndex addr.getTag))))
    ∧ ((busTransact st .BUS_UPGR addr req).1.busBusyUntil
        = u32 (max st.currentCycle st.busBusyUntil + 2)
      ∧ (busTransact st .BUS_UPGR addr req).1.busTrafficBytes = st.busTrafficBytes
      ∧ (busTransact st .BUS_UPGR addr req).1.invalidationCount
          = u32 (st.invalidationCount + 1))
    ∧ ((busTransact st .INVALIDATE addr req).1.busBusyUntil
        = u32 (max st.currentCycle st.busBusyUntil + 2)
      ∧ (busTransact st .INVALIDATE addr req).1.busTrafficBytes = st.busTrafficBytes
      ∧ (busTransact st .INVALIDATE addr req).1.invalidationCount
          = u32 (st.invalidationCount + 1))
    ∧ ((busTransact st .FLUSH addr req).1.busBusyUntil
        = u32 (max st.currentCycle st.busBusyUntil + 100)
      ∧ (busTransact st .FLUSH addr req).1.busTrafficBytes
          = u32 (st.busTrafficBytes + 2 ^ st.cfg.blockBits)
      ∧ (busTransact st .FLUSH addr req).1.invalidationCount = st.invalidationCount) := by
  refine ⟨⟨(busTransact_spec st .BUS_RD addr req).1,
           (busTransact_spec st .BUS_RD addr req).2.1,
           (busTransact_spec st .BUS_RD addr req).2.2.1⟩,
          ⟨(busTransact_spec st .BUS_RDX addr req).1,
           (busTransact_spec st .BUS_RDX addr req).2.1, ?_⟩,
          ⟨(busTransact_spec st .BUS_UPGR addr req).1,
           (busTransact_spec st .BUS_UPGR addr req).2.1,
           (busTransact_spec st .BUS_UPGR addr req).2.2.1⟩,
          ⟨(busTransact_spec st .INVALIDATE addr req).1,
           (busTransact_spec st .INVALIDATE addr req).2.1,
           (busTransact_spec st .INVALIDATE addr req).2.2.1⟩,
          ⟨(busTransact_spec st .FLUSH addr req).1,
           (busTransact_spec st .FLUSH addr req).2.1,
           (busTransact_spec st .FLUSH addr req).2.2.1⟩⟩
  rw [(busTransact_spec st .BUS_RDX addr req).2.2.1]
  unfold invalAfter
  rw [countSharers_eq]

/-! ## Support lemmas for the miss paths -/

theorem writeBlock_frame (m : MainMemory) (a : Nat) (d : List Nat) :
    (m.writeBlock a d).readCount = m.readCount
    ∧ (m.writeBlock a d).blockSize = m.blockSize := by
  unfold MainMemory.writeBlock
  dsimp only
  split <;> exact ⟨rfl, rfl⟩

theorem readBlock_readCount (m : MainMemory) (a : Nat) :
    (m.readBlock a).1.readCount = u32 (m.readCount + 1) := by
  unfold MainMemory.readBlock
  dsimp only
  split <;> rfl

theorem snoopCacheEffect_no_match (c : Cache) (t : BusTransaction) (addr : Address)
    (h : ¬ hasMatch (c.linesIn addr.getIndex) addr.getTag) :
    snoopCacheEffect c t addr = c := by
  unfold Cache.linesIn at h
  unfold snoopCacheEffect Cache.handleBusTransaction
  dsimp only
  split
  · rfl
  · split
    case h_1 => rfl
    case h_2 k hk =>
      obtain ⟨line0, hl0, hm0⟩ := findLineIdx_some hk
      exact absurd ⟨line0, List.mem_iff_getElem?.mpr ⟨k, hl0⟩, hm0⟩ h

theorem findVictimIdx_some_of_ne_nil {cset : CacheSet} (h : cset.lines ≠ []) :
    ∃ v : Nat, cset.findVictimIdx = some v := by
  unfold CacheSet.findVictimIdx
  cases hf : findInvalidIdx cset.lines with
  | some k => exact ⟨k, rfl⟩
  | none =>
    rw [if_neg (by simp [h])]
    exact ⟨minLRUIdx cset.lines, rfl⟩

theorem busTransact_cfg (st : SimState) (t : BusTransaction) (addr : Address)
    (req : Nat) : (busTransact st t addr req).1.cfg = st.cfg :=
  (busTransact_spec st t addr req).2.2.2.1

theorem busTransact_currentCycle (st : SimState) (t : BusTransaction) (addr : Address)
    (req : Nat) : (busTransact st t addr req).1.currentCycle = st.currentCycle :=
  (busTransact_spec st t addr req).2.2.2.2.1

theorem busTransact_processors (st : SimState) (t : BusTransaction) (addr : Address)
    (req : Nat) : (busTransact st t addr req).1.processors = st.processors :=
  (busTransact_spec st t addr req).2.2.2.2.2.1

theorem busTransact_traces (st : SimState) (t : BusTransaction) (addr : Address)
    (req : Nat) : (busTransact st t addr req).1.traces = st.traces :=
  (busTransact_spec st t addr req).2.2.2.2.2.2.1

theorem busTransact_length (st : SimState) (t : BusTransaction) (addr : Address)
    (req : Nat) : (busTransact st t addr req).1.caches.length = st.caches.length :=
  (busTransact_spec st t addr req).2.2.2.2.2.2.2.1

theorem busTransact_readCount (st : SimState) (t : BusTransaction) (addr : Address)
    (req : Nat) :
    (busTransact st t addr req).1.mainMemory.readCount = st.mainMemory.readCount :=
  (busTransact_spec st t addr req).2.2.2.2.2.2.2.2.1

theorem busTransact_blockSize (st : SimState) (t : BusTransaction) (addr : Address)
    (req : Nat) :
    (busTransact st t addr req).1.mainMemory.blockSize = st.mainMemory.blockSize :=
  (busTransact_spec st t addr req).2.2.2.2.2.2.2.2.2.1

theorem busTransact_caches_req (st : SimState) (t : BusTransaction) (addr : Address)
    (req : Nat) :
    (busTransact st t addr req).1.caches.getD req default = st.caches.getD req default :=
  (busTransact_spec st t addr req).2.2.2.2.2.2.2.2.2.2.1

theorem busTransact_caches_peer (st : SimState) (t : BusTransaction) (addr : Address)
    (req : Nat) (j : Nat) (hj : j ≠ req) :
    (busTransact st t addr req).1.caches.getD j default
      = snoopCacheEffect (st.caches.getD j default) t addr :=
  (busTransact_spec st t addr req).2.2.2.2.2.2.2.2.2.2.2.1 j hj

theorem busTransact_dp (st : SimState) (t : BusTransaction) (addr : Address)
    (req : Nat) :
    (busTransact st t addr req).2.1
      = (List.range st.caches.length).any (fun j => decide (j ≠ req)
          && snoopProvides (st.caches.getD j default) t addr) :=
  (busTransact_spec st t addr req).2.2.2.2.2.2.2.2.2.2.2.2.1

theorem busTransact_src_nonneg (st : SimState) (t : BusTransaction) (addr : Address)
    (req : Nat) (h : (busTransact st t addr req).2.1 = true) :
    0 ≤ (busTransact st t addr req).2.2 :=
  (busTransact_spec st t addr req).2.2.2.2.2.2.2.2.2.2.2.2.2 h

theorem busTransact_FLUSH_caches (st : SimState) (addr : Address) (req : Nat)
    (j : Nat) :
    (busTransact st .FLUSH addr req).1.caches.getD j default
      = st.caches.getD j default := by
  by_cases hj : j = req
  · subst hj
    exact busTransact_caches_req st .FLUSH addr j
  · rw [busTransact_caches_peer st .FLUSH addr req j hj, snoop_FLUSH_id]

/-- What the victim phase of a miss does: the FLUSH never changes any
cache line, memory is only written (never read), and the base
missResolveTime is currentCycle plus 100 exactly for a valid dirty victim. -/
theorem missVictimPhase_spec (st : SimState) (setIndex : Nat) (victim : CacheLine)
    (c1 : Cache) :
    (missVictimPhase st setIndex victim c1).2.missResolveTime
        = (if victim.isValid && victim.isDirty
           then u32 (c1.currentCycle + 100) else c1.currentCycle)
    ∧ (missVictimPhase st setIndex victim c1).2.coreId = c1.coreId
    ∧ (missVictimPhase st setIndex victim c1).2.pendingMiss = c1.pendingMiss
    ∧ (missVictimPhase st setIndex victim c1).2.blockSize = c1.blockSize
    ∧ (missVictimPhase st setIndex victim c1).2.dataSourceCache = c1.dataSourceCache
    ∧ (missVictimPhase st setIndex victim c1).2.sets = c1.sets
    ∧ (∀ j : Nat, (missVictimPhase st setIndex victim c1).1.caches.getD j default
        = st.caches.getD j default)
    ∧ (missVictimPhase st setIndex victim c1).1.caches.length = st.caches.length
    ∧ (missVictimPhase st setIndex victim c1).1.cfg = st.cfg
    ∧ (missVictimPhase st setIndex victim c1).1.currentCycle = st.currentCycle
    ∧ (missVictimPhase st setIndex victim c1).1.processors = st.processors
    ∧ (missVictimPhase st setIndex victim c1).1.traces = st.traces
    ∧ (missVictimPhase st setIndex victim c1).1.mainMemory.readCount
        = st.mainMemory.readCount
    ∧ (missVictimPhase st setIndex victim c1).1.mainMemory.blockSize
        = st.mainMemory.blockSize := by
  unfold missVictimPhase
  dsimp only
  split
  case isTrue hd =>
    obtain ⟨hv, hdy⟩ : victim.isValid = true ∧ victim.isDirty = true := by simpa using hd
    refine ⟨?_, ?_, ?_, ?_, ?_, ?_, ?_, ?_, ?_, ?_, ?_, ?_, ?_, ?_⟩ <;>
      simp only [hv, hdy, eq_self_iff_true, if_true, Bool.and_self] <;>
      first
      | rfl
      | (intro j
         rw [busTransact_FLUSH_caches])
      | rw [busTransact_length]
      | rw [busTransact_cfg]
      | rw [busTransact_currentCycle]
      | rw [busTransact_processors]
      | rw [busTransact_traces]
      | rw [(writeBlock_frame _ _ _).1, busTransact_readCount]
      | rw [(writeBlock_frame _ _ _).2, busTransact_blockSize]
  case isFalse hd =>
    have hdf : (victim.isValid && victim.isDirty) = false := by
      cases hx : (victim.isValid && victim.isDirty)
      · rfl
      · exact absurd hx hd
    by_cases hv : victim.isValid = true
    · have hdy : victim.isDirty = false := by
        cases hdyc : victim.isDirty
        · rfl
        · rw [hv, hdyc] at hdf
          exact Bool.noConfusion hdf
      refine ⟨?_, ?_, ?_, ?_, ?_, ?_, ?_, ?_, ?_, ?_, ?_, ?_, ?_, ?_⟩ <;>
        simp only [hv, hdy, hdf, eq_self_iff_true, if_true, Bool.false_eq_true,
          if_false] <;>
        first
        | rfl
        | (intro j; first | rfl | trivial)
    · have hv2 : victim.isValid = false := by
        cases hvc : victim.isValid
        · rfl
        · exact absurd hvc hv
      refine ⟨?_, ?_, ?_, ?_, ?_, ?_, ?_, ?_, ?_, ?_, ?_, ?_, ?_, ?_⟩ <;>
        simp only [hv2, hdf, eq_self_iff_true, Bool.false_eq_true, if_false] <;>
        first
        | rfl
        | (intro j; first | rfl | trivial)


theorem fetchBlock_memory (st : SimState) (c : Cache) (addr : Address)
    (h : c.dataSourceCache < 0) :
    fetchBlockFromMemoryOrCache st c addr
      = st.mainMemory.readBlock addr.getBlockAddress := by
  unfold fetchBlockFromMemoryOrCache
  dsimp only
  rw [if_neg (fun hand => by omega)]

/-- The write-miss path when no peer provides data on the BUS_RDX and no
stale invalidated entry matches: memory supplies the block (one memory
read) and the fill adds exactly 100 cycles after the optional 100-cycle
writeback penalty. -/
theorem cacheWriteMiss_spec (st : SimState) (r : Nat) (addr : Address)
    (c1 : Cache) (cset : CacheSet) (offset v : Nat)
    (hr : r < st.caches.length)
    (hcore : c1.coreId = r)
    (hdsc : c1.dataSourceCache = -1)
    (hv : cset.findVictimIdx = some v)
    (hpeer : ∀ j : Nat, j < st.caches.length → j ≠ r →
        ¬ holdsAny st j addr.getIndex addr.getTag)
    (hstale : ∀ j : Nat, j < st.caches.length → j ≠ r →
        cacheHasStaleMatch (st.caches.getD j default) addr.getIndex addr.getTag = false) :
    (cacheWriteMiss st r addr c1 addr.getIndex addr.getTag offset cset).2 = false
    ∧ ((cacheWriteMiss st r addr c1 addr.getIndex addr.getTag offset cset).1.caches.getD
          r default).missResolveTime
        = u32 (c1.currentCycle
            + (if (cset.lines.getD v default).isValid && (cset.lines.getD v default).isDirty
               then 200 else 100))
    ∧ (cacheWriteMiss st r addr c1 addr.getIndex addr.getTag offset cset).1.mainMemory.readCount
        = u32 (st.mainMemory.readCount + 1) := by
  unfold cacheWriteMiss
  dsimp only
  rw [hv]
  dsimp only
  have hmv := missVictimPhase_spec st addr.getIndex (cset.lines.getD v default) c1
  rw [hmv.2.1, hcore]
  -- peers do not provide on the BUS_RDX
  have hdp : (busTransact (missVictimPhase st addr.getIndex
      (cset.lines.getD v default) c1).1 .BUS_RDX addr r).2.1 = false := by
    rw [busTransact_dp]
    refine List.any_eq_false.mpr (fun j hj => ?_)
    have hjlen : j < st.caches.length := by
      have h1 := List.mem_range.mp hj
      have h2 := hmv.2.2.2.2.2.2.2.1
      omega
    by_cases hjr : j = r
    · simp [hjr]
    · rw [hmv.2.2.2.2.2.2.1 j]
      intro hcontra
      simp only [Bool.and_eq_true, decide_eq_true_eq] at hcontra
      have hM := snoop_provides_RDX_M (st.caches.getD j default) addr hcontra.2
      exact hpeer j hjlen hjr
        (hasMatchME_hasMatch (hasMatchM_hasMatchME (by
          rw [linesAt_eq_linesIn]
          exact hM)))
  -- and no stale invalidated entry matches in any peer
  have hfs : findStaleSource (busTransact (missVictimPhase st addr.getIndex
      (cset.lines.getD v default) c1).1 .BUS_RDX addr r).1 r addr.getIndex addr.getTag
      = none := by
    unfold findStaleSource
    refine List.find?_eq_none.mpr (fun i hi => ?_)
    obtain ⟨hirange, hir⟩ := List.mem_filter.mp hi
    have hirn : i ≠ r := by simpa using hir
    have hilen : i < st.caches.length := by
      have h1 := List.mem_range.mp hirange
      have h2 := busTransact_length (missVictimPhase st addr.getIndex
        (cset.lines.getD v default) c1).1 .BUS_RDX addr r
      have h3 := hmv.2.2.2.2.2.2.2.1
      omega
    rw [busTransact_caches_peer _ _ _ _ i hirn, hmv.2.2.2.2.2.2.1 i,
      snoopCacheEffect_no_match _ _ _ (by
        rw [← linesAt_eq_linesIn]
        exact hpeer i hilen hirn)]
    have hs := hstale i hilen hirn
    simp only [List.getD_eq_getElem?_getD] at hs
    simp [hs]
  rw [hdp, hfs]
  simp only [Bool.false_eq_true, if_false]
  have hdsc4 : ({ (missVictimPhase st addr.getIndex (cset.lines.getD v default) c1).2
      with coherenceCount := u32 ((missVictimPhase st addr.getIndex
        (cset.lines.getD v default) c1).2.coherenceCount + 1) } : Cache).dataSourceCache
      = (-1 : Int) := by
    show (missVictimPhase st addr.getIndex (cset.lines.getD v default) c1).2.dataSourceCache
      = (-1 : Int)
    rw [hmv.2.2.2.2.1, hdsc]
  rw [fetchBlock_memory _ _ _ (by rw [hdsc4]; decide)]
  rw [hdsc4]
  rw [if_neg (by decide)]
  have hlen2 : r < (busTransact (missVictimPhase st addr.getIndex
      (cset.lines.getD v default) c1).1 .BUS_RDX addr r).1.caches.length := by
    rw [busTransact_length, hmv.2.2.2.2.2.2.2.1]
    exact hr
  refine ⟨by trivial, ?_, ?_⟩
  · dsimp only
    rw [getD_set_self _ _ _ hlen2]
    dsimp only
    rw [hmv.1]
    by_cases hvd : ((cset.lines.getD v default).isValid
        && (cset.lines.getD v default).isDirty) = true
    · rw [if_pos hvd, if_pos hvd, u32_add_left]
    · rw [if_neg hvd, if_neg hvd]
  · dsimp only
    rw [readBlock_readCount, busTransact_readCount, hmv.2.2.2.2.2.2.2.2.2.2.2.2.1]
/-! ## C3: write-miss timing from memory -/

/-- C3 counterexample: on the fresh state a write to address 0 misses and
no peer cache holds the block in MODIFIED (none holds it at all), yet the
stale-tag fallback scan of Cache::write finds the invalidated tag-0 lines
of the peers, sets dataSourceCache, and charges 2 * (blockSize / 4) = 2
cycles instead of 100, even though the block is in fact fetched from main
memory. -/
theorem write_miss_stale_fallback :
    ¬ holdsM stEx0 1 0 0 ∧ ¬ holdsM stEx0 2 0 0 ∧ ¬ holdsM stEx0 3 0 0
    ∧ (cacheWrite stEx0 0 (Address.mkAddr 0 1 2)).2 = false
    ∧ (cacheWrite stEx0 0 (Address.mkAddr 0 1 2)).1.mainMemory.readCount = 1
    ∧ ((cacheWrite stEx0 0 (Address.mkAddr 0 1 2)).1.caches.getD 0 default).missResolveTime
        = 2 := by decide

/-- C3 (amended): a write miss in which no peer cache holds the block in
any valid state, and additionally no peer cache holds an invalidated line
whose stale tag field matches, fetches the block from main memory and sets
missResolveTime to the current cycle plus 100, after a further 100 when a
valid dirty victim is written back. -/
theorem write_miss_memory_timing (st : SimState) (r : Nat) (addr : Address) (v : Nat)
    (hr : r < st.caches.length)
    (hcore : (st.caches.getD r default).coreId = r)
    (hp : (st.caches.getD r default).pendingMiss = false)
    (hidx : addr.getIndex < (st.caches.getD r default).sets.length)
    (hmiss : findLineIdx ((st.caches.getD r default).sets.getD addr.getIndex default).lines
        addr.getTag = none)
    (hv : ((st.caches.getD r default).sets.getD addr.getIndex default).findVictimIdx = some v)
    (hpeer : ∀ j : Nat, j < st.caches.length → j ≠ r →
        ¬ holdsAny st j addr.getIndex addr.getTag)
    (hstale : ∀ j : Nat, j < st.caches.length → j ≠ r →
        cacheHasStaleMatch (st.caches.getD j default) addr.getIndex addr.getTag = false) :
    (cacheWrite st r addr).2 = false
    ∧ ((cacheWrite st r addr).1.caches.getD r default).missResolveTime
        = u32 ((st.caches.getD r default).currentCycle
            + (if ((((st.caches.getD r default).sets.getD addr.getIndex default).lines.getD v
                      default).isValid
                    && (((st.caches.getD r default).sets.getD addr.getIndex
                      default).lines.getD v default).isDirty)
               then 200 else 100))
    ∧ (cacheWrite st r addr).1.mainMemory.readCount = u32 (st.mainMemory.readCount + 1) := by
  have hEq : cacheWrite st r addr
      = cacheWriteMiss st r addr
          { st.caches.getD r default with
              accessCount := u32 ((st.caches.getD r default).accessCount + 1),
              writeCount := u32 ((st.caches.getD r default).writeCount + 1),
              missCount := u32 ((st.caches.getD r default).missCount + 1),
              pendingMiss := true, dataSourceCache := -1 }
          addr.getIndex addr.getTag addr.getOffset
          ((st.caches.getD r default).sets.getD addr.getIndex default) := by
    unfold cacheWrite
    dsimp only
    simp only [hp, Bool.false_eq_true, if_false]
    rw [if_neg (Nat.not_le.mpr hidx)]
    rw [hmiss]
  rw [hEq]
  exact cacheWriteMiss_spec st r addr _ _ addr.getOffset v hr hcore rfl hv hpeer hstale

/-- C3 witness: on the fresh state a write to address 8 (tag 1, so no
stale-tag match anywhere) misses, is fetched from memory, and resolves at
cycle 0 + 100. -/
theorem write_miss_memory_timing_witness :
    (cacheWrite stEx0 0 (Address.mkAddr 8 1 2)).2 = false
    ∧ ((cacheWrite stEx0 0 (Address.mkAddr 8 1 2)).1.caches.getD 0 default).missResolveTime
        = 100
    ∧ (cacheWrite stEx0 0 (Address.mkAddr 8 1 2)).1.mainMemory.readCount = 1 := by
  have h := write_miss_memory_timing stEx0 0 (Address.mkAddr 8 1 2) 0
    (by decide) (by decide) (by decide) (by decide) (by decide) (by decide)
    (by decide) (by decide)
  refine ⟨h.1, ?_, ?_⟩
  · rw [h.2.1]
    decide
  · rw [h.2.2]
    decide
/-! ## C6: LRU bookkeeping -/

theorem writeWord_lru (l : CacheLine) (offset value : Nat) :
    (l.writeWord offset value).lruCounter = l.lruCounter := by
  unfold CacheLine.writeWord
  split
  · rfl
  · split
    · rfl
    · rfl

theorem loadData_lru (l : CacheLine) (d : List Nat) (t : Nat) (s : MESIState) :
    (l.loadData d t s).lruCounter = l.lruCounter := by
  unfold CacheLine.loadData
  split
  · rfl
  · rfl

theorem findInvalidIdx_lt {lines : List CacheLine} {k : Nat}
    (h : findInvalidIdx lines = some k) : k < lines.length := by
  induction lines generalizing k with
  | nil => exact Option.noConfusion h
  | cons l rest ih =>
    unfold findInvalidIdx at h
    by_cases hv : (!l.isValid) = true
    · rw [if_pos hv] at h
      cases h
      simp
    · rw [if_neg hv] at h
      cases hrest : findInvalidIdx rest with
      | none => rw [hrest] at h; exact Option.noConfusion h
      | some j =>
        rw [hrest] at h
        cases h
        have := ih hrest
        simp only [List.length_cons]
        omega

theorem minLRU_fold_lt (lines : List CacheLine) (n : Nat) (l : List Nat)
    (hl : ∀ x ∈ l, x < n) (init : Nat) (hinit : init < n) :
    (l.foldl (fun best k =>
      if (lines.getD k default).lruCounter < (lines.getD best default).lruCounter
      then k else best) init) < n := by
  induction l generalizing init with
  | nil => exact hinit
  | cons a rest ih =>
    simp only [List.foldl_cons]
    refine ih (fun x hx => hl x (List.mem_cons_of_mem _ hx)) _ ?_
    split
    · exact hl a (List.mem_cons_self _ _)
    · exact hinit

theorem minLRUIdx_lt {lines : List CacheLine} (h : lines ≠ []) :
    minLRUIdx lines < lines.length := by
  unfold minLRUIdx
  refine minLRU_fold_lt lines lines.length (List.range lines.length)
    (fun x hx => List.mem_range.mp hx) 0 ?_
  cases lines with
  | nil => exact absurd rfl h
  | cons a rest => simp

theorem findVictimIdx_lt {cset : CacheSet} {v : Nat}
    (h : cset.findVictimIdx = some v) : v < cset.lines.length := by
  unfold CacheSet.findVictimIdx at h
  cases hf : findInvalidIdx cset.lines with
  | some k =>
    rw [hf] at h
    cases h
    exact findInvalidIdx_lt hf
  | none =>
    rw [hf] at h
    by_cases he : cset.lines.isEmpty = true
    · rw [if_pos he] at h
      exact Option.noConfusion h
    · rw [if_neg he] at h
      cases h
      exact minLRUIdx_lt (by simpa [List.isEmpty_iff] using he)
theorem updateLRU_no_overflow (cset : CacheSet) (k : Nat)
    (hno : u32 (cset.lruCounter + 1) ≠ 4294967295) :
    cset.updateLRU k
      = { cset with
            lines := cset.lines.set k
              { cset.lines.getD k default with lruCounter := u32 (cset.lruCounter + 1) },
            lruCounter := u32 (cset.lruCounter + 1) } := by
  unfold CacheSet.updateLRU
  dsimp only
  rw [if_neg hno]

theorem cacheWriteHit_lru (st : SimState) (r : Nat) (addr : Address) (c1 : Cache)
    (offset k : Nat) (cset : CacheSet)
    (hr : r < st.caches.length)
    (hidx : addr.getIndex < c1.sets.length)
    (hk : k < cset.lines.length)
    (hno : u32 (cset.lruCounter + 1) ≠ 4294967295) :
    ((((cacheWriteHit st r addr c1 addr.getIndex offset k cset).1.caches.getD r
        default).sets.getD addr.getIndex default).lines.getD k default).lruCounter
      = u32 (cset.lruCounter + 1) := by
  unfold cacheWriteHit
  dsimp only
  rw [updateLRU_no_overflow cset k hno]
  dsimp only
  rw [getD_set_self _ _ _ hk]
  split
  · dsimp only
    rw [getD_set_self _ _ _ (by rw [busTransact_length]; exact hr)]
    dsimp only
    rw [getD_set_self _ _ _ hidx]
    dsimp only
    rw [getD_set_self _ _ _ (by simpa using hk)]
    rw [writeWord_lru]
    split
    · rw [setMESIState_lru]
    · rfl
  · dsimp only
    rw [getD_set_self _ _ _ hr]
    dsimp only
    rw [getD_set_self _ _ _ hidx]
    dsimp only
    rw [getD_set_self _ _ _ (by simpa using hk)]
    rw [writeWord_lru]
    split
    · rw [setMESIState_lru]
    · rfl
theorem cacheReadMiss_lru (st : SimState) (r : Nat) (addr : Address) (c1 : Cache)
    (cset : CacheSet) (v : Nat)
    (hr : r < st.caches.length)
    (hidx : addr.getIndex < c1.sets.length)
    (hv : cset.findVictimIdx = some v)
    (hvlen : v < cset.lines.length) :
    ((((cacheReadMiss st r addr c1 addr.getIndex addr.getTag cset).1.caches.getD r
        default).sets.getD addr.getIndex default).lines.getD v default).lruCounter
      = (cset.lines.getD v default).lruCounter := by
  have hmv := missVictimPhase_spec st addr.getIndex (cset.lines.getD v default) c1
  unfold cacheReadMiss
  dsimp only
  rw [hv]
  dsimp only
  rw [getD_set_self _ _ _ (by rw [busTransact_length, hmv.2.2.2.2.2.2.2.1]; exact hr)]
  dsimp only
  split
  · dsimp only
    rw [hmv.2.2.2.2.2.1]
    rw [getD_set_self _ _ _ hidx]
    dsimp only
    rw [getD_set_self _ _ _ hvlen]
    rw [loadData_lru]
  · dsimp only
    rw [hmv.2.2.2.2.2.1]
    rw [getD_set_self _ _ _ hidx]
    dsimp only
    rw [getD_set_self _ _ _ hvlen]
    rw [loadData_lru]

theorem cacheWriteMiss_lru (st : SimState) (r : Nat) (addr : Address) (c1 : Cache)
    (cset : CacheSet) (offset v : Nat)
    (hr : r < st.caches.length)
    (hidx : addr.getIndex < c1.sets.length)
    (hv : cset.findVictimIdx = some v)
    (hvlen : v < cset.lines.length) :
    ((((cacheWriteMiss st r addr c1 addr.getIndex addr.getTag offset
          cset).1.caches.getD r default).sets.getD addr.getIndex
        default).lines.getD v default).lruCounter
      = (cset.lines.getD v default).lruCounter := by
  have hmv := missVictimPhase_spec st addr.getIndex (cset.lines.getD v default) c1
  unfold cacheWriteMiss
  dsimp only
  rw [hv]
  dsimp only
  rw [getD_set_self _ _ _ (by rw [busTransact_length, hmv.2.2.2.2.2.2.2.1]; exact hr)]
  dsimp only
  split
  · dsimp only
    rw [hmv.2.2.2.2.2.1]
    rw [getD_set_self _ _ _ hidx]
    dsimp only
    rw [getD_set_self _ _ _ hvlen]
    rw [writeWord_lru, loadData_lru]
  · split
    · dsimp only
      rw [hmv.2.2.2.2.2.1]
      rw [getD_set_self _ _ _ hidx]
      dsimp only
      rw [getD_set_self _ _ _ hvlen]
      rw [writeWord_lru, loadData_lru]
    · dsimp only
      rw [hmv.2.2.2.2.2.1]
      rw [getD_set_self _ _ _ hidx]
      dsimp only
      rw [getD_set_self _ _ _ hvlen]
      rw [writeWord_lru, loadData_lru]
/-- C6 counterexample: the read miss of address 8 on the fresh state
installs the block into line 0 of set 0 of cache 0 (valid, tag 1), yet the
installed line's LRU counter and the set's LRU counter both stay 0 — no
updateLRU runs on the miss path — whereas an updateLRU on that line would
have stamped counter 1. -/
theorem miss_install_no_lru_update :
    (((stEx1.caches.getD 0 default).sets.getD 0 default).lines.getD 0 default).isValid = true
    ∧ (((stEx1.caches.getD 0 default).sets.getD 0 default).lines.getD 0 default).tag = 1
    ∧ (((stEx1.caches.getD 0 default).sets.getD 0 default).lines.getD 0
        default).lruCounter = 0
    ∧ ((stEx1.caches.getD 0 default).sets.getD 0 default).lruCounter = 0
    ∧ ((((stEx0.caches.getD 0 default).sets.getD 0 default).updateLRU 0).lines.getD 0
        default).lruCounter = 1 := by decide

/-- C6 (amended): LRU counters change exactly on hits: a read or write hit
stamps the fresh counter onto the accessed line (absent the 32-bit overflow
renumbering), no snoop-triggered transition changes any line's LRU counter,
and a read or write miss installs the block WITHOUT updating the victim
line's LRU counter, which keeps its pre-install value. -/
theorem lru_update_policy (st : SimState) (r : Nat) (addr : Address)
    (hr : r < st.caches.length)
    (hp : (st.caches.getD r default).pendingMiss = false)
    (hidx : addr.getIndex < (st.caches.getD r default).sets.length) :
    (∀ k : Nat,
        findLineIdx ((st.caches.getD r default).sets.getD addr.getIndex default).lines
            addr.getTag = some k →
        u32 (((st.caches.getD r default).sets.getD addr.getIndex default).lruCounter + 1)
            ≠ 4294967295 →
        ((((cacheRead st r addr).1.caches.getD r default).sets.getD addr.getIndex
            default).lines.getD k default).lruCounter
          = u32 (((st.caches.getD r default).sets.getD addr.getIndex
              default).lruCounter + 1)
        ∧ ((((cacheWrite st r addr).1.caches.getD r default).sets.getD addr.getIndex
            default).lines.getD k default).lruCounter
          = u32 (((st.caches.getD r default).sets.getD addr.getIndex
              default).lruCounter + 1))
    ∧ (∀ v : Nat,
        findLineIdx ((st.caches.getD r default).sets.getD addr.getIndex default).lines
            addr.getTag = none →
        ((st.caches.getD r default).sets.getD addr.getIndex default).findVictimIdx
            = some v →
        ((((cacheRead st r addr).1.caches.getD r default).sets.getD addr.getIndex
            default).lines.getD v default).lruCounter
          = (((st.caches.getD r default).sets.getD addr.getIndex default).lines.getD v
              default).lruCounter
        ∧ ((((cacheWrite st r addr).1.caches.getD r default).sets.getD addr.getIndex
            default).lines.getD v default).lruCounter
          = (((st.caches.getD r default).sets.getD addr.getIndex default).lines.getD v
              default).lruCounter)
    ∧ (∀ (c : Cache) (t : BusTransaction) (idx k : Nat),
        lineLRUAt (snoopCacheEffect c t addr) idx k = lineLRUAt c idx k) := by
  refine ⟨?_, ?_, fun c t idx k => snoop_line_lru c t addr idx k⟩
  · intro k hkfind hno
    obtain ⟨l0, hl0, hm0⟩ := findLineIdx_some hkfind
    have hk : k < ((st.caches.getD r default).sets.getD addr.getIndex
        default).lines.length := lt_length_of_getElem? hl0
    constructor
    · unfold cacheRead
      dsimp only
      simp only [hp, Bool.false_eq_true, if_false]
      rw [if_neg (Nat.not_le.mpr hidx)]
      rw [hkfind]
      dsimp only
      rw [getD_set_self _ _ _ hr]
      dsimp only
      rw [getD_set_self _ _ _ hidx]
      rw [updateLRU_no_overflow _ k hno]
      dsimp only
      rw [getD_set_self _ _ _ hk]
    · unfold cacheWrite
      dsimp only
      simp only [hp, Bool.false_eq_true, if_false]
      rw [if_neg (Nat.not_le.mpr hidx)]
      rw [hkfind]
      exact cacheWriteHit_lru st r addr _ addr.getOffset k _ hr hidx hk hno
  · intro v hnone hvic
    have hvlen := findVictimIdx_lt hvic
    constructor
    · unfold cacheRead
      dsimp only
      simp only [hp, Bool.false_eq_true, if_false]
      rw [if_neg (Nat.not_le.mpr hidx)]
      rw [hnone]
      exact cacheReadMiss_lru st r addr _ _ v hr hidx hvic hvlen
    · unfold cacheWrite
      dsimp only
      simp only [hp, Bool.false_eq_true, if_false]
      rw [if_neg (Nat.not_le.mpr hidx)]
      rw [hnone]
      exact cacheWriteMiss_lru st r addr _ _ addr.getOffset v hr hidx hvic hvlen

/-- C6 witness: applied to the fresh state and address 8 (a miss installed
into line 0), the policy theorem yields that the installed line's LRU
counter is unchanged. -/
theorem lru_update_policy_witness :
    ((((cacheRead stEx0 0 (Address.mkAddr 8 1 2)).1.caches.getD 0 default).sets.getD
        (Address.mkAddr 8 1 2).getIndex default).lines.getD 0 default).lruCounter
      = (((stEx0.caches.getD 0 default).sets.getD (Address.mkAddr 8 1 2).getIndex
          default).lines.getD 0 default).lruCounter := by
  exact ((lru_update_policy stEx0 0 (Address.mkAddr 8 1 2) (by decide) (by decide)
    (by decide)).2.1 0 (by decide) (by decide)).1
/-! ## C4: data-size well-formedness and the read-miss install state -/

/-- Every stored memory block has the configured block size. -/
def memWF (m : MainMemory) : Prop := ∀ p ∈ m.mem, p.2.length = m.blockSize

instance (m : MainMemory) : Decidable (memWF m) := by
  unfold memWF
  infer_instance

/-- Every line of every set of the cache carries bs bytes of data. -/
def cacheDataWF (c : Cache) (bs : Nat) : Prop :=
  ∀ s ∈ c.sets, ∀ l ∈ s.lines, l.data.length = bs

instance (c : Cache) (bs : Nat) : Decidable (cacheDataWF c bs) := by
  unfold cacheDataWF
  infer_instance

/-- Data-size well-formedness of the whole simulator state. -/
def stateWF (st : SimState) : Prop :=
  memWF st.mainMemory
  ∧ ∀ j : Nat, j < st.caches.length →
      cacheDataWF (st.caches.getD j default) st.mainMemory.blockSize

instance (st : SimState) : Decidable (stateWF st) := by
  unfold stateWF
  infer_instance

theorem getD_mem {α : Type} [Inhabited α] {l : List α} {i : Nat} (h : i < l.length) :
    l.getD i default ∈ l := by
  rw [List.getD_eq_getElem?_getD, List.getElem?_eq_getElem h]
  exact List.getElem_mem h

theorem memLookup_mem {mem : List (Nat × List Nat)} {a : Nat} {d : List Nat}
    (h : memLookup mem a = some d) : ∃ p ∈ mem, p.2 = d := by
  induction mem with
  | nil => exact Option.noConfusion h
  | cons q rest ih =>
    unfold memLookup at h
    by_cases hk : q.1 = a
    · rw [if_pos hk] at h
      cases h
      exact ⟨q, List.mem_cons_self _ _, rfl⟩
    · rw [if_neg hk] at h
      obtain ⟨p, hp, hd⟩ := ih h
      exact ⟨p, List.mem_cons_of_mem _ hp, hd⟩

theorem memInsert_mem {mem : List (Nat × List Nat)} {a : Nat} {d : List Nat}
    {p : Nat × List Nat} (h : p ∈ memInsert mem a d) : p ∈ mem ∨ p = (a, d) := by
  induction mem with
  | nil =>
    unfold memInsert at h
    rcases List.mem_singleton.mp h with hp
    exact Or.inr hp
  | cons q rest ih =>
    unfold memInsert at h
    by_cases hk : q.1 = a
    · rw [if_pos hk] at h
      rcases List.mem_cons.mp h with hp | hp
      · subst hk
        exact Or.inr (by rw [hp])
      · exact Or.inl (List.mem_cons_of_mem _ hp)
    · rw [if_neg hk] at h
      rcases List.mem_cons.mp h with hp | hp
      · exact Or.inl (by rw [hp]; exact List.mem_cons_self _ _)
      · rcases ih hp with h1 | h2
        · exact Or.inl (List.mem_cons_of_mem _ h1)
        · exact Or.inr h2

theorem readBlock_len (m : MainMemory) (a : Nat) (h : memWF m) :
    (m.readBlock a).2.length = m.blockSize := by
  unfold MainMemory.readBlock
  dsimp only
  split
  case h_1 d heq =>
    obtain ⟨p, hp, hd⟩ := memLookup_mem heq
    rw [← hd]
    exact h p hp
  case h_2 heq => exact List.length_replicate _ _

theorem writeBlock_memWF (m : MainMemory) (a : Nat) (d : List Nat) (h : memWF m) :
    memWF (m.writeBlock a d) := by
  unfold MainMemory.writeBlock
  dsimp only
  split
  case isTrue hne => exact fun p hp => h p hp
  case isFalse hne =>
    intro p hp
    rcases memInsert_mem hp with h1 | h2
    · exact h p h1
    · rw [h2]
      exact not_ne_iff.mp hne

theorem findValidLineData_mem {lines : List CacheLine} {tag : Nat} {d : List Nat}
    (h : findValidLineData lines tag = some d) : ∃ l ∈ lines, l.data = d := by
  induction lines with
  | nil => exact Option.noConfusion h
  | cons l rest ih =>
    unfold findValidLineData at h
    by_cases hc : (l.isValid && l.tag == tag) = true
    · rw [if_pos hc] at h
      cases h
      exact ⟨l, List.mem_cons_self _ _, rfl⟩
    · rw [if_neg hc] at h
      obtain ⟨l1, hl1, hd⟩ := ih h
      exact ⟨l1, List.mem_cons_of_mem _ hl1, hd⟩

theorem fetch_length (st : SimState) (c : Cache) (addr : Address) (h : stateWF st) :
    (fetchBlockFromMemoryOrCache st c addr).2.length = st.mainMemory.blockSize := by
  unfold fetchBlockFromMemoryOrCache
  dsimp only
  split
  case h_1 d heq =>
    split at heq
    case isTrue hc =>
      split at heq
      case isTrue hlt =>
        obtain ⟨l, hlmem, hld⟩ := findValidLineData_mem heq
        rw [← hld]
        have hjlt : c.dataSourceCache.toNat < st.caches.length := by
          have h1 := hc.1
          have h2 := hc.2
          omega
        exact h.2 c.dataSourceCache.toNat hjlt _ (getD_mem hlt) l hlmem
      case isFalse hlt => exact Option.noConfusion heq
    case isFalse hc => exact Option.noConfusion heq
  case h_2 heq => exact readBlock_len _ _ h.1
theorem snoopCacheEffect_dataWF (c : Cache) (t : BusTransaction) (addr : Address)
    (bs : Nat) (h : cacheDataWF c bs) : cacheDataWF (snoopCacheEffect c t addr) bs := by
  unfold snoopCacheEffect Cache.handleBusTransaction
  dsimp only
  split
  case isTrue hb => exact h
  case isFalse hb =>
    split
    case h_1 heq => exact h
    case h_2 k hk =>
      have hidx : addr.getIndex < c.sets.length := Nat.lt_of_not_le hb
      have hklen : k < (c.sets.getD addr.getIndex default).lines.length := by
        obtain ⟨l0, hl0, hm0⟩ := findLineIdx_some hk
        exact lt_length_of_getElem? hl0
      cases t <;>
        cases hs : ((c.sets.getD addr.getIndex default).lines.getD k default).mesiState <;>
          simp only [hs] <;>
          first
          | exact h
          | { intro s hsmem l hlmem
              rcases List.mem_or_eq_of_mem_set hsmem with hs1 | hs2
              · exact h s hs1 l hlmem
              · subst hs2
                rcases List.mem_or_eq_of_mem_set hlmem with hl1 | hl2
                · exact h _ (getD_mem hidx) l hl1
                · subst hl2
                  rw [setMESIState_data]
                  exact h _ (getD_mem hidx) _ (getD_mem hklen) }

theorem handle_memWF (c : Cache) (mem : MainMemory) (t : BusTransaction)
    (addr : Address) (h : memWF mem) :
    memWF (c.handleBusTransaction mem t addr).2.1 := by
  unfold Cache.handleBusTransaction
  dsimp only
  split
  case isTrue hb => exact h
  case isFalse hb =>
    split
    case h_1 heq => exact h
    case h_2 k hk =>
      cases t <;>
        cases hs : ((c.sets.getD addr.getIndex default).lines.getD k default).mesiState <;>
          simp only [hs] <;>
          first
          | exact h
          | exact writeBlock_memWF _ _ _ h

theorem snoopCores_memWF (t : BusTransaction) (addr : Address) (req : Nat)
    (l : List Nat) (st : SimState) (dp : Bool) (src : Int)
    (h : memWF st.mainMemory) :
    memWF (snoopCores t addr req l st dp src).1.mainMemory := by
  induction l generalizing st dp src with
  | nil => exact h
  | cons core rest ih =>
    unfold snoopCores
    dsimp only
    split
    · exact ih st dp src h
    · split
      · exact ih _ _ _ (handle_memWF _ _ _ _ h)
      · exact ih _ _ _ (handle_memWF _ _ _ _ h)

theorem busTransact_stateWF (st : SimState) (t : BusTransaction) (addr : Address)
    (req : Nat) (h : stateWF st) : stateWF (busTransact st t addr req).1 := by
  constructor
  · rw [busTransact_eq_snoop]
    refine snoopCores_memWF _ _ _ _ _ _ _ ?_
    rw [(acctBus_fields st t addr req).2.2.2.2.1]
    exact h.1
  · intro j hj
    rw [busTransact_length] at hj
    rw [busTransact_blockSize]
    by_cases hjr : j = req
    · subst hjr
      rw [busTransact_caches_req]
      exact h.2 j hj
    · rw [busTransact_caches_peer st t addr req j hjr]
      exact snoopCacheEffect_dataWF _ _ _ _ (h.2 j hj)

theorem missVictimPhase_stateWF (st : SimState) (setIndex : Nat) (victim : CacheLine)
    (c1 : Cache) (h : stateWF st) : stateWF (missVictimPhase st setIndex victim c1).1 := by
  unfold missVictimPhase
  dsimp only
  split
  case isTrue hd =>
    constructor
    · exact writeBlock_memWF _ _ _ (busTransact_stateWF _ _ _ _ h).1
    · intro j hj
      rw [(writeBlock_frame _ _ _).2]
      exact (busTransact_stateWF _ _ _ _ h).2 j hj
  case isFalse hd => exact h
theorem bool_eq_decide {b : Bool} {p : Prop} [Decidable p] (h : b = true ↔ p) :
    b = decide p := by
  by_cases hp : p
  · rw [h.mpr hp, decide_eq_true hp]
  · have hb : b = false := by
      cases hbc : b
      · rfl
      · exact absurd (h.mp hbc) hp
    rw [hb, decide_eq_false hp]

theorem loadData_fetch (st1 : SimState) (c : Cache) (addr : Address) (lv : CacheLine)
    (tg : Nat) (s : MESIState) (hwf1 : stateWF st1)
    (hlen : lv.data.length = st1.mainMemory.blockSize) :
    (lv.loadData (fetchBlockFromMemoryOrCache st1 c addr).2 tg s).mesiState = s
    ∧ (lv.loadData (fetchBlockFromMemoryOrCache st1 c addr).2 tg s).tag = tg := by
  have hfl := fetch_length st1 c addr hwf1
  unfold CacheLine.loadData
  rw [if_neg (by rw [hfl, hlen]; exact fun hne => hne rfl)]
  exact ⟨rfl, rfl⟩

theorem cacheReadMiss_install (st : SimState) (r : Nat) (addr : Address) (c1 : Cache)
    (cset : CacheSet) (v : Nat)
    (hwf : stateWF st)
    (hr : r < st.caches.length)
    (hcore : c1.coreId = r)
    (hdsc : c1.dataSourceCache = -1)
    (hidx : addr.getIndex < c1.sets.length)
    (hv : cset.findVictimIdx = some v)
    (hvlen : v < cset.lines.length)
    (hvdata : (cset.lines.getD v default).data.length = st.mainMemory.blockSize) :
    ((((cacheReadMiss st r addr c1 addr.getIndex addr.getTag cset).1.caches.getD r
        default).sets.getD addr.getIndex default).lines.getD v default).mesiState
      = (if (List.range st.caches.length).any
            (fun j => decide (j ≠ r) && decide (holdsAny st j addr.getIndex addr.getTag))
         then MESIState.SHARED else MESIState.EXCLUSIVE)
    ∧ ((((cacheReadMiss st r addr c1 addr.getIndex addr.getTag cset).1.caches.getD r
        default).sets.getD addr.getIndex default).lines.getD v default).tag
      = addr.getTag := by
  have hmv := missVictimPhase_spec st addr.getIndex (cset.lines.getD v default) c1
  have hwfA : stateWF (missVictimPhase st addr.getIndex (cset.lines.getD v default) c1).1 :=
    missVictimPhase_stateWF _ _ _ _ hwf
  have hwf1 : stateWF (busTransact (missVictimPhase st addr.getIndex
      (cset.lines.getD v default) c1).1 .BUS_RD addr
      (missVictimPhase st addr.getIndex (cset.lines.getD v default) c1).2.coreId).1 :=
    busTransact_stateWF _ .BUS_RD addr _ hwfA
  have hbs : (busTransact (missVictimPhase st addr.getIndex (cset.lines.getD v default)
      c1).1 .BUS_RD addr (missVictimPhase st addr.getIndex (cset.lines.getD v default)
      c1).2.coreId).1.mainMemory.blockSize = st.mainMemory.blockSize := by
    rw [busTransact_blockSize]
    exact hmv.2.2.2.2.2.2.2.2.2.2.2.2.2
  have hlen1 := hvdata.trans hbs.symm
  have hdpc : (busTransact (missVictimPhase st addr.getIndex (cset.lines.getD v default)
        c1).1 .BUS_RD addr (missVictimPhase st addr.getIndex (cset.lines.getD v default)
        c1).2.coreId).2.1
      = (List.range st.caches.length).any
          (fun j => decide (j ≠ r) && decide (holdsAny st j addr.getIndex addr.getTag)) := by
    rw [busTransact_dp]
    rw [hmv.2.2.2.2.2.2.2.1]
    refine any_congr_mem (fun j hj => ?_)
    rw [hmv.2.2.2.2.2.2.1 j]
    rw [hmv.2.1, hcore]
    congr 1
    exact bool_eq_decide (snoop_provides_RD_iff _ addr)
  unfold cacheReadMiss
  dsimp only
  rw [hv]
  dsimp only
  rw [getD_set_self _ _ _ (by rw [busTransact_length, hmv.2.2.2.2.2.2.2.1]; exact hr)]
  dsimp only
  split
  case isTrue hb =>
    have hnn := busTransact_src_nonneg _ .BUS_RD addr _ hb
    rw [if_pos hnn, if_pos hnn]
    dsimp only
    rw [hmv.2.2.2.2.2.1]
    rw [getD_set_self _ _ _ hidx]
    dsimp only
    rw [getD_set_self _ _ _ hvlen]
    rw [← hdpc, hb, if_pos rfl]
    exact loadData_fetch _ _ addr _ addr.getTag .SHARED hwf1 hlen1
  case isFalse hb =>
    have hds4 : (missVictimPhase st addr.getIndex (cset.lines.getD v default)
        c1).2.dataSourceCache = -1 := hmv.2.2.2.2.1.trans hdsc
    have hneg : ¬ ((0 : Int) ≤ (missVictimPhase st addr.getIndex
        (cset.lines.getD v default) c1).2.dataSourceCache) := by
      rw [hds4]
      decide
    rw [if_neg hneg, if_neg hneg]
    dsimp only
    rw [hmv.2.2.2.2.2.1]
    rw [getD_set_self _ _ _ hidx]
    dsimp only
    rw [getD_set_self _ _ _ hvlen]
    have hbf : (busTransact (missVictimPhase st addr.getIndex (cset.lines.getD v default)
        c1).1 .BUS_RD addr (missVictimPhase st addr.getIndex (cset.lines.getD v default)
        c1).2.coreId).2.1 = false := by
      cases hbb : (busTransact (missVictimPhase st addr.getIndex
          (cset.lines.getD v default) c1).1 .BUS_RD addr (missVictimPhase st addr.getIndex
          (cset.lines.getD v default) c1).2.coreId).2.1
      · rfl
      · exact absurd hbb hb
    rw [← hdpc, hbf, if_neg (by decide)]
    exact loadData_fetch _ _ addr _ addr.getTag .EXCLUSIVE hwf1 hlen1
theorem isValid_of_mesiState {l : CacheLine} {s : MESIState} (hls : l.mesiState = s)
    (hs : s ≠ .INVALID) : l.isValid = true := by
  unfold CacheLine.isValid
  rw [hls]
  cases s <;> first | exact absurd rfl hs | rfl

/-- C4: a read miss installs the fetched block (valid, with the requested
tag) in state SHARED exactly when some peer cache held the block in a
non-INVALID state (M, E or S) at the time of the BUS_RD, and in state
EXCLUSIVE otherwise. -/
theorem read_miss_install_state (st : SimState) (r : Nat) (addr : Address) (v : Nat)
    (hwf : stateWF st)
    (hr : r < st.caches.length)
    (hcore : (st.caches.getD r default).coreId = r)
    (hp : (st.caches.getD r default).pendingMiss = false)
    (hidx : addr.getIndex < (st.caches.getD r default).sets.length)
    (hnone : findLineIdx ((st.caches.getD r default).sets.getD addr.getIndex default).lines
        addr.getTag = none)
    (hv : ((st.caches.getD r default).sets.getD addr.getIndex default).findVictimIdx
        = some v) :
    ((((cacheRead st r addr).1.caches.getD r default).sets.getD addr.getIndex
        default).lines.getD v default).isValid = true
    ∧ ((((cacheRead st r addr).1.caches.getD r default).sets.getD addr.getIndex
        default).lines.getD v default).tag = addr.getTag
    ∧ ((((cacheRead st r addr).1.caches.getD r default).sets.getD addr.getIndex
        default).lines.getD v default).mesiState
      = (if (List.range st.caches.length).any
            (fun j => decide (j ≠ r) && decide (holdsAny st j addr.getIndex addr.getTag))
         then MESIState.SHARED else MESIState.EXCLUSIVE) := by
  have hvlen := findVictimIdx_lt hv
  have hvdata : ((((st.caches.getD r default).sets.getD addr.getIndex
      default).lines.getD v default)).data.length = st.mainMemory.blockSize :=
    hwf.2 r hr _ (getD_mem hidx) _ (getD_mem hvlen)
  have hEq : cacheRead st r addr
      = cacheReadMiss st r addr
          { st.caches.getD r default with
              accessCount := u32 ((st.caches.getD r default).accessCount + 1),
              readCount := u32 ((st.caches.getD r default).readCount + 1),
              missCount := u32 ((st.caches.getD r default).missCount + 1),
              pendingMiss := true, dataSourceCache := -1 }
          addr.getIndex addr.getTag
          ((st.caches.getD r default).sets.getD addr.getIndex default) := by
    unfold cacheRead
    dsimp only
    simp only [hp, Bool.false_eq_true, if_false]
    rw [if_neg (Nat.not_le.mpr hidx)]
    rw [hnone]
  rw [hEq]
  have h := cacheReadMiss_install st r addr
    { st.caches.getD r default with
        accessCount := u32 ((st.caches.getD r default).accessCount + 1),
        readCount := u32 ((st.caches.getD r default).readCount + 1),
        missCount := u32 ((st.caches.getD r default).missCount + 1),
        pendingMiss := true, dataSourceCache := -1 }
    ((st.caches.getD r default).sets.getD addr.getIndex default) v
    hwf hr hcore rfl hidx hv hvlen hvdata
  exact ⟨isValid_of_mesiState h.1 (by split <;> decide), h.2, h.1⟩

/-- C4 witness: on the fresh state the read miss of address 8 (no peer
holds the block) installs the line valid with tag 1 in state EXCLUSIVE. -/
theorem read_miss_install_state_witness :
    ((((cacheRead stEx0 0 (Address.mkAddr 8 1 2)).1.caches.getD 0 default).sets.getD
        (Address.mkAddr 8 1 2).getIndex default).lines.getD 0 default).isValid = true
    ∧ ((((cacheRead stEx0 0 (Address.mkAddr 8 1 2)).1.caches.getD 0 default).sets.getD
        (Address.mkAddr 8 1 2).getIndex default).lines.getD 0 default).tag
      = (Address.mkAddr 8 1 2).getTag
    ∧ ((((cacheRead stEx0 0 (Address.mkAddr 8 1 2)).1.caches.getD 0 default).sets.getD
        (Address.mkAddr 8 1 2).getIndex default).lines.getD 0 default).mesiState
      = (if (List.range stEx0.caches.length).any
            (fun j => decide (j ≠ 0)
              && decide (holdsAny stEx0 j (Address.mkAddr 8 1 2).getIndex
                  (Address.mkAddr 8 1 2).getTag))
         then MESIState.SHARED else MESIState.EXCLUSIVE) :=
  read_miss_install_state stEx0 0 (Address.mkAddr 8 1 2) 0 (by decide) (by decide)
    (by decide) (by decide) (by decide) (by decide) (by decide)
/-! ## C1: MESI exclusivity.  Key equality: lists of lines that agree on
everything an invariant can see (state, tag, data), differing only in LRU
counters. -/

/-- Two lines agreeing on MESI state, tag and data. -/
def sameKey (l1 l2 : CacheLine) : Prop :=
  l1.mesiState = l2.mesiState ∧ l1.tag = l2.tag ∧ l1.data = l2.data

theorem sameKey_refl (l : CacheLine) : sameKey l l := ⟨rfl, rfl, rfl⟩

theorem sameKey_isValid {l1 l2 : CacheLine} (h : sameKey l1 l2) :
    l1.isValid = l2.isValid := by
  unfold CacheLine.isValid
  rw [h.1]

theorem sameKey_isMatch {l1 l2 : CacheLine} (h : sameKey l1 l2) (tag : Nat) :
    isMatch l1 tag ↔ isMatch l2 tag := by
  unfold isMatch
  rw [sameKey_isValid h, h.2.1]

/-- Pointwise key equality of two line lists. -/
def linesKeyEq (xs ys : List CacheLine) : Prop :=
  xs.length = ys.length
  ∧ ∀ n : Nat, n < ys.length → sameKey (xs.getD n default) (ys.getD n default)

theorem linesKeyEq_refl (xs : List CacheLine) : linesKeyEq xs xs :=
  ⟨rfl, fun n _ => sameKey_refl _⟩

theorem linesKeyEq_of_eq {xs ys : List CacheLine} (h : xs = ys) : linesKeyEq xs ys :=
  h ▸ linesKeyEq_refl xs

theorem getD_eq_getElem {α : Type} [Inhabited α] (l : List α) (n : Nat)
    (h : n < l.length) : l.getD n default = l[n] := by
  rw [List.getD_eq_getElem?_getD, List.getElem?_eq_getElem h]
  rfl

theorem hasMatch_keyEq {xs ys : List CacheLine} (h : linesKeyEq xs ys) (tag : Nat) :
    hasMatch xs tag ↔ hasMatch ys tag := by
  rw [hasMatch_iff_idx, hasMatch_iff_idx]
  constructor
  · rintro ⟨j, x, hj, hm⟩
    have hjlen : j < ys.length := h.1 ▸ lt_length_of_getElem? hj
    refine ⟨j, ys.getD j default, (getD_eq_getElem ys j hjlen) ▸
      List.getElem?_eq_getElem hjlen, ?_⟩
    have hx : xs.getD j default = x := getD_eq_of_getElem? hj
    exact ((sameKey_isMatch (h.2 j hjlen) tag).mp (hx ▸ hm))
  · rintro ⟨j, y, hj, hm⟩
    have hjlen : j < ys.length := lt_length_of_getElem? hj
    have hjlen2 : j < xs.length := h.1 ▸ hjlen
    refine ⟨j, xs.getD j default, (getD_eq_getElem xs j hjlen2) ▸
      List.getElem?_eq_getElem hjlen2, ?_⟩
    have hy : ys.getD j default = y := getD_eq_of_getElem? hj
    exact ((sameKey_isMatch (h.2 j hjlen) tag).mpr (hy ▸ hm))

theorem hasMatchM_keyEq {xs ys : List CacheLine} (h : linesKeyEq xs ys) (tag : Nat) :
    hasMatchM xs tag ↔ hasMatchM ys tag := by
  rw [hasMatchM_iff_idx, hasMatchM_iff_idx]
  constructor
  · rintro ⟨j, x, hj, hm⟩
    have hjlen : j < ys.length := h.1 ▸ lt_length_of_getElem? hj
    refine ⟨j, ys.getD j default, (getD_eq_getElem ys j hjlen) ▸
      List.getElem?_eq_getElem hjlen, ?_, ?_⟩
    · rw [← (h.2 j hjlen).1, getD_eq_of_getElem? hj]
      exact hm.1
    · rw [← (h.2 j hjlen).2.1, getD_eq_of_getElem? hj]
      exact hm.2
  · rintro ⟨j, y, hj, hm⟩
    have hjlen : j < ys.length := lt_length_of_getElem? hj
    have hjlen2 : j < xs.length := h.1 ▸ hjlen
    refine ⟨j, xs.getD j default, (getD_eq_getElem xs j hjlen2) ▸
      List.getElem?_eq_getElem hjlen2, ?_, ?_⟩
    · rw [(h.2 j hjlen).1, getD_eq_of_getElem? hj]
      exact hm.1
    · rw [(h.2 j hjlen).2.1, getD_eq_of_getElem? hj]
      exact hm.2

theorem hasMatchME_keyEq {xs ys : List CacheLine} (h : linesKeyEq xs ys) (tag : Nat) :
    hasMatchME xs tag ↔ hasMatchME ys tag := by
  rw [hasMatchME_iff_idx, hasMatchME_iff_idx]
  constructor
  · rintro ⟨j, x, hj, hm⟩
    have hjlen : j < ys.length := h.1 ▸ lt_length_of_getElem? hj
    refine ⟨j, ys.getD j default, (getD_eq_getElem ys j hjlen) ▸
      List.getElem?_eq_getElem hjlen, ?_, ?_⟩
    · rw [← (h.2 j hjlen).1, getD_eq_of_getElem? hj]
      exact hm.1
    · rw [← (h.2 j hjlen).2.1, getD_eq_of_getElem? hj]
      exact hm.2
  · rintro ⟨j, y, hj, hm⟩
    have hjlen : j < ys.length := lt_length_of_getElem? hj
    have hjlen2 : j < xs.length := h.1 ▸ hjlen
    refine ⟨j, xs.getD j default, (getD_eq_getElem xs j hjlen2) ▸
      List.getElem?_eq_getElem hjlen2, ?_, ?_⟩
    · rw [(h.2 j hjlen).1, getD_eq_of_getElem? hj]
      exact hm.1
    · rw [(h.2 j hjlen).2.1, getD_eq_of_getElem? hj]
      exact hm.2

theorem atMostOne_keyEq {xs ys : List CacheLine} (h : linesKeyEq xs ys) (tag : Nat)
    (hone : atMostOneMatch ys tag) : atMostOneMatch xs tag := by
  intro k1 k2 l1 l2 hk1 hk2 hm1 hm2
  have hk1len : k1 < ys.length := h.1 ▸ lt_length_of_getElem? hk1
  have hk2len : k2 < ys.length := h.1 ▸ lt_length_of_getElem? hk2
  refine hone k1 k2 (ys.getD k1 default) (ys.getD k2 default)
    ((getD_eq_getElem ys k1 hk1len) ▸ List.getElem?_eq_getElem hk1len)
    ((getD_eq_getElem ys k2 hk2len) ▸ List.getElem?_eq_getElem hk2len) ?_ ?_
  · exact (sameKey_isMatch (h.2 k1 hk1len) tag).mp (getD_eq_of_getElem? hk1 ▸ hm1)
  · exact (sameKey_isMatch (h.2 k2 hk2len) tag).mp (getD_eq_of_getElem? hk2 ▸ hm2)

theorem set_lru_keyEq {xs ys : List CacheLine} (k m : Nat) (h : linesKeyEq xs ys) :
    linesKeyEq (xs.set k { (xs.getD k default) with lruCounter := m }) ys := by
  refine ⟨by rw [List.length_set]; exact h.1, fun n hn => ?_⟩
  by_cases hnk : k = n
  · subst hnk
    have hklen : k < xs.length := h.1 ▸ hn
    rw [getD_set_self _ _ _ hklen]
    exact h.2 k hn
  · rw [getD_set_ne _ _ hnk]
    exact h.2 n hn

theorem foldl_set_lru_keyEq (f : Nat → Nat) (L : List Nat) (start lines : List CacheLine)
    (h : linesKeyEq start lines) :
    linesKeyEq (L.foldl (fun ls i =>
      ls.set (f i) { (ls.getD (f i) default) with lruCounter := i }) start) lines := by
  induction L generalizing start with
  | nil => exact h
  | cons a rest ih =>
    simp only [List.foldl_cons]
    exact ih _ (set_lru_keyEq _ _ h)

theorem renumberLines_keyEq (lines : List CacheLine) :
    linesKeyEq (renumberLines lines) lines := by
  unfold renumberLines
  exact foldl_set_lru_keyEq
    (fun i => ((sortByLRU (((List.range lines.length).filter
      (fun k => (lines.getD k default).isValid)).map
        (fun k => ((lines.getD k default).lruCounter, k)))).getD i (0, 0)).2)
    _ lines lines (linesKeyEq_refl lines)

theorem updateLRU_keyEq (s : CacheSet) (k : Nat) :
    linesKeyEq (s.updateLRU k).lines s.lines := by
  unfold CacheSet.updateLRU
  dsimp only
  split
  · exact set_lru_keyEq _ _ (renumberLines_keyEq s.lines)
  · exact set_lru_keyEq _ _ (linesKeyEq_refl s.lines)
theorem set_hasMatch_mono {lines : List CacheLine} {k : Nat} (l2 : CacheLine)
    (tag2 : Nat) (h : ¬ isMatch l2 tag2) :
    hasMatch (lines.set k l2) tag2 → hasMatch lines tag2 := by
  intro hm
  obtain ⟨j, x, hj, hx⟩ := (hasMatch_iff_idx _ _).mp hm
  by_cases hjk : k = j
  · subst hjk
    by_cases hklen : k < lines.length
    · rw [List.getElem?_set_eq hklen] at hj
      cases hj
      exact absurd hx h
    · rw [List.getElem?_eq_none (by rw [List.length_set]; omega)] at hj
      exact Option.noConfusion hj
  · rw [List.getElem?_set_ne hjk] at hj
    exact (hasMatch_iff_idx _ _).mpr ⟨j, x, hj, hx⟩

theorem set_hasMatchME_mono {lines : List CacheLine} {k : Nat} (l2 : CacheLine)
    (tag2 : Nat)
    (h : ¬ ((l2.mesiState = .MODIFIED ∨ l2.mesiState = .EXCLUSIVE) ∧ l2.tag = tag2)) :
    hasMatchME (lines.set k l2) tag2 → hasMatchME lines tag2 := by
  intro hm
  obtain ⟨j, x, hj, hx⟩ := (hasMatchME_iff_idx _ _).mp hm
  by_cases hjk : k = j
  · subst hjk
    by_cases hklen : k < lines.length
    · rw [List.getElem?_set_eq hklen] at hj
      cases hj
      exact absurd ⟨hx.1, hx.2⟩ h
    · rw [List.getElem?_eq_none (by rw [List.length_set]; omega)] at hj
      exact Option.noConfusion hj
  · rw [List.getElem?_set_ne hjk] at hj
    exact (hasMatchME_iff_idx _ _).mpr ⟨j, x, hj, hx⟩

theorem set_hasMatchM_mono {lines : List CacheLine} {k : Nat} {l2 : CacheLine}
    {tag2 : Nat} (h : ¬ (l2.mesiState = .MODIFIED ∧ l2.tag = tag2)) :
    hasMatchM (lines.set k l2) tag2 → hasMatchM lines tag2 := by
  intro hm
  obtain ⟨j, x, hj, hx⟩ := (hasMatchM_iff_idx _ _).mp hm
  by_cases hjk : k = j
  · subst hjk
    by_cases hklen : k < lines.length
    · rw [List.getElem?_set_eq hklen] at hj
      cases hj
      exact absurd ⟨hx.1, hx.2⟩ h
    · rw [List.getElem?_eq_none (by rw [List.length_set]; omega)] at hj
      exact Option.noConfusion hj
  · rw [List.getElem?_set_ne hjk] at hj
    exact (hasMatchM_iff_idx _ _).mpr ⟨j, x, hj, hx⟩

/-- A snoop never creates a MODIFIED or EXCLUSIVE holder: its only line
rewrites go to SHARED or INVALID. -/
theorem snoop_hasMatchME_mono (c : Cache) (t : BusTransaction) (addr : Address)
    (idx2 tag2 : Nat)
    (h : hasMatchME ((snoopCacheEffect c t addr).linesIn idx2) tag2) :
    hasMatchME (c.linesIn idx2) tag2 := by
  by_cases hidx2 : idx2 = addr.getIndex
  case neg =>
    unfold Cache.linesIn at h ⊢
    rw [snoopCacheEffect_other_set c t addr hidx2] at h
    exact h
  case pos =>
    subst hidx2
    unfold Cache.linesIn at h ⊢
    revert h
    unfold snoopCacheEffect Cache.handleBusTransaction
    dsimp only
    split
    case isTrue hb => exact id
    case isFalse hb =>
      split
      case h_1 heq => exact id
      case h_2 k hk =>
        have hidx : addr.getIndex < c.sets.length := Nat.lt_of_not_le hb
        cases t <;>
          cases hs : ((c.sets.getD addr.getIndex default).lines.getD k
              default).mesiState <;>
            first
            | exact id
            | { dsimp only
                rw [getD_set_self _ _ _ hidx]
                exact set_hasMatchME_mono _ _ (by
                  rintro ⟨hx, -⟩
                  rcases hx with hx | hx <;>
                    rw [setMESIState_state] at hx <;> exact MESIState.noConfusion hx) }

/-- A snoop leaves every other (set, tag) pair untouched. -/
theorem snoop_hasMatch_other (c : Cache) (t : BusTransaction) (addr : Address)
    {idx2 tag2 : Nat} (h : idx2 ≠ addr.getIndex ∨ tag2 ≠ addr.getTag) :
    hasMatch ((snoopCacheEffect c t addr).linesIn idx2) tag2
      ↔ hasMatch (c.linesIn idx2) tag2 := by
  by_cases hidx2 : idx2 = addr.getIndex
  case neg =>
    unfold Cache.linesIn
    rw [snoopCacheEffect_other_set c t addr hidx2]
  case pos =>
    subst hidx2
    have htag : tag2 ≠ addr.getTag := by
      rcases h with h | h
      · exact absurd rfl h
      · exact h
    unfold Cache.linesIn
    unfold snoopCacheEffect Cache.handleBusTransaction
    dsimp only
    split
    case isTrue hb => exact Iff.rfl
    case isFalse hb =>
      split
      case h_1 heq => exact Iff.rfl
      case h_2 k hk =>
        obtain ⟨line0, hl0, hm0⟩ := findLineIdx_some hk
        have hgd : (c.sets.getD addr.getIndex default).lines.getD k default = line0 :=
          getD_eq_of_getElem? hl0
        rw [hgd]
        have hidx : addr.getIndex < c.sets.length := Nat.lt_of_not_le hb
        cases t <;>
          cases hs : line0.mesiState <;>
            first
            | exact Iff.rfl
            | { dsimp only
                rw [getD_set_self _ _ _ hidx]
                exact set_other_tag_hasMatch hl0 (setMESIState_tag _ _)
                  (by rw [hm0.2]; exact htag) }
theorem writeWord_tag (l : CacheLine) (o v : Nat) : (l.writeWord o v).tag = l.tag := by
  unfold CacheLine.writeWord
  split
  · rfl
  · split
    · rfl
    · rfl

theorem writeWord_data_length (l : CacheLine) (o v : Nat) :
    (l.writeWord o v).data.length = l.data.length := by
  unfold CacheLine.writeWord
  split
  · rfl
  · split
    · rfl
    · dsimp only
      simp [List.length_set]

theorem writeWord_state_of_M (l : CacheLine) (o v : Nat)
    (h : l.mesiState = .MODIFIED) : (l.writeWord o v).mesiState = .MODIFIED := by
  unfold CacheLine.writeWord
  split
  · exact h
  · split
    · exact h
    · rfl

theorem loadData_installs (l : CacheLine) (d : List Nat) (tg : Nat) (s : MESIState)
    (hlen : d.length = l.data.length) :
    (l.loadData d tg s).mesiState = s ∧ (l.loadData d tg s).tag = tg
    ∧ (l.loadData d tg s).data = d := by
  unfold CacheLine.loadData
  rw [if_neg (fun hne => hne hlen)]
  exact ⟨rfl, rfl, rfl⟩

theorem cacheReadMiss_shape (st : SimState) (r : Nat) (addr : Address) (c1 : Cache)
    (cset : CacheSet) (v : Nat)
    (hwf : stateWF st)
    (hr : r < st.caches.length)
    (hcore : c1.coreId = r)
    (hdsc : c1.dataSourceCache = -1)
    (hidx : addr.getIndex < c1.sets.length)
    (hv : cset.findVictimIdx = some v)
    (hvlen : v < cset.lines.length)
    (hvdata : (cset.lines.getD v default).data.length = st.mainMemory.blockSize) :
    ∃ nl : CacheLine,
      (cacheReadMiss st r addr c1 addr.getIndex addr.getTag cset).1.caches.length
          = st.caches.length
      ∧ (∀ j : Nat, j ≠ r →
          (cacheReadMiss st r addr c1 addr.getIndex addr.getTag cset).1.caches.getD j
              default
            = snoopCacheEffect (st.caches.getD j default) .BUS_RD addr)
      ∧ ((cacheReadMiss st r addr c1 addr.getIndex addr.getTag cset).1.caches.getD r
          default).coreId = c1.coreId
      ∧ (∀ idx2 : Nat, idx2 ≠ addr.getIndex →
          ((cacheReadMiss st r addr c1 addr.getIndex addr.getTag cset).1.caches.getD r
              default).sets.getD idx2 default = c1.sets.getD idx2 default)
      ∧ ((cacheReadMiss st r addr c1 addr.getIndex addr.getTag cset).1.caches.getD r
          default).sets.getD addr.getIndex default
        = { cset with lines := cset.lines.set v nl }
      ∧ nl.tag = addr.getTag
      ∧ nl.mesiState = (if (List.range st.caches.length).any
            (fun j => decide (j ≠ r) && decide (holdsAny st j addr.getIndex addr.getTag))
          then MESIState.SHARED else MESIState.EXCLUSIVE)
      ∧ nl.data.length = st.mainMemory.blockSize := by
  have hmv := missVictimPhase_spec st addr.getIndex (cset.lines.getD v default) c1
  have hwfA : stateWF (missVictimPhase st addr.getIndex (cset.lines.getD v default) c1).1 :=
    missVictimPhase_stateWF _ _ _ _ hwf
  have hwf1 : stateWF (busTransact (missVictimPhase st addr.getIndex
      (cset.lines.getD v default) c1).1 .BUS_RD addr
      (missVictimPhase st addr.getIndex (cset.lines.getD v default) c1).2.coreId).1 :=
    busTransact_stateWF _ .BUS_RD addr _ hwfA
  have hbs : (busTransact (missVictimPhase st addr.getIndex (cset.lines.getD v default)
      c1).1 .BUS_RD addr (missVictimPhase st addr.getIndex (cset.lines.getD v default)
      c1).2.coreId).1.mainMemory.blockSize = st.mainMemory.blockSize := by
    rw [busTransact_blockSize]
    exact hmv.2.2.2.2.2.2.2.2.2.2.2.2.2
  have hlen1 := hvdata.trans hbs.symm
  have hreq : (missVictimPhase st addr.getIndex (cset.lines.getD v default)
      c1).2.coreId = r := hmv.2.1.trans hcore
  have hdpc : (busTransact (missVictimPhase st addr.getIndex (cset.lines.getD v default)
        c1).1 .BUS_RD addr (missVictimPhase st addr.getIndex (cset.lines.getD v default)
        c1).2.coreId).2.1
      = (List.range st.caches.length).any
          (fun j => decide (j ≠ r) && decide (holdsAny st j addr.getIndex addr.getTag)) := by
    rw [busTransact_dp]
    rw [hmv.2.2.2.2.2.2.2.1]
    refine any_congr_mem (fun j hj => ?_)
    rw [hmv.2.2.2.2.2.2.1 j]
    rw [hreq]
    congr 1
    exact bool_eq_decide (snoop_provides_RD_iff _ addr)
  refine ⟨(((cacheReadMiss st r addr c1 addr.getIndex addr.getTag cset).1.caches.getD r
      default).sets.getD addr.getIndex default).lines.getD v default,
    ?_, ?_, ?_, ?_, ?_, ?_, ?_, ?_⟩
  · unfold cacheReadMiss
    dsimp only
    rw [hv]
    dsimp only
    rw [List.length_set, busTransact_length, hmv.2.2.2.2.2.2.2.1]
  · intro j hj
    unfold cacheReadMiss
    dsimp only
    rw [hv]
    dsimp only
    rw [getD_set_ne _ _ (fun he => hj he.symm)]
    rw [busTransact_caches_peer _ _ _ _ j (by rw [hreq]; exact hj)]
    rw [hmv.2.2.2.2.2.2.1 j]
  · unfold cacheReadMiss
    dsimp only
    rw [hv]
    dsimp only
    rw [getD_set_self _ _ _ (by rw [busTransact_length, hmv.2.2.2.2.2.2.2.1]; exact hr)]
    split
    · dsimp only
      exact hmv.2.1
    · dsimp only
      exact hmv.2.1
  · intro idx2 hidx2
    unfold cacheReadMiss
    dsimp only
    rw [hv]
    dsimp only
    rw [getD_set_self _ _ _ (by rw [busTransact_length, hmv.2.2.2.2.2.2.2.1]; exact hr)]
    dsimp only
    rw [getD_set_ne _ _ (fun he => hidx2 he.symm)]
    split
    · dsimp only
      rw [hmv.2.2.2.2.2.1]
    · dsimp only
      rw [hmv.2.2.2.2.2.1]
  · unfold cacheReadMiss
    dsimp only
    rw [hv]
    dsimp only
    rw [getD_set_self _ _ _ (by rw [busTransact_length, hmv.2.2.2.2.2.2.2.1]; exact hr)]
    dsimp only
    rw [getD_set_self _ _ _
      (by split <;> (dsimp only; rw [hmv.2.2.2.2.2.1]; exact hidx))]
    dsimp only
    rw [getD_set_self _ _ _ hvlen]
  · unfold cacheReadMiss
    dsimp only
    rw [hv]
    dsimp only
    rw [getD_set_self _ _ _ (by rw [busTransact_length, hmv.2.2.2.2.2.2.2.1]; exact hr)]
    dsimp only
    rw [getD_set_self _ _ _
      (by split <;> (dsimp only; rw [hmv.2.2.2.2.2.1]; exact hidx))]
    dsimp only
    rw [getD_set_self _ _ _ hvlen]
    exact (loadData_installs _ _ _ _
      (by rw [fetch_length _ _ _ hwf1]; exact hlen1.symm)).2.1
  · unfold cacheReadMiss
    dsimp only
    rw [hv]
    dsimp only
    by_cases hb : (busTransact (missVictimPhase st addr.getIndex
        (cset.lines.getD v default) c1).1 .BUS_RD addr
        (missVictimPhase st addr.getIndex (cset.lines.getD v default) c1).2.coreId).2.1
        = true
    case pos =>
      rw [if_pos hb]
      have hnn := busTransact_src_nonneg _ .BUS_RD addr _ hb
      rw [getD_set_self _ _ _ (by rw [busTransact_length, hmv.2.2.2.2.2.2.2.1]; exact hr)]
      dsimp only
      rw [getD_set_self _ _ _ (by rw [hmv.2.2.2.2.2.1]; exact hidx)]
      dsimp only
      rw [getD_set_self _ _ _ hvlen]
      rw [(loadData_installs _ _ _ _
        (by rw [fetch_length _ _ _ hwf1]; exact hlen1.symm)).1]
      rw [if_pos hnn]
      rw [← hdpc, hb, if_pos rfl]
    case neg =>
      rw [if_neg hb]
      have hds4 : (missVictimPhase st addr.getIndex (cset.lines.getD v default)
          c1).2.dataSourceCache = -1 := hmv.2.2.2.2.1.trans hdsc
      have hneg : ¬ ((0 : Int) ≤ (missVictimPhase st addr.getIndex
          (cset.lines.getD v default) c1).2.dataSourceCache) := by
        rw [hds4]
        decide
      have hbf : (busTransact (missVictimPhase st addr.getIndex
          (cset.lines.getD v default) c1).1 .BUS_RD addr
          (missVictimPhase st addr.getIndex (cset.lines.getD v default)
            c1).2.coreId).2.1 = false := by
        cases hbb : (busTransact (missVictimPhase st addr.getIndex
            (cset.lines.getD v default) c1).1 .BUS_RD addr
            (missVictimPhase st addr.getIndex (cset.lines.getD v default)
              c1).2.coreId).2.1
        · rfl
        · exact absurd hbb hb
      rw [getD_set_self _ _ _ (by rw [busTransact_length, hmv.2.2.2.2.2.2.2.1]; exact hr)]
      dsimp only
      rw [getD_set_self _ _ _ (by rw [hmv.2.2.2.2.2.1]; exact hidx)]
      dsimp only
      rw [getD_set_self _ _ _ hvlen]
      rw [(loadData_installs _ _ _ _
        (by rw [fetch_length _ _ _ hwf1]; exact hlen1.symm)).1]
      rw [if_neg hneg]
      rw [← hdpc, hbf, if_neg (by decide)]
  · unfold cacheReadMiss
    dsimp only
    rw [hv]
    dsimp only
    rw [getD_set_self _ _ _ (by rw [busTransact_length, hmv.2.2.2.2.2.2.2.1]; exact hr)]
    dsimp only
    rw [getD_set_self _ _ _
      (by split <;> (dsimp only; rw [hmv.2.2.2.2.2.1]; exact hidx))]
    dsimp only
    rw [getD_set_self _ _ _ hvlen]
    rw [(loadData_installs _ _ _ _
      (by rw [fetch_length _ _ _ hwf1]; exact hlen1.symm)).2.2]
    rw [fetch_length _ _ _ hwf1]
    exact hbs
theorem cacheWriteMiss_shape (st : SimState) (r : Nat) (addr : Address) (c1 : Cache)
    (cset : CacheSet) (offset v : Nat)
    (hwf : stateWF st)
    (hr : r < st.caches.length)
    (hcore : c1.coreId = r)
    (hidx : addr.getIndex < c1.sets.length)
    (hv : cset.findVictimIdx = some v)
    (hvlen : v < cset.lines.length)
    (hvdata : (cset.lines.getD v default).data.length = st.mainMemory.blockSize) :
    ∃ nl : CacheLine,
      (cacheWriteMiss st r addr c1 addr.getIndex addr.getTag offset cset).1.caches.length
          = st.caches.length
      ∧ (∀ j : Nat, j ≠ r →
          (cacheWriteMiss st r addr c1 addr.getIndex addr.getTag offset
              cset).1.caches.getD j default
            = snoopCacheEffect (st.caches.getD j default) .BUS_RDX addr)
      ∧ ((cacheWriteMiss st r addr c1 addr.getIndex addr.getTag offset
          cset).1.caches.getD r default).coreId = c1.coreId
      ∧ (∀ idx2 : Nat, idx2 ≠ addr.getIndex →
          ((cacheWriteMiss st r addr c1 addr.getIndex addr.getTag offset
              cset).1.caches.getD r default).sets.getD idx2 default
            = c1.sets.getD idx2 default)
      ∧ ((cacheWriteMiss st r addr c1 addr.getIndex addr.getTag offset
          cset).1.caches.getD r default).sets.getD addr.getIndex default
        = { cset with lines := cset.lines.set v nl }
      ∧ nl.tag = addr.getTag
      ∧ nl.mesiState = MESIState.MODIFIED
      ∧ nl.data.length = st.mainMemory.blockSize := by
  have hmv := missVictimPhase_spec st addr.getIndex (cset.lines.getD v default) c1
  have hwfA : stateWF (missVictimPhase st addr.getIndex (cset.lines.getD v default) c1).1 :=
    missVictimPhase_stateWF _ _ _ _ hwf
  have hwf1 : stateWF (busTransact (missVictimPhase st addr.getIndex
      (cset.lines.getD v default) c1).1 .BUS_RDX addr
      (missVictimPhase st addr.getIndex (cset.lines.getD v default) c1).2.coreId).1 :=
    busTransact_stateWF _ .BUS_RDX addr _ hwfA
  have hbs : (busTransact (missVictimPhase st addr.getIndex (cset.lines.getD v default)
      c1).1 .BUS_RDX addr (missVictimPhase st addr.getIndex (cset.lines.getD v default)
      c1).2.coreId).1.mainMemory.blockSize = st.mainMemory.blockSize := by
    rw [busTransact_blockSize]
    exact hmv.2.2.2.2.2.2.2.2.2.2.2.2.2
  have hlen1 := hvdata.trans hbs.symm
  have hreq : (missVictimPhase st addr.getIndex (cset.lines.getD v default)
      c1).2.coreId = r := hmv.2.1.trans hcore
  refine ⟨(((cacheWriteMiss st r addr c1 addr.getIndex addr.getTag offset
      cset).1.caches.getD r default).sets.getD addr.getIndex default).lines.getD v
      default, ?_, ?_, ?_, ?_, ?_, ?_, ?_, ?_⟩
  · unfold cacheWriteMiss
    dsimp only
    rw [hv]
    dsimp only
    rw [List.length_set, busTransact_length, hmv.2.2.2.2.2.2.2.1]
  · intro j hj
    unfold cacheWriteMiss
    dsimp only
    rw [hv]
    dsimp only
    rw [getD_set_ne _ _ (fun he => hj he.symm)]
    rw [busTransact_caches_peer _ _ _ _ j (by rw [hreq]; exact hj)]
    rw [hmv.2.2.2.2.2.2.1 j]
  · unfold cacheWriteMiss
    dsimp only
    rw [hv]
    dsimp only
    rw [getD_set_self _ _ _ (by rw [busTransact_length, hmv.2.2.2.2.2.2.2.1]; exact hr)]
    split
    · dsimp only
      exact hmv.2.1
    · split <;>
        · dsimp only
          exact hmv.2.1
  · intro idx2 hidx2
    unfold cacheWriteMiss
    dsimp only
    rw [hv]
    dsimp only
    rw [getD_set_self _ _ _ (by rw [busTransact_length, hmv.2.2.2.2.2.2.2.1]; exact hr)]
    dsimp only
    rw [getD_set_ne _ _ (fun he => hidx2 he.symm)]
    split
    · dsimp only
      rw [hmv.2.2.2.2.2.1]
    · split <;>
        · dsimp only
          rw [hmv.2.2.2.2.2.1]
  · unfold cacheWriteMiss
    dsimp only
    rw [hv]
    dsimp only
    rw [getD_set_self _ _ _ (by rw [busTransact_length, hmv.2.2.2.2.2.2.2.1]; exact hr)]
    dsimp only
    rw [getD_set_self _ _ _
      (by split
          · dsimp only
            rw [hmv.2.2.2.2.2.1]
            exact hidx
          · split <;>
              · dsimp only
                rw [hmv.2.2.2.2.2.1]
                exact hidx)]
    dsimp only
    rw [getD_set_self _ _ _ hvlen]
  · unfold cacheWriteMiss
    dsimp only
    rw [hv]
    dsimp only
    rw [getD_set_self _ _ _ (by rw [busTransact_length, hmv.2.2.2.2.2.2.2.1]; exact hr)]
    dsimp only
    rw [getD_set_self _ _ _
      (by split
          · dsimp only
            rw [hmv.2.2.2.2.2.1]
            exact hidx
          · split <;>
              · dsimp only
                rw [hmv.2.2.2.2.2.1]
                exact hidx)]
    dsimp only
    rw [getD_set_self _ _ _ hvlen]
    rw [writeWord_tag]
    exact (loadData_installs _ _ _ _
      (by rw [fetch_length _ _ _ hwf1]; exact hlen1.symm)).2.1
  · unfold cacheWriteMiss
    dsimp only
    rw [hv]
    dsimp only
    rw [getD_set_self _ _ _ (by rw [busTransact_length, hmv.2.2.2.2.2.2.2.1]; exact hr)]
    dsimp only
    rw [getD_set_self _ _ _
      (by split
          · dsimp only
            rw [hmv.2.2.2.2.2.1]
            exact hidx
          · split <;>
              · dsimp only
                rw [hmv.2.2.2.2.2.1]
                exact hidx)]
    dsimp only
    rw [getD_set_self _ _ _ hvlen]
    exact writeWord_state_of_M _ _ _
      (loadData_installs _ _ _ _
        (by rw [fetch_length _ _ _ hwf1]; exact hlen1.symm)).1
  · unfold cacheWriteMiss
    dsimp only
    rw [hv]
    dsimp only
    rw [getD_set_self _ _ _ (by rw [busTransact_length, hmv.2.2.2.2.2.2.2.1]; exact hr)]
    dsimp only
    rw [getD_set_self _ _ _
      (by split
          · dsimp only
            rw [hmv.2.2.2.2.2.1]
            exact hidx
          · split <;>
              · dsimp only
                rw [hmv.2.2.2.2.2.1]
                exact hidx)]
    dsimp only
    rw [getD_set_self _ _ _ hvlen]
    rw [writeWord_data_length]
    rw [(loadData_installs _ _ _ _
      (by rw [fetch_length _ _ _ hwf1]; exact hlen1.symm)).2.2]
    rw [fetch_length _ _ _ hwf1]
    exact hbs
theorem cacheWriteHit_shape (st : SimState) (r : Nat) (addr : Address) (c1 : Cache)
    (offset k : Nat) (cset : CacheSet)
    (hr : r < st.caches.length)
    (hcore : c1.coreId = r)
    (hidx : addr.getIndex < c1.sets.length)
    (hk : k < cset.lines.length)
    (hmatch : isMatch (cset.lines.getD k default) addr.getTag) :
    ∃ nl : CacheLine,
      (cacheWriteHit st r addr c1 addr.getIndex offset k cset).1.caches.length
          = st.caches.length
      ∧ (∀ j : Nat, j ≠ r →
          (cacheWriteHit st r addr c1 addr.getIndex offset k cset).1.caches.getD j default
            = (if (cset.lines.getD k default).mesiState = .SHARED
               then snoopCacheEffect (st.caches.getD j default) .BUS_UPGR addr
               else st.caches.getD j default))
      ∧ ((cacheWriteHit st r addr c1 addr.getIndex offset k cset).1.caches.getD r
          default).coreId = c1.coreId
      ∧ (∀ idx2 : Nat, idx2 ≠ addr.getIndex →
          ((cacheWriteHit st r addr c1 addr.getIndex offset k cset).1.caches.getD r
              default).sets.getD idx2 default = c1.sets.getD idx2 default)
      ∧ ((cacheWriteHit st r addr c1 addr.getIndex offset k cset).1.caches.getD r
          default).sets.getD addr.getIndex default
        = { cset.updateLRU k with lines := (cset.updateLRU k).lines.set k nl }
      ∧ nl.tag = (cset.lines.getD k default).tag
      ∧ nl.mesiState = MESIState.MODIFIED
      ∧ nl.data.length = (cset.lines.getD k default).data.length := by
  have hkey := (updateLRU_keyEq cset k).2 k hk
  have hklen : k < (cset.updateLRU k).lines.length := by
    rw [(updateLRU_keyEq cset k).1]
    exact hk
  refine ⟨(((cacheWriteHit st r addr c1 addr.getIndex offset k cset).1.caches.getD r
      default).sets.getD addr.getIndex default).lines.getD k default,
    ?_, ?_, ?_, ?_, ?_, ?_, ?_, ?_⟩
  · unfold cacheWriteHit
    dsimp only
    by_cases hS : ((cset.updateLRU k).lines.getD k default).mesiState = MESIState.SHARED
    · rw [if_pos hS]
      dsimp only
      rw [List.length_set, busTransact_length]
    · rw [if_neg hS]
      dsimp only
      rw [List.length_set]
  · intro j hj
    unfold cacheWriteHit
    dsimp only
    by_cases hS : ((cset.updateLRU k).lines.getD k default).mesiState = MESIState.SHARED
    · rw [if_pos hS]
      dsimp only
      rw [getD_set_ne _ _ (fun he => hj he.symm)]
      rw [busTransact_caches_peer _ _ _ _ j (by rw [hcore]; exact hj)]
      rw [if_pos (by rw [← hkey.1]; exact hS)]
    · rw [if_neg hS]
      dsimp only
      rw [getD_set_ne _ _ (fun he => hj he.symm)]
      rw [if_neg (fun hc => hS (by rw [hkey.1]; exact hc))]
  · unfold cacheWriteHit
    dsimp only
    by_cases hS : ((cset.updateLRU k).lines.getD k default).mesiState = MESIState.SHARED
    · rw [if_pos hS]
      dsimp only
      rw [getD_set_self _ _ _ (by rw [busTransact_length]; exact hr)]
    · rw [if_neg hS]
      dsimp only
      rw [getD_set_self _ _ _ hr]
  · intro idx2 hidx2
    unfold cacheWriteHit
    dsimp only
    by_cases hS : ((cset.updateLRU k).lines.getD k default).mesiState = MESIState.SHARED
    · rw [if_pos hS]
      dsimp only
      rw [getD_set_self _ _ _ (by rw [busTransact_length]; exact hr)]
      dsimp only
      rw [getD_set_ne _ _ (fun he => hidx2 he.symm)]
    · rw [if_neg hS]
      dsimp only
      rw [getD_set_self _ _ _ hr]
      dsimp only
      rw [getD_set_ne _ _ (fun he => hidx2 he.symm)]
  · unfold cacheWriteHit
    dsimp only
    by_cases hS : ((cset.updateLRU k).lines.getD k default).mesiState = MESIState.SHARED
    · rw [if_pos hS]
      dsimp only
      rw [getD_set_self _ _ _ (by rw [busTransact_length]; exact hr)]
      dsimp only
      rw [getD_set_self _ _ _ hidx]
      dsimp only
      rw [getD_set_self _ _ _ hklen]
    · rw [if_neg hS]
      dsimp only
      rw [getD_set_self _ _ _ hr]
      dsimp only
      rw [getD_set_self _ _ _ hidx]
      dsimp only
      rw [getD_set_self _ _ _ hklen]
  · unfold cacheWriteHit
    dsimp only
    by_cases hS : ((cset.updateLRU k).lines.getD k default).mesiState = MESIState.SHARED
    · rw [if_pos hS]
      dsimp only
      rw [getD_set_self _ _ _ (by rw [busTransact_length]; exact hr)]
      dsimp only
      rw [getD_set_self _ _ _ hidx]
      dsimp only
      rw [getD_set_self _ _ _ hklen]
      rw [writeWord_tag]
      split
      · rw [setMESIState_tag]
        exact hkey.2.1
      · exact hkey.2.1
    · rw [if_neg hS]
      dsimp only
      rw [getD_set_self _ _ _ hr]
      dsimp only
      rw [getD_set_self _ _ _ hidx]
      dsimp only
      rw [getD_set_self _ _ _ hklen]
      rw [writeWord_tag]
      split
      · rw [setMESIState_tag]
        exact hkey.2.1
      · exact hkey.2.1
  · unfold cacheWriteHit
    dsimp only
    by_cases hS : ((cset.updateLRU k).lines.getD k default).mesiState = MESIState.SHARED
    · rw [if_pos hS]
      dsimp only
      rw [getD_set_self _ _ _ (by rw [busTransact_length]; exact hr)]
      dsimp only
      rw [getD_set_self _ _ _ hidx]
      dsimp only
      rw [getD_set_self _ _ _ hklen]
      rw [if_pos (Or.inl hS)]
      exact writeWord_state_of_M _ _ _ (setMESIState_state _ _)
    · rw [if_neg hS]
      dsimp only
      rw [getD_set_self _ _ _ hr]
      dsimp only
      rw [getD_set_self _ _ _ hidx]
      dsimp only
      rw [getD_set_self _ _ _ hklen]
      split
      · exact writeWord_state_of_M _ _ _ (setMESIState_state _ _)
      · rename_i hSE
        refine writeWord_state_of_M _ _ _ ?_
        rw [hkey.1]
        rw [hkey.1] at hS hSE
        cases hs : (cset.lines.getD k default).mesiState
        · rfl
        · exact absurd (Or.inr hs) hSE
        · exact absurd hs hS
        · exact absurd hmatch.1 (by
            intro hval
            unfold CacheLine.isValid at hval
            rw [hs] at hval
            exact absurd hval (by decide))
  · unfold cacheWriteHit
    dsimp only
    by_cases hS : ((cset.updateLRU k).lines.getD k default).mesiState = MESIState.SHARED
    · rw [if_pos hS]
      dsimp only
      rw [getD_set_self _ _ _ (by rw [busTransact_length]; exact hr)]
      dsimp only
      rw [getD_set_self _ _ _ hidx]
      dsimp only
      rw [getD_set_self _ _ _ hklen]
      rw [writeWord_data_length]
      split
      · rw [setMESIState_data]
        rw [hkey.2.2]
      · rw [hkey.2.2]
    · rw [if_neg hS]
      dsimp only
      rw [getD_set_self _ _ _ hr]
      dsimp only
      rw [getD_set_self _ _ _ hidx]
      dsimp only
      rw [getD_set_self _ _ _ hklen]
      rw [writeWord_data_length]
      split
      · rw [setMESIState_data]
        rw [hkey.2.2]
      · rw [hkey.2.2]
theorem readBlock_memWF (m : MainMemory) (a : Nat) (h : memWF m) :
    memWF (m.readBlock a).1 ∧ (m.readBlock a).1.blockSize = m.blockSize := by
  unfold MainMemory.readBlock
  dsimp only
  split
  case h_1 d heq => exact ⟨fun p hp => h p hp, rfl⟩
  case h_2 heq =>
    refine ⟨?_, rfl⟩
    intro p hp
    rcases memInsert_mem hp with h1 | h2
    · exact h p h1
    · rw [h2]
      exact List.length_replicate _ _

theorem fetch_memWF (st : SimState) (c : Cache) (addr : Address) (h : stateWF st) :
    memWF (fetchBlockFromMemoryOrCache st c addr).1
    ∧ (fetchBlockFromMemoryOrCache st c addr).1.blockSize = st.mainMemory.blockSize := by
  unfold fetchBlockFromMemoryOrCache
  dsimp only
  split
  · exact ⟨h.1, rfl⟩
  · exact readBlock_memWF _ _ h.1

theorem cacheReadMiss_mem (st : SimState) (r : Nat) (addr : Address) (c1 : Cache)
    (cset : CacheSet) (hwf : stateWF st) :
    memWF (cacheReadMiss st r addr c1 addr.getIndex addr.getTag cset).1.mainMemory
    ∧ (cacheReadMiss st r addr c1 addr.getIndex addr.getTag cset).1.mainMemory.blockSize
      = st.mainMemory.blockSize := by
  unfold cacheReadMiss
  dsimp only
  split
  case h_1 heq => exact ⟨hwf.1, rfl⟩
  case h_2 v heq =>
    have hmv := missVictimPhase_spec st addr.getIndex (cset.lines.getD v default) c1
    have hwf1 := busTransact_stateWF
      (missVictimPhase st addr.getIndex (cset.lines.getD v default) c1).1 .BUS_RD addr
      (missVictimPhase st addr.getIndex (cset.lines.getD v default) c1).2.coreId
      (missVictimPhase_stateWF _ _ _ _ hwf)
    dsimp only
    constructor
    · exact (fetch_memWF _ _ addr hwf1).1
    · refine ((fetch_memWF _ _ addr hwf1).2).trans ?_
      rw [busTransact_blockSize]
      exact hmv.2.2.2.2.2.2.2.2.2.2.2.2.2

theorem cacheWriteMiss_mem (st : SimState) (r : Nat) (addr : Address) (c1 : Cache)
    (cset : CacheSet) (offset : Nat) (hwf : stateWF st) :
    memWF (cacheWriteMiss st r addr c1 addr.getIndex addr.getTag offset
        cset).1.mainMemory
    ∧ (cacheWriteMiss st r addr c1 addr.getIndex addr.getTag offset
        cset).1.mainMemory.blockSize = st.mainMemory.blockSize := by
  unfold cacheWriteMiss
  dsimp only
  split
  case h_1 heq => exact ⟨hwf.1, rfl⟩
  case h_2 v heq =>
    have hmv := missVictimPhase_spec st addr.getIndex (cset.lines.getD v default) c1
    have hwf1 := busTransact_stateWF
      (missVictimPhase st addr.getIndex (cset.lines.getD v default) c1).1 .BUS_RDX addr
      (missVictimPhase st addr.getIndex (cset.lines.getD v default) c1).2.coreId
      (missVictimPhase_stateWF _ _ _ _ hwf)
    dsimp only
    constructor
    · exact (fetch_memWF _ _ addr hwf1).1
    · refine ((fetch_memWF _ _ addr hwf1).2).trans ?_
      rw [busTransact_blockSize]
      exact hmv.2.2.2.2.2.2.2.2.2.2.2.2.2

theorem cacheWriteHit_mem (st : SimState) (r : Nat) (addr : Address) (c1 : Cache)
    (offset k : Nat) (cset : CacheSet) (hwf : stateWF st) :
    memWF (cacheWriteHit st r addr c1 addr.getIndex offset k cset).1.mainMemory
    ∧ (cacheWriteHit st r addr c1 addr.getIndex offset k
        cset).1.mainMemory.blockSize = st.mainMemory.blockSize := by
  unfold cacheWriteHit
  dsimp only
  split
  · exact ⟨(busTransact_stateWF st .BUS_UPGR addr c1.coreId hwf).1,
      busTransact_blockSize st .BUS_UPGR addr c1.coreId⟩
  · exact ⟨hwf.1, rfl⟩
/-- The coherence invariant: four caches in core order, MESI exclusivity
for MODIFIED/EXCLUSIVE holders, and per-set uniqueness of valid copies of
a block. -/
def Inv (st : SimState) : Prop :=
  st.caches.length = 4
  ∧ (∀ i : Nat, i < 4 → (st.caches.getD i default).coreId = i)
  ∧ (∀ idx tag i j : Nat, i < 4 → j < 4 →
       holdsME st i idx tag → holdsAny st j idx tag → i = j)
  ∧ (∀ i idx tag : Nat, i < 4 → atMostOneMatch (linesAt st i idx) tag)

theorem Inv_transport {st st' : SimState}
    (hlen : st'.caches.length = st.caches.length)
    (hcid : ∀ i : Nat, i < 4 → (st'.caches.getD i default).coreId
        = (st.caches.getD i default).coreId)
    (hkeq : ∀ i idx : Nat, i < 4 → linesKeyEq (linesAt st' i idx) (linesAt st i idx))
    (h : Inv st) : Inv st' := by
  obtain ⟨h1, h2, h3, h4⟩ := h
  refine ⟨hlen.trans h1, fun i hi => (hcid i hi).trans (h2 i hi), ?_, ?_⟩
  · intro idx tag i j hi hj hme hany
    exact h3 idx tag i j hi hj
      ((hasMatchME_keyEq (hkeq i idx hi) tag).mp hme)
      ((hasMatch_keyEq (hkeq j idx hj) tag).mp hany)
  · intro i idx tag hi
    exact atMostOne_keyEq (hkeq i idx hi) tag (h4 i idx tag hi)

theorem dataWF_keyEq {xs ys : List CacheLine} (h : linesKeyEq xs ys) {bs : Nat}
    (hy : ∀ l ∈ ys, l.data.length = bs) : ∀ l ∈ xs, l.data.length = bs := by
  intro l hl
  obtain ⟨n, hn⟩ := List.mem_iff_getElem?.mp hl
  have hnlen : n < ys.length := h.1 ▸ lt_length_of_getElem? hn
  have hd : l.data = (ys.getD n default).data := by
    rw [← getD_eq_of_getElem? hn]
    exact (h.2 n hnlen).2.2
  rw [hd]
  exact hy _ (getD_mem hnlen)

theorem getD_map {α β : Type} [Inhabited α] [Inhabited β] (f : α → β) (l : List α)
    (i : Nat) (h : i < l.length) : (l.map f).getD i default = f (l.getD i default) := by
  rw [List.getD_eq_getElem?_getD, List.getElem?_map, List.getElem?_eq_getElem h]
  rw [getD_eq_getElem _ _ h]
  rfl

theorem checkMissResolved_frame (c : Cache) :
    (c.checkMissResolved.1).sets = c.sets ∧ (c.checkMissResolved.1).coreId = c.coreId := by
  unfold Cache.checkMissResolved
  split
  · exact ⟨rfl, rfl⟩
  · exact ⟨rfl, rfl⟩

theorem snoopCacheEffect_coreId (c : Cache) (t : BusTransaction) (addr : Address) :
    (snoopCacheEffect c t addr).coreId = c.coreId := by
  rw [snoopCacheEffect_shape]

/-- The tick step (setCycle on every cache, then checkMissResolved) never
touches the sets, the core ids, or memory. -/
theorem tick_preserves (st : SimState) (cycle : Nat)
    (hJ : Inv st) (hW : stateWF st) :
    Inv (applyStep st (.tick cycle)) ∧ stateWF (applyStep st (.tick cycle)) := by
  have hlen : (applyStep st (.tick cycle)).caches.length = st.caches.length := by
    unfold applyStep
    dsimp only
    rw [List.length_map, List.length_map]
  have hget : ∀ i : Nat, i < st.caches.length →
      (applyStep st (.tick cycle)).caches.getD i default
        = ({ st.caches.getD i default with
              currentCycle := u32 cycle } : Cache).checkMissResolved.1 := by
    intro i hi
    unfold applyStep
    dsimp only
    rw [getD_map _ _ _ (by rw [List.length_map]; exact hi)]
    rw [getD_map _ _ _ hi]
  constructor
  · refine Inv_transport hlen ?_ ?_ hJ
    · intro i hi
      have hi' : i < st.caches.length := hJ.1 ▸ hi
      rw [hget i hi', (checkMissResolved_frame _).2]
    · intro i idx hi
      have hi' : i < st.caches.length := hJ.1 ▸ hi
      refine linesKeyEq_of_eq ?_
      unfold linesAt
      rw [hget i hi', (checkMissResolved_frame _).1]
  · constructor
    · exact hW.1
    · intro j hj
      have hj' : j < st.caches.length := hlen ▸ hj
      rw [hget j hj']
      intro s hs l hl
      rw [(checkMissResolved_frame _).1] at hs
      exact hW.2 j hj' s hs l hl

/-- A cache update that keeps the sets and the core id (counter bumps on
the blocked and out-of-range paths) preserves everything. -/
theorem counters_only_preserves (st : SimState) (r : Nat) (c0 : Cache)
    (hr : r < st.caches.length)
    (hsets : c0.sets = (st.caches.getD r default).sets)
    (hcid : c0.coreId = (st.caches.getD r default).coreId)
    (hJ : Inv st) (hW : stateWF st) :
    Inv { st with caches := st.caches.set r c0 }
    ∧ stateWF { st with caches := st.caches.set r c0 } := by
  constructor
  · refine Inv_transport (by dsimp only; rw [List.length_set]) ?_ ?_ hJ
    · intro i hi
      dsimp only
      by_cases hir : i = r
      · subst hir
        rw [getD_set_self _ _ _ hr, hcid]
      · rw [getD_set_ne _ _ (fun he => hir he.symm)]
    · intro i idx hi
      refine linesKeyEq_of_eq ?_
      unfold linesAt
      dsimp only
      by_cases hir : i = r
      · subst hir
        rw [getD_set_self _ _ _ hr, hsets]
      · rw [getD_set_ne _ _ (fun he => hir he.symm)]
  · constructor
    · exact hW.1
    · intro j hj
      dsimp only at hj ⊢
      rw [List.length_set] at hj
      by_cases hjr : j = r
      · subst hjr
        rw [getD_set_self _ _ _ hr]
        intro s hs l hl
        rw [hsets] at hs
        exact hW.2 j hj s hs l hl
      · rw [getD_set_ne _ _ (fun he => hjr he.symm)]
        exact hW.2 j hj
theorem Inv_install_RD {st stp : SimState} {r : Nat} {addr : Address} {cset : CacheSet}
    {v : Nat} {nl : CacheLine}
    (hr4 : r < 4)
    (hlen : stp.caches.length = st.caches.length)
    (hpeers : ∀ j : Nat, j ≠ r → stp.caches.getD j default
        = snoopCacheEffect (st.caches.getD j default) .BUS_RD addr)
    (hcid : (stp.caches.getD r default).coreId = (st.caches.getD r default).coreId)
    (hosets : ∀ idx2 : Nat, idx2 ≠ addr.getIndex →
        (stp.caches.getD r default).sets.getD idx2 default
          = (st.caches.getD r default).sets.getD idx2 default)
    (hcset : cset = (st.caches.getD r default).sets.getD addr.getIndex default)
    (hset : (stp.caches.getD r default).sets.getD addr.getIndex default
        = { cset with lines := cset.lines.set v nl })
    (htag : nl.tag = addr.getTag)
    (hstate : nl.mesiState = (if (List.range st.caches.length).any
          (fun j => decide (j ≠ r) && decide (holdsAny st j addr.getIndex addr.getTag))
        then MESIState.SHARED else MESIState.EXCLUSIVE))
    (hnone : ¬ hasMatch cset.lines addr.getTag)
    (hvlen : v < cset.lines.length)
    (hJ : Inv st) : Inv stp := by
  have hlines_peer : ∀ j : Nat, j ≠ r → ∀ idx2 : Nat,
      linesAt stp j idx2
        = ((snoopCacheEffect (st.caches.getD j default) .BUS_RD addr).sets.getD idx2
            default).lines := by
    intro j hj idx2
    unfold linesAt
    rw [hpeers j hj]
  have hlines_req_other : ∀ idx2 : Nat, idx2 ≠ addr.getIndex →
      linesAt stp r idx2 = linesAt st r idx2 := by
    intro idx2 h2
    unfold linesAt
    rw [hosets idx2 h2]
  have hlines_req_idx : linesAt stp r addr.getIndex = cset.lines.set v nl := by
    unfold linesAt
    rw [hset]
  have hlinesAt_cset : linesAt st r addr.getIndex = cset.lines := by
    unfold linesAt
    rw [hcset]
  refine ⟨hlen.trans hJ.1, ?_, ?_, ?_⟩
  · intro i hi
    by_cases hir : i = r
    · subst hir
      rw [hcid]
      exact hJ.2.1 i hi
    · rw [hpeers i hir, snoopCacheEffect_coreId]
      exact hJ.2.1 i hi
  · intro idx2 tag2 i j hi hj hME hAny
    by_cases hpair : idx2 = addr.getIndex ∧ tag2 = addr.getTag
    · obtain ⟨hpi, hpt⟩ := hpair
      subst hpi
      subst hpt
      by_cases hir : i = r
      · subst hir
        by_cases hjr : j = i
        · exact hjr.symm
        · exfalso
          have hAnyOld : holdsAny st j addr.getIndex addr.getTag := by
            have hA : hasMatch (linesAt stp j addr.getIndex) addr.getTag := hAny
            rw [hlines_peer j hjr] at hA
            exact (snoop_RD_hasMatch_iff _ addr).mp hA
          have hanytrue : (List.range st.caches.length).any
              (fun x => decide (x ≠ i) && decide (holdsAny st x addr.getIndex
                addr.getTag)) = true := by
            refine List.any_eq_true.mpr ⟨j, List.mem_range.mpr (hJ.1 ▸ hj), ?_⟩
            simp [hjr, hAnyOld]
          have hnlS : nl.mesiState = MESIState.SHARED := by
            rw [hstate, hanytrue, if_pos rfl]
          have hM : hasMatchME (linesAt stp i addr.getIndex) addr.getTag := hME
          rw [hlines_req_idx] at hM
          obtain ⟨jj, x, hjj, hx⟩ := (hasMatchME_iff_idx _ _).mp hM
          by_cases hjv : v = jj
          · subst hjv
            rw [List.getElem?_set_eq hvlen] at hjj
            cases hjj
            rcases hx.1 with h1 | h1 <;> rw [hnlS] at h1 <;> exact MESIState.noConfusion h1
          · rw [List.getElem?_set_ne hjv] at hjj
            have hxm : isMatch x addr.getTag := by
              refine ⟨?_, hx.2⟩
              rcases hx.1 with h1 | h1 <;> simp [CacheLine.isValid, h1]
            exact hnone ((hasMatch_iff_idx _ _).mpr ⟨jj, x, hjj, hxm⟩)
      · exfalso
        have hM : hasMatchME (linesAt stp i addr.getIndex) addr.getTag := hME
        rw [hlines_peer i hir] at hM
        exact snoop_RD_no_matchME _ addr
          (hJ.2.2.2 i addr.getIndex addr.getTag hi) hM
    · have hor : idx2 ≠ addr.getIndex ∨ tag2 ≠ addr.getTag := by
        rcases Decidable.not_and_iff_or_not.mp hpair with h | h
        · exact Or.inl h
        · exact Or.inr h
      have hMEold : holdsME st i idx2 tag2 := by
        by_cases hir : i = r
        · subst hir
          by_cases hpi : idx2 = addr.getIndex
          · have htag2 : tag2 ≠ addr.getTag := by
              rcases hor with h | h
              · exact absurd hpi h
              · exact h
            have hM : hasMatchME (linesAt stp i idx2) tag2 := hME
            rw [hpi, hlines_req_idx] at hM
            have hback := set_hasMatchME_mono nl tag2
              (by rintro ⟨-, htg⟩; exact htag2 (htg ▸ htag ▸ rfl)) hM
            show hasMatchME (linesAt st i idx2) tag2
            rw [hpi, hlinesAt_cset]
            exact hback
          · have hM : hasMatchME (linesAt stp i idx2) tag2 := hME
            rw [hlines_req_other idx2 hpi] at hM
            exact hM
        · have hM : hasMatchME (linesAt stp i idx2) tag2 := hME
          rw [hlines_peer i hir] at hM
          exact snoop_hasMatchME_mono _ .BUS_RD addr idx2 tag2 hM
      have hAnyOld : holdsAny st j idx2 tag2 := by
        by_cases hjr : j = r
        · subst hjr
          by_cases hpi : idx2 = addr.getIndex
          · have htag2 : tag2 ≠ addr.getTag := by
              rcases hor with h | h
              · exact absurd hpi h
              · exact h
            have hA : hasMatch (linesAt stp j idx2) tag2 := hAny
            rw [hpi, hlines_req_idx] at hA
            have hback := set_hasMatch_mono nl tag2
              (fun hm => htag2 (hm.2 ▸ htag ▸ rfl)) hA
            show hasMatch (linesAt st j idx2) tag2
            rw [hpi, hlinesAt_cset]
            exact hback
          · have hA : hasMatch (linesAt stp j idx2) tag2 := hAny
            rw [hlines_req_other idx2 hpi] at hA
            exact hA
        · have hA : hasMatch (linesAt stp j idx2) tag2 := hAny
          rw [hlines_peer j hjr] at hA
          exact (snoop_hasMatch_other _ .BUS_RD addr hor).mp hA
      exact hJ.2.2.1 idx2 tag2 i j hi hj hMEold hAnyOld
  · intro i idx2 tag2 hi
    by_cases hir : i = r
    · subst hir
      by_cases hpi : idx2 = addr.getIndex
      · subst hpi
        rw [hlines_req_idx]
        refine set_install_atMostOne ?_ htag tag2 ?_
        · exact hnone
        · have := hJ.2.2.2 i addr.getIndex tag2 hi
          rw [hlinesAt_cset] at this
          exact this
      · rw [hlines_req_other idx2 hpi]
        exact hJ.2.2.2 i idx2 tag2 hi
    · rw [hlines_peer i hir]
      exact snoop_preserves_atMostOne _ .BUS_RD addr idx2 tag2
        (hJ.2.2.2 i idx2 tag2 hi)
theorem Inv_install_RDX {st stp : SimState} {r : Nat} {addr : Address} {cset : CacheSet}
    {v : Nat} {nl : CacheLine}
    (hr4 : r < 4)
    (hlen : stp.caches.length = st.caches.length)
    (hpeers : ∀ j : Nat, j ≠ r → stp.caches.getD j default
        = snoopCacheEffect (st.caches.getD j default) .BUS_RDX addr)
    (hcid : (stp.caches.getD r default).coreId = (st.caches.getD r default).coreId)
    (hosets : ∀ idx2 : Nat, idx2 ≠ addr.getIndex →
        (stp.caches.getD r default).sets.getD idx2 default
          = (st.caches.getD r default).sets.getD idx2 default)
    (hcset : cset = (st.caches.getD r default).sets.getD addr.getIndex default)
    (hset : (stp.caches.getD r default).sets.getD addr.getIndex default
        = { cset with lines := cset.lines.set v nl })
    (htag : nl.tag = addr.getTag)
    (hnone : ¬ hasMatch cset.lines addr.getTag)
    (hvlen : v < cset.lines.length)
    (hJ : Inv st) : Inv stp := by
  have hlines_peer : ∀ j : Nat, j ≠ r → ∀ idx2 : Nat,
      linesAt stp j idx2
        = ((snoopCacheEffect (st.caches.getD j default) .BUS_RDX addr).sets.getD idx2
            default).lines := by
    intro j hj idx2
    unfold linesAt
    rw [hpeers j hj]
  have hlines_req_other : ∀ idx2 : Nat, idx2 ≠ addr.getIndex →
      linesAt stp r idx2 = linesAt st r idx2 := by
    intro idx2 h2
    unfold linesAt
    rw [hosets idx2 h2]
  have hlines_req_idx : linesAt stp r addr.getIndex = cset.lines.set v nl := by
    unfold linesAt
    rw [hset]
  have hlinesAt_cset : linesAt st r addr.getIndex = cset.lines := by
    unfold linesAt
    rw [hcset]
  refine ⟨hlen.trans hJ.1, ?_, ?_, ?_⟩
  · intro i hi
    by_cases hir : i = r
    · subst hir
      rw [hcid]
      exact hJ.2.1 i hi
    · rw [hpeers i hir, snoopCacheEffect_coreId]
      exact hJ.2.1 i hi
  · intro idx2 tag2 i j hi hj hME hAny
    by_cases hpair : idx2 = addr.getIndex ∧ tag2 = addr.getTag
    · obtain ⟨hpi, hpt⟩ := hpair
      subst hpi
      subst hpt
      by_cases hir : i = r
      · subst hir
        by_cases hjr : j = i
        · exact hjr.symm
        · exfalso
          have hA : hasMatch (linesAt stp j addr.getIndex) addr.getTag := hAny
          rw [hlines_peer j hjr] at hA
          exact snoop_clears_match _ .BUS_RDX addr (Or.inl rfl)
            (hJ.2.2.2 j addr.getIndex addr.getTag hj) hA
      · exfalso
        have hM : hasMatchME (linesAt stp i addr.getIndex) addr.getTag := hME
        rw [hlines_peer i hir] at hM
        exact snoop_clears_match _ .BUS_RDX addr (Or.inl rfl)
          (hJ.2.2.2 i addr.getIndex addr.getTag hi) (hasMatchME_hasMatch hM)
    · have hor : idx2 ≠ addr.getIndex ∨ tag2 ≠ addr.getTag := by
        rcases Decidable.not_and_iff_or_not.mp hpair with h | h
        · exact Or.inl h
        · exact Or.inr h
      have hMEold : holdsME st i idx2 tag2 := by
        by_cases hir : i = r
        · subst hir
          by_cases hpi : idx2 = addr.getIndex
          · have htag2 : tag2 ≠ addr.getTag := by
              rcases hor with h | h
              · exact absurd hpi h
              · exact h
            have hM : hasMatchME (linesAt stp i idx2) tag2 := hME
            rw [hpi, hlines_req_idx] at hM
            have hback := set_hasMatchME_mono nl tag2
              (by rintro ⟨-, htg⟩; exact htag2 (htg ▸ htag ▸ rfl)) hM
            show hasMatchME (linesAt st i idx2) tag2
            rw [hpi, hlinesAt_cset]
            exact hback
          · have hM : hasMatchME (linesAt stp i idx2) tag2 := hME
            rw [hlines_req_other idx2 hpi] at hM
            exact hM
        · have hM : hasMatchME (linesAt stp i idx2) tag2 := hME
          rw [hlines_peer i hir] at hM
          exact snoop_hasMatchME_mono _ .BUS_RDX addr idx2 tag2 hM
      have hAnyOld : holdsAny st j idx2 tag2 := by
        by_cases hjr : j = r
        · subst hjr
          by_cases hpi : idx2 = addr.getIndex
          · have htag2 : tag2 ≠ addr.getTag := by
              rcases hor with h | h
              · exact absurd hpi h
              · exact h
            have hA : hasMatch (linesAt stp j idx2) tag2 := hAny
            rw [hpi, hlines_req_idx] at hA
            have hback := set_hasMatch_mono nl tag2
              (fun hm => htag2 (hm.2 ▸ htag ▸ rfl)) hA
            show hasMatch (linesAt st j idx2) tag2
            rw [hpi, hlinesAt_cset]
            exact hback
          · have hA : hasMatch (linesAt stp j idx2) tag2 := hAny
            rw [hlines_req_other idx2 hpi] at hA
            exact hA
        · have hA : hasMatch (linesAt stp j idx2) tag2 := hAny
          rw [hlines_peer j hjr] at hA
          exact (snoop_hasMatch_other _ .BUS_RDX addr hor).mp hA
      exact hJ.2.2.1 idx2 tag2 i j hi hj hMEold hAnyOld
  · intro i idx2 tag2 hi
    by_cases hir : i = r
    · subst hir
      by_cases hpi : idx2 = addr.getIndex
      · subst hpi
        rw [hlines_req_idx]
        refine set_install_atMostOne hnone htag tag2 ?_
        have := hJ.2.2.2 i addr.getIndex tag2 hi
        rw [hlinesAt_cset] at this
        exact this
      · rw [hlines_req_other idx2 hpi]
        exact hJ.2.2.2 i idx2 tag2 hi
    · rw [hlines_peer i hir]
      exact snoop_preserves_atMostOne _ .BUS_RDX addr idx2 tag2
        (hJ.2.2.2 i idx2 tag2 hi)
theorem Inv_writeHit {st stp : SimState} {r : Nat} {addr : Address} {cset : CacheSet}
    {k : Nat} {nl : CacheLine}
    (hr4 : r < 4)
    (hlen : stp.caches.length = st.caches.length)
    (hpeers : ∀ j : Nat, j ≠ r → stp.caches.getD j default
        = (if (cset.lines.getD k default).mesiState = .SHARED
           then snoopCacheEffect (st.caches.getD j default) .BUS_UPGR addr
           else st.caches.getD j default))
    (hcid : (stp.caches.getD r default).coreId = (st.caches.getD r default).coreId)
    (hosets : ∀ idx2 : Nat, idx2 ≠ addr.getIndex →
        (stp.caches.getD r default).sets.getD idx2 default
          = (st.caches.getD r default).sets.getD idx2 default)
    (hcset : cset = (st.caches.getD r default).sets.getD addr.getIndex default)
    (hset : (stp.caches.getD r default).sets.getD addr.getIndex default
        = { cset.updateLRU k with lines := (cset.updateLRU k).lines.set k nl })
    (hk : k < cset.lines.length)
    (hmatch : isMatch (cset.lines.getD k default) addr.getTag)
    (htag : nl.tag = (cset.lines.getD k default).tag)
    (hstate : nl.mesiState = MESIState.MODIFIED)
    (hJ : Inv st) : Inv stp := by
  have hkeq := updateLRU_keyEq cset k
  have hklen2 : k < (cset.updateLRU k).lines.length := by
    rw [hkeq.1]
    exact hk
  have hkey := hkeq.2 k hk
  have hlines_req_idx : linesAt stp r addr.getIndex
      = (cset.updateLRU k).lines.set k nl := by
    unfold linesAt
    rw [hset]
  have hlines_req_other : ∀ idx2 : Nat, idx2 ≠ addr.getIndex →
      linesAt stp r idx2 = linesAt st r idx2 := by
    intro idx2 h2
    unfold linesAt
    rw [hosets idx2 h2]
  have hlinesAt_cset : linesAt st r addr.getIndex = cset.lines := by
    unfold linesAt
    rw [hcset]
  have hlines_peer : ∀ j : Nat, j ≠ r → ∀ idx2 : Nat,
      linesAt stp j idx2
        = (((if (cset.lines.getD k default).mesiState = .SHARED
              then snoopCacheEffect (st.caches.getD j default) .BUS_UPGR addr
              else st.caches.getD j default)).sets.getD idx2 default).lines := by
    intro j hj idx2
    unfold linesAt
    rw [hpeers j hj]
  have htagaddr : (cset.lines.getD k default).tag = addr.getTag := hmatch.2
  have hnladdr : nl.tag = addr.getTag := htag.trans htagaddr
  have hAnyR : holdsAny st r addr.getIndex addr.getTag := by
    show hasMatch (linesAt st r addr.getIndex) addr.getTag
    rw [hlinesAt_cset]
    exact (hasMatch_iff_idx _ _).mpr ⟨k, cset.lines.getD k default,
      (getD_eq_getElem _ _ hk) ▸ List.getElem?_eq_getElem hk, hmatch⟩
  have hMER : ¬ ((cset.lines.getD k default).mesiState = .SHARED) →
      holdsME st r addr.getIndex addr.getTag := by
    intro hS
    show hasMatchME (linesAt st r addr.getIndex) addr.getTag
    rw [hlinesAt_cset]
    refine ⟨cset.lines.getD k default, getD_mem hk, ?_, hmatch.2⟩
    cases hs : (cset.lines.getD k default).mesiState
    · exact Or.inl rfl
    · exact Or.inr rfl
    · exact absurd hs hS
    · exact absurd hmatch.1 (by
        intro hval
        unfold CacheLine.isValid at hval
        rw [hs] at hval
        exact absurd hval (by decide))
  refine ⟨hlen.trans hJ.1, ?_, ?_, ?_⟩
  · intro i hi
    by_cases hir : i = r
    · subst hir
      rw [hcid]
      exact hJ.2.1 i hi
    · rw [hpeers i hir]
      split
      · rw [snoopCacheEffect_coreId]
        exact hJ.2.1 i hi
      · exact hJ.2.1 i hi
  · intro idx2 tag2 i j hi hj hME hAny
    by_cases hpair : idx2 = addr.getIndex ∧ tag2 = addr.getTag
    · obtain ⟨hpi, hpt⟩ := hpair
      subst hpi
      subst hpt
      by_cases hir : i = r
      · subst hir
        by_cases hjr : j = i
        · exact hjr.symm
        · exfalso
          have hA : hasMatch (linesAt stp j addr.getIndex) addr.getTag := hAny
          by_cases hS : (cset.lines.getD k default).mesiState = MESIState.SHARED
          · rw [hlines_peer j hjr addr.getIndex, if_pos hS] at hA
            have hnme : ¬ hasMatchME ((st.caches.getD j default).linesIn addr.getIndex)
                addr.getTag := by
              intro hme
              exact hjr (hJ.2.2.1 addr.getIndex addr.getTag j i hj hi hme hAnyR)
            exact snoop_UPGR_no_match _ addr hnme
              (hJ.2.2.2 j addr.getIndex addr.getTag hj) hA
          · rw [hlines_peer j hjr addr.getIndex, if_neg hS] at hA
            exact hjr (hJ.2.2.1 addr.getIndex addr.getTag i j hi hj (hMER hS) hA).symm
      · exfalso
        have hM : hasMatchME (linesAt stp i addr.getIndex) addr.getTag := hME
        by_cases hS : (cset.lines.getD k default).mesiState = MESIState.SHARED
        · rw [hlines_peer i hir addr.getIndex, if_pos hS] at hM
          have hnme : ¬ hasMatchME ((st.caches.getD i default).linesIn addr.getIndex)
              addr.getTag := by
            intro hme
            exact hir (hJ.2.2.1 addr.getIndex addr.getTag i r hi hr4 hme hAnyR)
          exact snoop_UPGR_no_match _ addr hnme
            (hJ.2.2.2 i addr.getIndex addr.getTag hi) (hasMatchME_hasMatch hM)
        · rw [hlines_peer i hir addr.getIndex, if_neg hS] at hM
          exact hir (hJ.2.2.1 addr.getIndex addr.getTag i r hi hr4 hM hAnyR)
    · have hor : idx2 ≠ addr.getIndex ∨ tag2 ≠ addr.getTag := by
        rcases Decidable.not_and_iff_or_not.mp hpair with h | h
        · exact Or.inl h
        · exact Or.inr h
      have hMEold : holdsME st i idx2 tag2 := by
        by_cases hir : i = r
        · subst hir
          by_cases hpi : idx2 = addr.getIndex
          · have htag2 : tag2 ≠ addr.getTag := by
              rcases hor with h | h
              · exact absurd hpi h
              · exact h
            have hM : hasMatchME (linesAt stp i idx2) tag2 := hME
            rw [hpi, hlines_req_idx] at hM
            have hback := set_hasMatchME_mono nl tag2
              (by rintro ⟨-, htg⟩; exact htag2 (htg ▸ hnladdr ▸ rfl)) hM
            show hasMatchME (linesAt st i idx2) tag2
            rw [hpi, hlinesAt_cset]
            exact (hasMatchME_keyEq hkeq tag2).mp hback
          · have hM : hasMatchME (linesAt stp i idx2) tag2 := hME
            rw [hlines_req_other idx2 hpi] at hM
            exact hM
        · have hM : hasMatchME (linesAt stp i idx2) tag2 := hME
          rw [hlines_peer i hir idx2] at hM
          by_cases hS : (cset.lines.getD k default).mesiState = MESIState.SHARED
          · rw [if_pos hS] at hM
            exact snoop_hasMatchME_mono _ .BUS_UPGR addr idx2 tag2 hM
          · rw [if_neg hS] at hM
            exact hM
      have hAnyOld : holdsAny st j idx2 tag2 := by
        by_cases hjr : j = r
        · subst hjr
          by_cases hpi : idx2 = addr.getIndex
          · have htag2 : tag2 ≠ addr.getTag := by
              rcases hor with h | h
              · exact absurd hpi h
              · exact h
            have hA : hasMatch (linesAt stp j idx2) tag2 := hAny
            rw [hpi, hlines_req_idx] at hA
            have hback := set_hasMatch_mono nl tag2
              (fun hm => htag2 (hm.2 ▸ hnladdr ▸ rfl)) hA
            show hasMatch (linesAt st j idx2) tag2
            rw [hpi, hlinesAt_cset]
            exact (hasMatch_keyEq hkeq tag2).mp hback
          · have hA : hasMatch (linesAt stp j idx2) tag2 := hAny
            rw [hlines_req_other idx2 hpi] at hA
            exact hA
        · have hA : hasMatch (linesAt stp j idx2) tag2 := hAny
          rw [hlines_peer j hjr idx2] at hA
          by_cases hS : (cset.lines.getD k default).mesiState = MESIState.SHARED
          · rw [if_pos hS] at hA
            exact (snoop_hasMatch_other _ .BUS_UPGR addr hor).mp hA
          · rw [if_neg hS] at hA
            exact hA
      exact hJ.2.2.1 idx2 tag2 i j hi hj hMEold hAnyOld
  · intro i idx2 tag2 hi
    by_cases hir : i = r
    · subst hir
      by_cases hpi : idx2 = addr.getIndex
      · subst hpi
        rw [hlines_req_idx]
        refine set_preserves_atMostOne
          ((getD_eq_getElem _ _ hklen2) ▸ List.getElem?_eq_getElem hklen2)
          (htag.trans hkey.2.1.symm)
          (by rw [sameKey_isValid hkey]; exact hmatch.1) tag2 ?_
        refine atMostOne_keyEq hkeq tag2 ?_
        have := hJ.2.2.2 i addr.getIndex tag2 hi
        rw [hlinesAt_cset] at this
        exact this
      · rw [hlines_req_other idx2 hpi]
        exact hJ.2.2.2 i idx2 tag2 hi
    · rw [show linesAt stp i idx2 = ((stp.caches.getD i default).sets.getD idx2
          default).lines from rfl]
      rw [hpeers i hir]
      by_cases hS : (cset.lines.getD k default).mesiState = MESIState.SHARED
      · rw [if_pos hS]
        exact snoop_preserves_atMostOne _ .BUS_UPGR addr idx2 tag2
          (hJ.2.2.2 i idx2 tag2 hi)
      · rw [if_neg hS]
        exact hJ.2.2.2 i idx2 tag2 hi
theorem stateWF_install {st stp : SimState} {r : Nat} {addr : Address} {cset : CacheSet}
    {v : Nat} {nl : CacheLine}
    (hrlen : r < st.caches.length)
    (hlen : stp.caches.length = st.caches.length)
    (hmem : memWF stp.mainMemory)
    (hbs : stp.mainMemory.blockSize = st.mainMemory.blockSize)
    (hpeersWF : ∀ j : Nat, j < st.caches.length → j ≠ r →
        cacheDataWF (stp.caches.getD j default) st.mainMemory.blockSize)
    (hosets : ∀ idx2 : Nat, idx2 ≠ addr.getIndex →
        (stp.caches.getD r default).sets.getD idx2 default
          = (st.caches.getD r default).sets.getD idx2 default)
    (hset : (stp.caches.getD r default).sets.getD addr.getIndex default
        = { cset with lines := cset.lines.set v nl })
    (hcdata : ∀ l ∈ cset.lines, l.data.length = st.mainMemory.blockSize)
    (hdlen : nl.data.length = st.mainMemory.blockSize)
    (hW : stateWF st) : stateWF stp := by
  constructor
  · exact hmem
  · intro j hj
    rw [hbs]
    by_cases hjr : j = r
    · subst hjr
      intro s hs l hl
      obtain ⟨n, hn⟩ := List.mem_iff_getElem?.mp hs
      have hgd : (stp.caches.getD j default).sets.getD n default = s :=
        getD_eq_of_getElem? hn
      by_cases hni : n = addr.getIndex
      · subst hni
        rw [hset] at hgd
        rw [← hgd] at hl
        rcases List.mem_or_eq_of_mem_set hl with hl1 | hl2
        · exact hcdata l hl1
        · rw [hl2]
          exact hdlen
      · rw [hosets n hni] at hgd
        by_cases hn2 : n < (st.caches.getD j default).sets.length
        · exact hW.2 j hrlen s (hgd ▸ getD_mem hn2) l hl
        · rw [getD_default_of_le (Nat.le_of_not_lt hn2)] at hgd
          rw [← hgd] at hl
          rw [default_cacheSet_lines] at hl
          exact absurd hl (List.not_mem_nil l)
    · exact hpeersWF j (hlen ▸ hj) hjr
theorem cacheRead_preserves (st : SimState) (r : Nat) (addr : Address)
    (hr4 : r < 4) (hJ : Inv st) (hW : stateWF st) :
    Inv (cacheRead st r addr).1 ∧ stateWF (cacheRead st r addr).1 := by
  have hr : r < st.caches.length := by
    rw [hJ.1]
    exact hr4
  by_cases hp : (st.caches.getD r default).pendingMiss = true
  · have hEq : (cacheRead st r addr).1
        = { st with caches := st.caches.set r { st.caches.getD r default with
                accessCount := u32 ((st.caches.getD r default).accessCount + 1),
                readCount := u32 ((st.caches.getD r default).readCount + 1) } } := by
      unfold cacheRead
      dsimp only
      rw [if_pos hp]
    rw [hEq]
    exact counters_only_preserves st r _ hr rfl rfl hJ hW
  · have hpf : (st.caches.getD r default).pendingMiss = false := by
      cases hpc : (st.caches.getD r default).pendingMiss
      · rfl
      · exact absurd hpc hp
    by_cases hig : (st.caches.getD r default).sets.length ≤ addr.getIndex
    · have hEq : (cacheRead st r addr).1
          = { st with caches := st.caches.set r { st.caches.getD r default with
                  accessCount := u32 ((st.caches.getD r default).accessCount + 1),
                  readCount := u32 ((st.caches.getD r default).readCount + 1) } } := by
        unfold cacheRead
        dsimp only
        simp only [hpf, Bool.false_eq_true, if_false]
        rw [if_pos hig]
      rw [hEq]
      exact counters_only_preserves st r _ hr rfl rfl hJ hW
    · have hidx : addr.getIndex < (st.caches.getD r default).sets.length :=
        Nat.lt_of_not_le hig
      cases hfind : findLineIdx ((st.caches.getD r default).sets.getD addr.getIndex
          default).lines addr.getTag with
      | some k =>
        have hEq : (cacheRead st r addr).1
            = { st with caches := st.caches.set r { st.caches.getD r default with
                    accessCount := u32 ((st.caches.getD r default).accessCount + 1),
                    readCount := u32 ((st.caches.getD r default).readCount + 1),
                    hitCount := u32 ((st.caches.getD r default).hitCount + 1),
                    sets := (st.caches.getD r default).sets.set addr.getIndex
                      (((st.caches.getD r default).sets.getD addr.getIndex
                        default).updateLRU k) } } := by
          unfold cacheRead
          dsimp only
          simp only [hpf, Bool.false_eq_true, if_false]
          rw [if_neg hig]
          rw [hfind]
        rw [hEq]
        constructor
        · refine Inv_transport (by dsimp only; rw [List.length_set]) ?_ ?_ hJ
          · intro i hi
            dsimp only
            by_cases hir : i = r
            · subst hir
              rw [getD_set_self _ _ _ hr]
            · rw [getD_set_ne _ _ (fun he => hir he.symm)]
          · intro i idx hi
            unfold linesAt
            dsimp only
            by_cases hir : i = r
            · subst hir
              rw [getD_set_self _ _ _ hr]
              dsimp only
              by_cases hIdx : idx = addr.getIndex
              · subst hIdx
                rw [getD_set_self _ _ _ hidx]
                exact updateLRU_keyEq _ k
              · rw [getD_set_ne _ _ (fun he => hIdx he.symm)]
                exact linesKeyEq_refl _
            · rw [getD_set_ne _ _ (fun he => hir he.symm)]
              exact linesKeyEq_refl _
        · constructor
          · exact hW.1
          · intro j hj
            dsimp only at hj ⊢
            rw [List.length_set] at hj
            by_cases hjr : j = r
            · subst hjr
              rw [getD_set_self _ _ _ hr]
              intro s hs l hl
              rcases List.mem_or_eq_of_mem_set hs with hs1 | hs2
              · exact hW.2 j hj s hs1 l hl
              · rw [hs2] at hl
                exact dataWF_keyEq (updateLRU_keyEq _ k)
                  (fun l2 hl2 => hW.2 j hj _ (getD_mem hidx) l2 hl2) l hl
            · rw [getD_set_ne _ _ (fun he => hjr he.symm)]
              exact hW.2 j hj
      | none =>
        have hEqM : (cacheRead st r addr).1
            = (cacheReadMiss st r addr
                { st.caches.getD r default with
                    accessCount := u32 ((st.caches.getD r default).accessCount + 1),
                    readCount := u32 ((st.caches.getD r default).readCount + 1),
                    missCount := u32 ((st.caches.getD r default).missCount + 1),
                    pendingMiss := true, dataSourceCache := -1 }
                addr.getIndex addr.getTag
                ((st.caches.getD r default).sets.getD addr.getIndex default)).1 := by
          unfold cacheRead
          dsimp only
          simp only [hpf, Bool.false_eq_true, if_false]
          rw [if_neg hig]
          rw [hfind]
        rw [hEqM]
        cases hvic : ((st.caches.getD r default).sets.getD addr.getIndex
            default).findVictimIdx with
        | none =>
          have hEqN : (cacheReadMiss st r addr
              { st.caches.getD r default with
                  accessCount := u32 ((st.caches.getD r default).accessCount + 1),
                  readCount := u32 ((st.caches.getD r default).readCount + 1),
                  missCount := u32 ((st.caches.getD r default).missCount + 1),
                  pendingMiss := true, dataSourceCache := -1 }
              addr.getIndex addr.getTag
              ((st.caches.getD r default).sets.getD addr.getIndex default)).1
              = { st with caches := st.caches.set r { st.caches.getD r default with
                      accessCount := u32 ((st.caches.getD r default).accessCount + 1),
                      readCount := u32 ((st.caches.getD r default).readCount + 1),
                      missCount := u32 ((st.caches.getD r default).missCount + 1),
                      pendingMiss := true, dataSourceCache := -1 } } := by
            unfold cacheReadMiss
            dsimp only
            rw [hvic]
          rw [hEqN]
          exact counters_only_preserves st r _ hr rfl rfl hJ hW
        | some v =>
          have hvlen := findVictimIdx_lt hvic
          have hvdata : ((((st.caches.getD r default).sets.getD addr.getIndex
              default).lines.getD v default)).data.length = st.mainMemory.blockSize :=
            hW.2 r hr _ (getD_mem hidx) _ (getD_mem hvlen)
          obtain ⟨nl, hlen2, hpeers, hcid2, hosets, hset, htag, hstate, hdlen⟩ :=
            cacheReadMiss_shape st r addr
              { st.caches.getD r default with
                  accessCount := u32 ((st.caches.getD r default).accessCount + 1),
                  readCount := u32 ((st.caches.getD r default).readCount + 1),
                  missCount := u32 ((st.caches.getD r default).missCount + 1),
                  pendingMiss := true, dataSourceCache := -1 }
              ((st.caches.getD r default).sets.getD addr.getIndex default) v
              hW hr (hJ.2.1 r hr4) rfl hidx hvic hvlen hvdata
          have hmem := cacheReadMiss_mem st r addr
            { st.caches.getD r default with
                accessCount := u32 ((st.caches.getD r default).accessCount + 1),
                readCount := u32 ((st.caches.getD r default).readCount + 1),
                missCount := u32 ((st.caches.getD r default).missCount + 1),
                pendingMiss := true, dataSourceCache := -1 }
            ((st.caches.getD r default).sets.getD addr.getIndex default) hW
          constructor
          · exact Inv_install_RD hr4 hlen2 hpeers hcid2 hosets rfl hset htag hstate
              ((findLineIdx_none_iff _ _).mp hfind) hvlen hJ
          · refine stateWF_install hr hlen2 hmem.1 hmem.2 ?_ hosets hset
              (fun l hl => hW.2 r hr _ (getD_mem hidx) l hl) hdlen hW
            intro j hjlt hjr
            rw [hpeers j hjr]
            exact snoopCacheEffect_dataWF _ _ _ _ (hW.2 j hjlt)
theorem cacheWrite_preserves (st : SimState) (r : Nat) (addr : Address)
    (hr4 : r < 4) (hJ : Inv st) (hW : stateWF st) :
    Inv (cacheWrite st r addr).1 ∧ stateWF (cacheWrite st r addr).1 := by
  have hr : r < st.caches.length := by
    rw [hJ.1]
    exact hr4
  by_cases hp : (st.caches.getD r default).pendingMiss = true
  · have hEq : (cacheWrite st r addr).1
        = { st with caches := st.caches.set r { st.caches.getD r default with
                accessCount := u32 ((st.caches.getD r default).accessCount + 1),
                writeCount := u32 ((st.caches.getD r default).writeCount + 1) } } := by
      unfold cacheWrite
      dsimp only
      rw [if_pos hp]
    rw [hEq]
    exact counters_only_preserves st r _ hr rfl rfl hJ hW
  · have hpf : (st.caches.getD r default).pendingMiss = false := by
      cases hpc : (st.caches.getD r default).pendingMiss
      · rfl
      · exact absurd hpc hp
    by_cases hig : (st.caches.getD r default).sets.length ≤ addr.getIndex
    · have hEq : (cacheWrite st r addr).1
          = { st with caches := st.caches.set r { st.caches.getD r default with
                  accessCount := u32 ((st.caches.getD r default).accessCount + 1),
                  writeCount := u32 ((st.caches.getD r default).writeCount + 1) } } := by
        unfold cacheWrite
        dsimp only
        simp only [hpf, Bool.false_eq_true, if_false]
        rw [if_pos hig]
      rw [hEq]
      exact counters_only_preserves st r _ hr rfl rfl hJ hW
    · have hidx : addr.getIndex < (st.caches.getD r default).sets.length :=
        Nat.lt_of_not_le hig
      cases hfind : findLineIdx ((st.caches.getD r default).sets.getD addr.getIndex
          default).lines addr.getTag with
      | some k =>
        obtain ⟨l0, hl0, hm0⟩ := findLineIdx_some hfind
        have hk : k < ((st.caches.getD r default).sets.getD addr.getIndex
            default).lines.length := lt_length_of_getElem? hl0
        have hmatch : isMatch (((st.caches.getD r default).sets.getD addr.getIndex
            default).lines.getD k default) addr.getTag := by
          rw [getD_eq_of_getElem? hl0]
          exact hm0
        have hEq : (cacheWrite st r addr).1
            = (cacheWriteHit st r addr
                { st.caches.getD r default with
                    accessCount := u32 ((st.caches.getD r default).accessCount + 1),
                    writeCount := u32 ((st.caches.getD r default).writeCount + 1),
                    hitCount := u32 ((st.caches.getD r default).hitCount + 1) }
                addr.getIndex addr.getOffset k
                ((st.caches.getD r default).sets.getD addr.getIndex default)).1 := by
          unfold cacheWrite
          dsimp only
          simp only [hpf, Bool.false_eq_true, if_false]
          rw [if_neg hig]
          rw [hfind]
        rw [hEq]
        obtain ⟨nl, hlen2, hpeers, hcid2, hosets, hset, htag, hstate, hdlen⟩ :=
          cacheWriteHit_shape st r addr
            { st.caches.getD r default with
                accessCount := u32 ((st.caches.getD r default).accessCount + 1),
                writeCount := u32 ((st.caches.getD r default).writeCount + 1),
                hitCount := u32 ((st.caches.getD r default).hitCount + 1) }
            addr.getOffset k
            ((st.caches.getD r default).sets.getD addr.getIndex default)
            hr (hJ.2.1 r hr4) hidx hk hmatch
        have hmem := cacheWriteHit_mem st r addr
          { st.caches.getD r default with
              accessCount := u32 ((st.caches.getD r default).accessCount + 1),
              writeCount := u32 ((st.caches.getD r default).writeCount + 1),
              hitCount := u32 ((st.caches.getD r default).hitCount + 1) }
          addr.getOffset k
          ((st.caches.getD r default).sets.getD addr.getIndex default) hW
        constructor
        · exact Inv_writeHit hr4 hlen2 hpeers hcid2 hosets rfl hset hk hmatch htag
            hstate hJ
        · refine stateWF_install hr hlen2 hmem.1 hmem.2 ?_ hosets hset
            (dataWF_keyEq (updateLRU_keyEq _ k)
              (fun l hl => hW.2 r hr _ (getD_mem hidx) l hl))
            (hdlen.trans (hW.2 r hr _ (getD_mem hidx) _ (getD_mem hk))) hW
          intro j hjlt hjr
          rw [hpeers j hjr]
          by_cases hS : (((st.caches.getD r default).sets.getD addr.getIndex
              default).lines.getD k default).mesiState = MESIState.SHARED
          · rw [if_pos hS]
            exact snoopCacheEffect_dataWF _ _ _ _ (hW.2 j hjlt)
          · rw [if_neg hS]
            exact hW.2 j hjlt
      | none =>
        have hEqM : (cacheWrite st r addr).1
            = (cacheWriteMiss st r addr
                { st.caches.getD r default with
                    accessCount := u32 ((st.caches.getD r default).accessCount + 1),
                    writeCount := u32 ((st.caches.getD r default).writeCount + 1),
                    missCount := u32 ((st.caches.getD r default).missCount + 1),
                    pendingMiss := true, dataSourceCache := -1 }
                addr.getIndex addr.getTag addr.getOffset
                ((st.caches.getD r default).sets.getD addr.getIndex default)).1 := by
          unfold cacheWrite
          dsimp only
          simp only [hpf, Bool.false_eq_true, if_false]
          rw [if_neg hig]
          rw [hfind]
        rw [hEqM]
        cases hvic : ((st.caches.getD r default).sets.getD addr.getIndex
            default).findVictimIdx with
        | none =>
          have hEqN : (cacheWriteMiss st r addr
              { st.caches.getD r default with
                  accessCount := u32 ((st.caches.getD r default).accessCount + 1),
                  writeCount := u32 ((st.caches.getD r default).writeCount + 1),
                  missCount := u32 ((st.caches.getD r default).missCount + 1),
                  pendingMiss := true, dataSourceCache := -1 }
              addr.getIndex addr.getTag addr.getOffset
              ((st.caches.getD r default).sets.getD addr.getIndex default)).1
              = { st with caches := st.caches.set r { st.caches.getD r default with
                      accessCount := u32 ((st.caches.getD r default).accessCount + 1),
                      writeCount := u32 ((st.caches.getD r default).writeCount + 1),
                      missCount := u32 ((st.caches.getD r default).missCount + 1),
                      pendingMiss := true, dataSourceCache := -1 } } := by
            unfold cacheWriteMiss
            dsimp only
            rw [hvic]
          rw [hEqN]
          exact counters_only_preserves st r _ hr rfl rfl hJ hW
        | some v =>
          have hvlen := findVictimIdx_lt hvic
          have hvdata : ((((st.caches.getD r default).sets.getD addr.getIndex
              default).lines.getD v default)).data.length = st.mainMemory.blockSize :=
            hW.2 r hr _ (getD_mem hidx) _ (getD_mem hvlen)
          obtain ⟨nl, hlen2, hpeers, hcid2, hosets, hset, htag, hstate, hdlen⟩ :=
            cacheWriteMiss_shape st r addr
              { st.caches.getD r default with
                  accessCount := u32 ((st.caches.getD r default).accessCount + 1),
                  writeCount := u32 ((st.caches.getD r default).writeCount + 1),
                  missCount := u32 ((st.caches.getD r default).missCount + 1),
                  pendingMiss := true, dataSourceCache := -1 }
              ((st.caches.getD r default).sets.getD addr.getIndex default)
              addr.getOffset v
              hW hr (hJ.2.1 r hr4) hidx hvic hvlen hvdata
          have hmem := cacheWriteMiss_mem st r addr
            { st.caches.getD r default with
                accessCount := u32 ((st.caches.getD r default).accessCount + 1),
                writeCount := u32 ((st.caches.getD r default).writeCount + 1),
                missCount := u32 ((st.caches.getD r default).missCount + 1),
                pendingMiss := true, dataSourceCache := -1 }
            ((st.caches.getD r default).sets.getD addr.getIndex default)
            addr.getOffset hW
          constructor
          · exact Inv_install_RDX hr4 hlen2 hpeers hcid2 hosets rfl hset htag
              ((findLineIdx_none_iff _ _).mp hfind) hvlen hJ
          · refine stateWF_install hr hlen2 hmem.1 hmem.2 ?_ hosets hset
              (fun l hl => hW.2 r hr _ (getD_mem hidx) l hl) hdlen hW
            intro j hjlt hjr
            rw [hpeers j hjr]
            exact snoopCacheEffect_dataWF _ _ _ _ (hW.2 j hjlt)
/-- Steps the simulator can actually issue: accesses come from the four
cores. -/
def stepOK : SimStep → Bool
  | .access core _ _ => decide (core < 4)
  | .tick _ => true

theorem step_preserves (st : SimState) (s : SimStep) (hok : stepOK s = true)
    (hJ : Inv st) (hW : stateWF st) :
    Inv (applyStep st s) ∧ stateWF (applyStep st s) := by
  cases s with
  | access core isWrite a =>
    have hc4 : core < 4 := by
      unfold stepOK at hok
      exact of_decide_eq_true hok
    cases isWrite with
    | true =>
      have hEq : applyStep st (.access core true a)
          = (cacheWrite st core (Address.mkAddr a st.cfg.setBits st.cfg.blockBits)).1 :=
        rfl
      rw [hEq]
      exact cacheWrite_preserves st core _ hc4 hJ hW
    | false =>
      have hEq : applyStep st (.access core false a)
          = (cacheRead st core (Address.mkAddr a st.cfg.setBits st.cfg.blockBits)).1 :=
        rfl
      rw [hEq]
      exact cacheRead_preserves st core _ hc4 hJ hW
  | tick cycle => exact tick_preserves st cycle hJ hW

theorem getD_range {n i : Nat} (h : i < n) : (List.range n).getD i default = i := by
  rw [getD_eq_getElem _ _ (by rw [List.length_range]; exact h)]
  simp

theorem initState_caches_length (cfg : Config) (traces : List (List TraceRec)) :
    (initState cfg traces).caches.length = 4 := by
  unfold initState
  dsimp only
  rw [List.length_map, List.length_range]

theorem initState_caches_getD (cfg : Config) (traces : List (List TraceRec))
    (i : Nat) (hi : i < 4) :
    (initState cfg traces).caches.getD i default
      = Cache.mkCache i (2 ^ cfg.setBits) cfg.associativity (2 ^ cfg.blockBits)
          cfg.setBits cfg.blockBits := by
  unfold initState
  dsimp only
  rw [getD_map _ _ _ (by rw [List.length_range]; exact hi)]
  rw [getD_range hi]

theorem initState_lines_invalid (cfg : Config) (traces : List (List TraceRec))
    (i idx : Nat) :
    ∀ l ∈ linesAt (initState cfg traces) i idx, l.isValid = false := by
  intro l hl
  unfold linesAt at hl
  by_cases hi : i < 4
  · rw [initState_caches_getD cfg traces i hi] at hl
    unfold Cache.mkCache at hl
    dsimp only at hl
    by_cases hidx : idx < 2 ^ cfg.setBits
    · rw [getD_eq_getElem _ _ (by rw [List.length_replicate]; exact hidx)] at hl
      rw [List.getElem_replicate] at hl
      have hll := List.eq_of_mem_replicate hl
      rw [hll]
      rfl
    · rw [getD_default_of_le (by rw [List.length_replicate]; omega)] at hl
      rw [default_cacheSet_lines] at hl
      exact absurd hl (List.not_mem_nil l)
  · rw [getD_default_of_le (show (initState cfg traces).caches.length ≤ i by
        rw [initState_caches_length]; omega)] at hl
    exact absurd hl (List.not_mem_nil l)

theorem initState_no_match (cfg : Config) (traces : List (List TraceRec))
    (i idx tag : Nat) : ¬ hasMatch (linesAt (initState cfg traces) i idx) tag := by
  rintro ⟨l, hl, hm⟩
  have h1 := hm.1
  rw [initState_lines_invalid cfg traces i idx l hl] at h1
  exact Bool.noConfusion h1

theorem initState_good (cfg : Config) (traces : List (List TraceRec)) :
    Inv (initState cfg traces) ∧ stateWF (initState cfg traces) := by
  constructor
  · refine ⟨initState_caches_length cfg traces, ?_, ?_, ?_⟩
    · intro i hi
      rw [initState_caches_getD cfg traces i hi]
      rfl
    · intro idx tag i j hi hj hme hany
      exact absurd hany (initState_no_match cfg traces j idx tag)
    · intro i idx tag hi
      intro k1 k2 l1 l2 h1 h2 hm1 hm2
      exact absurd ((hasMatch_iff_idx _ _).mpr ⟨k1, l1, h1, hm1⟩)
        (initState_no_match cfg traces i idx tag)
  · constructor
    · intro p hp
      exact absurd hp (List.not_mem_nil p)
    · intro j hj
      rw [initState_caches_length] at hj
      rw [initState_caches_getD cfg traces j hj]
      intro s hs l hl
      have hs2 := List.eq_of_mem_replicate hs
      rw [hs2] at hl
      have hl2 := List.eq_of_mem_replicate hl
      rw [hl2]
      show (List.replicate (2 ^ cfg.blockBits) 0).length = _
      rw [List.length_replicate]
      rfl

theorem execSteps_good (cfg : Config) (traces : List (List TraceRec))
    (steps : List SimStep) (hok : ∀ s ∈ steps, stepOK s = true) :
    Inv (execSteps steps (initState cfg traces))
    ∧ stateWF (execSteps steps (initState cfg traces)) := by
  suffices H : ∀ (ss : List SimStep) (st : SimState), (∀ s ∈ ss, stepOK s = true) →
      Inv st ∧ stateWF st → Inv (execSteps ss st) ∧ stateWF (execSteps ss st) by
    exact H steps _ hok (initState_good cfg traces)
  intro ss
  induction ss with
  | nil =>
    intro st _ h
    exact h
  | cons s rest ih =>
    intro st hok2 h
    show Inv (execSteps rest (applyStep st s)) ∧ stateWF (execSteps rest (applyStep st s))
    exact ih _ (fun x hx => hok2 x (List.mem_cons_of_mem _ hx))
      (step_preserves st s (hok2 s (List.mem_cons_self _ _)) h.1 h.2)

/-- C1: MESI exclusivity.  In every state reachable from initialization
(all lines INVALID) by trace accesses of the four cores and cycle ticks,
each block (set index, tag) is MODIFIED in at most one cache, and when a
cache holds it MODIFIED no other cache holds it in any non-INVALID
state. -/
theorem mesi_exclusivity (cfg : Config) (traces : List (List TraceRec))
    (steps : List SimStep) (hsteps : ∀ s ∈ steps, stepOK s = true) :
    (∀ idx tag i j : Nat, i < 4 → j < 4 →
        holdsM (execSteps steps (initState cfg traces)) i idx tag →
        holdsM (execSteps steps (initState cfg traces)) j idx tag → i = j)
    ∧ (∀ idx tag i j : Nat, i < 4 → j < 4 → j ≠ i →
        holdsM (execSteps steps (initState cfg traces)) i idx tag →
        ¬ holdsAny (execSteps steps (initState cfg traces)) j idx tag) := by
  have hJ := (execSteps_good cfg traces steps hsteps).1
  constructor
  · intro idx tag i j hi hj hMi hMj
    exact hJ.2.2.1 idx tag i j hi hj (hasMatchM_hasMatchME hMi) (hasMatchM_hasMatch hMj)
  · intro idx tag i j hi hj hji hMi hAj
    exact hji (hJ.2.2.1 idx tag i j hi hj (hasMatchM_hasMatchME hMi) hAj).symm

/-- The state after core 0 writes address 8 on the fresh four-core
system: cache 0 then holds block (set 0, tag 1) in MODIFIED. -/
def stW : SimState :=
  execSteps [SimStep.access 0 true 8] (initState cfgEx [[], [], [], []])

/-- C1 witness: after core 0's write of address 8, cache 0 holds the
block MODIFIED and the theorem yields that cache 1 holds no copy. -/
theorem mesi_exclusivity_witness : ¬ holdsAny stW 1 0 1 :=
  (mesi_exclusivity cfgEx [[], [], [], []] [SimStep.access 0 true 8] (by decide)).2
    0 1 0 1 (by decide) (by decide) (by decide) (by decide)
/-! ## C7: the processor layer and instruction accounting -/

theorem cacheReadMiss_pt (st : SimState) (r : Nat) (addr : Address) (c1 : Cache)
    (cset : CacheSet) :
    (cacheReadMiss st r addr c1 addr.getIndex addr.getTag cset).1.processors
        = st.processors
    ∧ (cacheReadMiss st r addr c1 addr.getIndex addr.getTag cset).1.traces
        = st.traces := by
  unfold cacheReadMiss
  dsimp only
  split
  case h_1 heq => exact ⟨rfl, rfl⟩
  case h_2 v heq =>
    have hmv := missVictimPhase_spec st addr.getIndex (cset.lines.getD v default) c1
    dsimp only
    constructor
    · rw [busTransact_processors]
      exact hmv.2.2.2.2.2.2.2.2.2.2.1
    · rw [busTransact_traces]
      exact hmv.2.2.2.2.2.2.2.2.2.2.2.1

theorem cacheWriteMiss_pt (st : SimState) (r : Nat) (addr : Address) (c1 : Cache)
    (cset : CacheSet) (offset : Nat) :
    (cacheWriteMiss st r addr c1 addr.getIndex addr.getTag offset cset).1.processors
        = st.processors
    ∧ (cacheWriteMiss st r addr c1 addr.getIndex addr.getTag offset cset).1.traces
        = st.traces := by
  unfold cacheWriteMiss
  dsimp only
  split
  case h_1 heq => exact ⟨rfl, rfl⟩
  case h_2 v heq =>
    have hmv := missVictimPhase_spec st addr.getIndex (cset.lines.getD v default) c1
    dsimp only
    constructor
    · rw [busTransact_processors]
      exact hmv.2.2.2.2.2.2.2.2.2.2.1
    · rw [busTransact_traces]
      exact hmv.2.2.2.2.2.2.2.2.2.2.2.1

theorem cacheWriteHit_pt (st : SimState) (r : Nat) (addr : Address) (c1 : Cache)
    (offset k : Nat) (cset : CacheSet) :
    (cacheWriteHit st r addr c1 addr.getIndex offset k cset).1.processors
        = st.processors
    ∧ (cacheWriteHit st r addr c1 addr.getIndex offset k cset).1.traces = st.traces := by
  unfold cacheWriteHit
  dsimp only
  split
  · exact ⟨busTransact_processors _ _ _ _, busTransact_traces _ _ _ _⟩
  · exact ⟨rfl, rfl⟩

theorem cacheRead_pt (st : SimState) (r : Nat) (addr : Address) :
    (cacheRead st r addr).1.processors = st.processors
    ∧ (cacheRead st r addr).1.traces = st.traces := by
  unfold cacheRead
  dsimp only
  split
  · exact ⟨rfl, rfl⟩
  · split
    · exact ⟨rfl, rfl⟩
    · split
      · exact ⟨rfl, rfl⟩
      · exact cacheReadMiss_pt st r addr _ _

theorem cacheWrite_pt (st : SimState) (r : Nat) (addr : Address) :
    (cacheWrite st r addr).1.processors = st.processors
    ∧ (cacheWrite st r addr).1.traces = st.traces := by
  unfold cacheWrite
  dsimp only
  split
  · exact ⟨rfl, rfl⟩
  · split
    · exact ⟨rfl, rfl⟩
    · split
      · exact cacheWriteHit_pt st r addr _ _ _ _
      · exact cacheWriteMiss_pt st r addr _ _ _
/-- TraceReader::getNextInstruction for one core: a well-formed R/W line
yields an instruction and bumps the ghost count; an unknown opcode is
consumed and skipped; a token-extraction failure or EOF marks the stream
ended. -/
def TraceStream.next (ts : TraceStream) : TraceStream × Option (Bool × Nat) :=
  if ts.fileEnded then (ts, none)
  else
    match ts.remaining with
    | [] => ({ ts with fileEnded := true }, none)
    | r :: rest =>
      match r with
      | .rw w a =>
          ({ ts with remaining := rest, consumedRW := ts.consumedRW + 1 }, some (w, a))
      | .badOp => ({ ts with remaining := rest }, none)
      | .blank => ({ ts with remaining := rest, fileEnded := true }, none)

/-- Processor::executeNextInstruction for core i when it is not blocked
and has more instructions: fetch a trace record, issue the access, and on
success count it, on a miss block the core. -/
def execInstr (st : SimState) (i : Nat) : SimState :=
  let ts := st.traces.getD i default
  let nx := ts.next
  let st1 := { st with traces := st.traces.set i nx.1 }
  match nx.2 with
  | none => st1
  | some (w, a) =>
    let c := st1.caches.getD i default
    let addr := Address.mkAddr a c.setBits c.blockBits
    let res := if w then cacheWrite st1 i addr else cacheRead st1 i addr
    let st2 := res.1
    let p := st2.processors.getD i default
    if res.2 then
      { st2 with processors := st2.processors.set i { p with
          instructionsExecuted := u32 (p.instructionsExecuted + 1) } }
    else
      { st2 with processors := st2.processors.set i { p with blocked := true } }

/-- One iteration of the per-core loop of Simulator::processNextCycle. -/
def procTick (s : SimState) (i : Nat) : SimState :=
  let p := s.processors.getD i default
  let pb := { p with cyclesBlocked := u32 (p.cyclesBlocked + 1) }
  let s1 := if p.blocked then { s with processors := s.processors.set i pb } else s
  let p1 := s1.processors.getD i default
  if !p1.blocked && !(s1.traces.getD i default).fileEnded then execInstr s1 i else s1

/-- One iteration of the unblocking loop of Simulator::processNextCycle:
checkMissResolved on cache i, then Processor::setBlocked(false) — which
counts the blocked instruction — when it fired. -/
def unblockStep (s : SimState) (i : Nat) : SimState :=
  let c := s.caches.getD i default
  let cm := c.checkMissResolved
  let s1 := { s with caches := s.caches.set i cm.1 }
  if cm.2 then
    let p := s1.processors.getD i default
    let pexec := if p.blocked then u32 (p.instructionsExecuted + 1)
                 else p.instructionsExecuted
    let p1 := { p with blocked := false, instructionsExecuted := pexec }
    { s1 with processors := s1.processors.set i p1 }
  else s1

/-- One iteration of the global-statistics loop of processNextCycle. -/
def statsStep (s : SimState) (c : Cache) : SimState :=
  { s with
      totalCacheHits := u32 (s.totalCacheHits + c.hitCount),
      totalCacheMisses := u32 (s.totalCacheMisses + c.missCount),
      totalMemoryAccesses := u32 (s.totalMemoryAccesses + c.accessCount) }

/-- Simulator::processNextCycle: bump the cycle, setCycle on every cache,
let each core try an instruction, unblock resolved misses, and accumulate
the global statistics. -/
def processNextCycle (st : SimState) : SimState :=
  let cyc := u32 (st.currentCycle + 1)
  let st0 := { st with
      currentCycle := cyc,
      caches := st.caches.map (fun c => { c with currentCycle := cyc }) }
  let st1 := (List.range st0.processors.length).foldl procTick st0
  let st2 := (List.range st1.caches.length).foldl unblockStep st1
  st2.caches.foldl statsStep st2

/-- Simulator::isSimulationComplete: all traces ended and nobody blocked. -/
def isSimulationComplete (st : SimState) : Bool :=
  st.traces.all (fun t => t.fileEnded) && st.processors.all (fun p => !p.blocked)

/-- The statistics epilogue of Simulator::run. -/
def runFinalize (st : SimState) : SimState :=
  { st with totalCycles := st.currentCycle,
            totalInstructions := st.processors.foldl
              (fun acc p => u32 (acc + p.instructionsExecuted)) 0 }

/-- Simulator::run with explicit fuel: cycles until the completion test
holds, then finalizes; none when the fuel runs out first. -/
def simRun : Nat → SimState → Option SimState
  | 0, _ => none
  | fuel + 1, st =>
    if isSimulationComplete st then some (runFinalize st)
    else simRun fuel (processNextCycle st)
theorem next_none_consumed {ts : TraceStream} (h : ts.next.2 = none) :
    ts.next.1.consumedRW = ts.consumedRW := by
  unfold TraceStream.next at h ⊢
  by_cases hf : ts.fileEnded = true
  · rw [if_pos hf]
  · rw [if_neg hf] at h ⊢
    cases hr : ts.remaining with
    | nil => rfl
    | cons r rest =>
      rw [hr] at h
      cases r
      · exact Option.noConfusion h
      · rfl
      · rfl

theorem next_some_consumed {ts : TraceStream} {x : Bool × Nat}
    (h : ts.next.2 = some x) : ts.next.1.consumedRW = ts.consumedRW + 1 := by
  unfold TraceStream.next at h ⊢
  by_cases hf : ts.fileEnded = true
  · rw [if_pos hf] at h
    exact Option.noConfusion h
  · rw [if_neg hf] at h ⊢
    cases hr : ts.remaining with
    | nil =>
      rw [hr] at h
      exact Option.noConfusion h
    | cons r rest =>
      rw [hr] at h
      cases r
      · rfl
      · exact Option.noConfusion h
      · exact Option.noConfusion h

theorem cacheReadMiss_len (st : SimState) (r : Nat) (addr : Address) (c1 : Cache)
    (cset : CacheSet) :
    (cacheReadMiss st r addr c1 addr.getIndex addr.getTag cset).1.caches.length
      = st.caches.length := by
  unfold cacheReadMiss
  dsimp only
  split
  case h_1 heq => exact List.length_set _ _ _
  case h_2 v heq =>
    have hmv := missVictimPhase_spec st addr.getIndex (cset.lines.getD v default) c1
    dsimp only
    rw [List.length_set, busTransact_length]
    exact hmv.2.2.2.2.2.2.2.1

theorem cacheWriteMiss_len (st : SimState) (r : Nat) (addr : Address) (c1 : Cache)
    (cset : CacheSet) (offset : Nat) :
    (cacheWriteMiss st r addr c1 addr.getIndex addr.getTag offset cset).1.caches.length
      = st.caches.length := by
  unfold cacheWriteMiss
  dsimp only
  split
  case h_1 heq => exact List.length_set _ _ _
  case h_2 v heq =>
    have hmv := missVictimPhase_spec st addr.getIndex (cset.lines.getD v default) c1
    dsimp only
    rw [List.length_set, busTransact_length]
    exact hmv.2.2.2.2.2.2.2.1

theorem cacheWriteHit_len (st : SimState) (r : Nat) (addr : Address) (c1 : Cache)
    (offset k : Nat) (cset : CacheSet) :
    (cacheWriteHit st r addr c1 addr.getIndex offset k cset).1.caches.length
      = st.caches.length := by
  unfold cacheWriteHit
  dsimp only
  split
  · dsimp only
    rw [List.length_set, busTransact_length]
  · exact List.length_set _ _ _

theorem cacheRead_len (st : SimState) (r : Nat) (addr : Address) :
    (cacheRead st r addr).1.caches.length = st.caches.length := by
  unfold cacheRead
  dsimp only
  split
  · exact List.length_set _ _ _
  · split
    · exact List.length_set _ _ _
    · split
      · exact List.length_set _ _ _
      · exact cacheReadMiss_len st r addr _ _

theorem cacheWrite_len (st : SimState) (r : Nat) (addr : Address) :
    (cacheWrite st r addr).1.caches.length = st.caches.length := by
  unfold cacheWrite
  dsimp only
  split
  · exact List.length_set _ _ _
  · split
    · exact List.length_set _ _ _
    · split
      · exact cacheWriteHit_len st r addr _ _ _ _
      · exact cacheWriteMiss_len st r addr _ _ _

/-- The per-core instruction-accounting invariant: four of everything, and
each core's executed count is the consumed well-formed trace lines minus
the one access it is currently blocked on. -/
def ProcInv (st : SimState) : Prop :=
  st.processors.length = 4 ∧ st.traces.length = 4 ∧ st.caches.length = 4
  ∧ ∀ i : Nat, i < 4 →
      (st.processors.getD i default).instructionsExecuted
        = u32 ((st.traces.getD i default).consumedRW
            - (if (st.processors.getD i default).blocked then 1 else 0))
      ∧ ((st.processors.getD i default).blocked = true →
          1 ≤ (st.traces.getD i default).consumedRW)
theorem execInstr_ProcInv (s : SimState) (i : Nat) (hi : i < 4) (h : ProcInv s)
    (hnb : (s.processors.getD i default).blocked = false) :
    ProcInv (execInstr s i) := by
  have hplen : i < s.processors.length := by
    rw [h.1]
    exact hi
  have htlen : i < s.traces.length := by
    rw [h.2.1]
    exact hi
  unfold execInstr
  dsimp only
  cases hnx : (s.traces.getD i default).next.2 with
  | none =>
    refine ⟨h.1, ?_, h.2.2.1, ?_⟩
    · dsimp only
      rw [List.length_set]
      exact h.2.1
    · intro j hj
      dsimp only
      by_cases hji : j = i
      · subst hji
        rw [getD_set_self _ _ _ htlen]
        rw [next_none_consumed hnx]
        exact h.2.2.2 j hj
      · rw [getD_set_ne _ _ (fun he => hji he.symm)]
        exact h.2.2.2 j hj
  | some x =>
    obtain ⟨w, a⟩ := x
    dsimp only
    cases w with
    | true =>
      have hpt := fun addr => cacheWrite_pt
        { s with traces := s.traces.set i (s.traces.getD i default).next.1 } i addr
      rw [if_pos rfl]
      split
      · refine ⟨?_, ?_, ?_, ?_⟩
        · dsimp only
          rw [List.length_set, (hpt _).1]
          exact h.1
        · dsimp only
          rw [(hpt _).2]
          dsimp only
          rw [List.length_set]
          exact h.2.1
        · dsimp only
          rw [cacheWrite_len]
          exact h.2.2.1
        · intro j hj
          dsimp only
          by_cases hji : j = i
          · subst hji
            rw [getD_set_self _ _ _ (by rw [(hpt _).1]; exact hplen)]
            rw [(hpt _).2]
            rw [getD_set_self _ _ _ htlen]
            rw [next_some_consumed hnx]
            dsimp only
            rw [(hpt _).1]
            dsimp only
            rw [hnb]
            constructor
            · rw [(h.2.2.2 j hj).1, hnb]
              simp only [if_false, Bool.false_eq_true, Nat.sub_zero]
              rw [u32_add_left]
            · intro hcon
              exact Bool.noConfusion hcon
          · rw [getD_set_ne _ _ (fun he => hji he.symm)]
            rw [(hpt _).1, (hpt _).2]
            dsimp only
            rw [getD_set_ne _ _ (fun he => hji he.symm)]
            exact h.2.2.2 j hj
      · refine ⟨?_, ?_, ?_, ?_⟩
        · dsimp only
          rw [List.length_set, (hpt _).1]
          exact h.1
        · dsimp only
          rw [(hpt _).2]
          dsimp only
          rw [List.length_set]
          exact h.2.1
        · dsimp only
          rw [cacheWrite_len]
          exact h.2.2.1
        · intro j hj
          dsimp only
          by_cases hji : j = i
          · subst hji
            rw [getD_set_self _ _ _ (by rw [(hpt _).1]; exact hplen)]
            rw [(hpt _).2]
            rw [getD_set_self _ _ _ htlen]
            rw [next_some_consumed hnx]
            dsimp only
            rw [(hpt _).1]
            constructor
            · rw [(h.2.2.2 j hj).1, hnb]
              simp only [if_true, if_false, Bool.false_eq_true, Nat.sub_zero,
                Nat.add_sub_cancel]
            · intro hcon
              omega
          · rw [getD_set_ne _ _ (fun he => hji he.symm)]
            rw [(hpt _).1, (hpt _).2]
            dsimp only
            rw [getD_set_ne _ _ (fun he => hji he.symm)]
            exact h.2.2.2 j hj
    | false =>
      have hpt := fun addr => cacheRead_pt
        { s with traces := s.traces.set i (s.traces.getD i default).next.1 } i addr
      simp only [Bool.false_eq_true, if_false]
      split
      · refine ⟨?_, ?_, ?_, ?_⟩
        · dsimp only
          rw [List.length_set, (hpt _).1]
          exact h.1
        · dsimp only
          rw [(hpt _).2]
          dsimp only
          rw [List.length_set]
          exact h.2.1
        · dsimp only
          rw [cacheRead_len]
          exact h.2.2.1
        · intro j hj
          dsimp only
          by_cases hji : j = i
          · subst hji
            rw [getD_set_self _ _ _ (by rw [(hpt _).1]; exact hplen)]
            rw [(hpt _).2]
            rw [getD_set_self _ _ _ htlen]
            rw [next_some_consumed hnx]
            dsimp only
            rw [(hpt _).1]
            dsimp only
            rw [hnb]
            constructor
            · rw [(h.2.2.2 j hj).1, hnb]
              simp only [if_false, Bool.false_eq_true, Nat.sub_zero]
              rw [u32_add_left]
            · intro hcon
              exact Bool.noConfusion hcon
          · rw [getD_set_ne _ _ (fun he => hji he.symm)]
            rw [(hpt _).1, (hpt _).2]
            dsimp only
            rw [getD_set_ne _ _ (fun he => hji he.symm)]
            exact h.2.2.2 j hj
      · refine ⟨?_, ?_, ?_, ?_⟩
        · dsimp only
          rw [List.length_set, (hpt _).1]
          exact h.1
        · dsimp only
          rw [(hpt _).2]
          dsimp only
          rw [List.length_set]
          exact h.2.1
        · dsimp only
          rw [cacheRead_len]
          exact h.2.2.1
        · intro j hj
          dsimp only
          by_cases hji : j = i
          · subst hji
            rw [getD_set_self _ _ _ (by rw [(hpt _).1]; exact hplen)]
            rw [(hpt _).2]
            rw [getD_set_self _ _ _ htlen]
            rw [next_some_consumed hnx]
            dsimp only
            rw [(hpt _).1]
            constructor
            · rw [(h.2.2.2 j hj).1, hnb]
              simp only [if_true, if_false, Bool.false_eq_true, Nat.sub_zero,
                Nat.add_sub_cancel]
            · intro hcon
              omega
          · rw [getD_set_ne _ _ (fun he => hji he.symm)]
            rw [(hpt _).1, (hpt _).2]
            dsimp only
            rw [getD_set_ne _ _ (fun he => hji he.symm)]
            exact h.2.2.2 j hj
theorem procTick_ProcInv (s : SimState) (i : Nat) (hi : i < 4) (h : ProcInv s) :
    ProcInv (procTick s i) := by
  have hplen : i < s.processors.length := by
    rw [h.1]
    exact hi
  unfold procTick
  dsimp only
  by_cases hb : (s.processors.getD i default).blocked = true
  · rw [if_pos hb]
    rw [getD_set_self _ _ _ hplen]
    dsimp only
    rw [hb]
    simp only [Bool.not_true, Bool.false_and, Bool.false_eq_true, if_false]
    refine ⟨?_, h.2.1, h.2.2.1, ?_⟩
    · dsimp only
      rw [List.length_set]
      exact h.1
    · intro j hj
      dsimp only
      by_cases hji : j = i
      · subst hji
        rw [getD_set_self _ _ _ hplen]
        have h1 := h.2.2.2 j hj
        rw [hb] at h1
        exact ⟨h1.1, fun _ => h1.2 rfl⟩
      · rw [getD_set_ne _ _ (fun he => hji he.symm)]
        exact h.2.2.2 j hj
  · rw [if_neg hb]
    have hnb : (s.processors.getD i default).blocked = false := by
      cases hx : (s.processors.getD i default).blocked
      · rfl
      · exact absurd hx hb
    split
    · exact execInstr_ProcInv s i hi h hnb
    · exact h

theorem unblockStep_ProcInv (s : SimState) (i : Nat) (hi : i < 4) (h : ProcInv s) :
    ProcInv (unblockStep s i) := by
  have hplen : i < s.processors.length := by
    rw [h.1]
    exact hi
  unfold unblockStep
  dsimp only
  by_cases hcm : ((s.caches.getD i default).checkMissResolved).2 = true
  · rw [if_pos hcm]
    refine ⟨?_, h.2.1, ?_, ?_⟩
    · dsimp only
      rw [List.length_set]
      exact h.1
    · dsimp only
      rw [List.length_set]
      exact h.2.2.1
    · intro j hj
      dsimp only
      by_cases hji : j = i
      · subst hji
        rw [getD_set_self _ _ _ hplen]
        dsimp only
        by_cases hpb : (s.processors.getD j default).blocked = true
        · rw [if_pos hpb]
          have h1 := (h.2.2.2 j hj).1
          rw [hpb] at h1
          rw [if_pos rfl] at h1
          have hge := (h.2.2.2 j hj).2 hpb
          constructor
          · rw [h1, u32_add_left]
            simp only [Bool.false_eq_true, if_false, Nat.sub_zero]
            unfold u32
            omega
          · intro hcon
            exact Bool.noConfusion hcon
        · have hpf : (s.processors.getD j default).blocked = false := by
            cases hx : (s.processors.getD j default).blocked
            · rfl
            · exact absurd hx hpb
          rw [if_neg hpb]
          have h1 := (h.2.2.2 j hj).1
          rw [hpf] at h1
          simp only [Bool.false_eq_true, if_false, Nat.sub_zero] at h1
          constructor
          · rw [h1]
            simp only [Bool.false_eq_true, if_false, Nat.sub_zero]
          · intro hcon
            exact Bool.noConfusion hcon
      · rw [getD_set_ne _ _ (fun he => hji he.symm)]
        exact h.2.2.2 j hj
  · rw [if_neg hcm]
    refine ⟨h.1, h.2.1, ?_, h.2.2.2⟩
    dsimp only
    rw [List.length_set]
    exact h.2.2.1

theorem statsStep_ProcInv (s : SimState) (c : Cache) (h : ProcInv s) :
    ProcInv (statsStep s c) := h

theorem range_procTick_ProcInv (n : Nat) (s : SimState) (h : ProcInv s) :
    n ≤ 4 → ProcInv ((List.range n).foldl procTick s) := by
  induction n with
  | zero => intro _; exact h
  | succ m ih =>
    intro hn
    rw [List.range_succ, List.foldl_append]
    exact procTick_ProcInv _ m (by omega) (ih (by omega))

theorem range_unblockStep_ProcInv (n : Nat) (s : SimState) (h : ProcInv s) :
    n ≤ 4 → ProcInv ((List.range n).foldl unblockStep s) := by
  induction n with
  | zero => intro _; exact h
  | succ m ih =>
    intro hn
    rw [List.range_succ, List.foldl_append]
    exact unblockStep_ProcInv _ m (by omega) (ih (by omega))

theorem foldl_statsStep_ProcInv (L : List Cache) :
    ∀ s : SimState, ProcInv s → ProcInv (L.foldl statsStep s) := by
  induction L with
  | nil => intro s h; exact h
  | cons c t ih => intro s h; exact ih _ (statsStep_ProcInv s c h)

theorem processNextCycle_ProcInv (st : SimState) (h : ProcInv st) :
    ProcInv (processNextCycle st) := by
  unfold processNextCycle
  dsimp only
  have h0 : ProcInv { st with
      currentCycle := u32 (st.currentCycle + 1),
      caches := st.caches.map fun c => { c with currentCycle := u32 (st.currentCycle + 1) } } :=
    ⟨h.1, h.2.1, by dsimp only; rw [List.length_map]; exact h.2.2.1, h.2.2.2⟩
  have h1 := range_procTick_ProcInv _ _ h0 (le_of_eq h0.1)
  have h2 := range_unblockStep_ProcInv _ _ h1 (le_of_eq h1.2.2.1)
  exact foldl_statsStep_ProcInv _ _ h2

theorem initState_ProcInv (cfg : Config) (traceLists : List (List TraceRec)) :
    ProcInv (initState cfg traceLists) := by
  refine ⟨?_, ?_, ?_, ?_⟩
  · unfold initState
    dsimp only
    rw [List.length_map, List.length_range]
  · unfold initState
    dsimp only
    rw [List.length_map, List.length_range]
  · unfold initState
    dsimp only
    rw [List.length_map, List.length_range]
  · intro i hi
    unfold initState
    dsimp only
    rw [getD_map _ _ _ (by rw [List.length_range]; exact hi)]
    rw [getD_map _ _ _ (by rw [List.length_range]; exact hi)]
    dsimp only
    exact ⟨rfl, fun hcon => Bool.noConfusion hcon⟩

theorem simRun_ProcInv (fuel : Nat) (stf : SimState) :
    ∀ st : SimState, ProcInv st → simRun fuel st = some stf →
      ∃ stc : SimState, ProcInv stc ∧ isSimulationComplete stc = true
        ∧ stf = runFinalize stc := by
  induction fuel with
  | zero => intro st _ hr; exact Option.noConfusion hr
  | succ n ih =>
    intro st h hr
    unfold simRun at hr
    by_cases hcm : isSimulationComplete st = true
    · rw [if_pos hcm] at hr
      exact ⟨st, h, hcm, (Option.some.inj hr).symm⟩
    · rw [if_neg hcm] at hr
      exact ih _ (processNextCycle_ProcInv st h) hr

theorem foldl_u32_exec (ps : List Processor) (hl : ps.length = 4) :
    ps.foldl (fun acc p => u32 (acc + p.instructionsExecuted)) 0
      = u32 ((ps.getD 0 default).instructionsExecuted
          + (ps.getD 1 default).instructionsExecuted
          + (ps.getD 2 default).instructionsExecuted
          + (ps.getD 3 default).instructionsExecuted) := by
  cases ps with
  | nil => exact absurd hl (by simp)
  | cons p0 t0 =>
    cases t0 with
    | nil => exact absurd hl (by simp)
    | cons p1 t1 =>
      cases t1 with
      | nil => exact absurd hl (by simp)
      | cons p2 t2 =>
        cases t2 with
        | nil => exact absurd hl (by simp)
        | cons p3 t3 =>
          cases t3 with
          | nil =>
            show u32 (u32 (u32 (u32 (0 + p0.instructionsExecuted)
                + p1.instructionsExecuted) + p2.instructionsExecuted)
                + p3.instructionsExecuted)
              = u32 (p0.instructionsExecuted + p1.instructionsExecuted
                  + p2.instructionsExecuted + p3.instructionsExecuted)
            unfold u32
            omega
          | cons p4 t4 =>
            simp only [List.length_cons] at hl
            omega

/-- C7: when Simulator::run terminates (all traces exhausted, no core
blocked), the reported totalInstructions is the 32-bit sum over the four
cores of Processor::instructionsExecuted, every core ends unblocked with
its executed count equal (mod 2^32) to the number of well-formed
read/write trace lines it consumed, and hence totalInstructions equals
the 32-bit total of consumed well-formed trace lines: each access that
missed is counted exactly once, by setBlocked(false) when its miss
resolves. -/
theorem run_instruction_accounting (cfg : Config) (traceLists : List (List TraceRec))
    (fuel : Nat) (stf : SimState)
    (h : simRun fuel (initState cfg traceLists) = some stf) :
    stf.totalInstructions
      = u32 ((stf.processors.getD 0 default).instructionsExecuted
          + (stf.processors.getD 1 default).instructionsExecuted
          + (stf.processors.getD 2 default).instructionsExecuted
          + (stf.processors.getD 3 default).instructionsExecuted)
    ∧ (∀ i : Nat, i < 4 →
        (stf.processors.getD i default).blocked = false
        ∧ (stf.processors.getD i default).instructionsExecuted
            = u32 (stf.traces.getD i default).consumedRW)
    ∧ stf.totalInstructions
        = u32 ((stf.traces.getD 0 default).consumedRW
            + (stf.traces.getD 1 default).consumedRW
            + (stf.traces.getD 2 default).consumedRW
            + (stf.traces.getD 3 default).consumedRW) := by
  obtain ⟨stc, hc, hcomp, hfin⟩ :=
    simRun_ProcInv fuel stf _ (initState_ProcInv cfg traceLists) h
  subst hfin
  have hall := (Bool.and_eq_true _ _).mp hcomp
  have hnb : ∀ i : Nat, i < 4 → (stc.processors.getD i default).blocked = false := by
    intro i hi
    have hmem : stc.processors.getD i default ∈ stc.processors :=
      getD_mem (by rw [hc.1]; exact hi)
    have hx := List.all_eq_true.mp hall.2 _ hmem
    cases hy : (stc.processors.getD i default).blocked
    · rfl
    · rw [hy] at hx
      exact Bool.noConfusion hx
  have hexec : ∀ i : Nat, i < 4 →
      (stc.processors.getD i default).instructionsExecuted
        = u32 (stc.traces.getD i default).consumedRW := by
    intro i hi
    have h1 := (hc.2.2.2 i hi).1
    rw [hnb i hi] at h1
    simp only [Bool.false_eq_true, if_false, Nat.sub_zero] at h1
    exact h1
  refine ⟨?_, ?_, ?_⟩
  · unfold runFinalize
    dsimp only
    exact foldl_u32_exec stc.processors hc.1
  · intro i hi
    exact ⟨hnb i hi, hexec i hi⟩
  · unfold runFinalize
    dsimp only
    rw [foldl_u32_exec stc.processors hc.1]
    rw [hexec 0 (by decide), hexec 1 (by decide), hexec 2 (by decide),
      hexec 3 (by decide)]
    unfold u32
    omega
/-- A one-write workload on core 0 used to exercise the accounting theorem. -/
def tracesEx7 : List (List TraceRec) := [[TraceRec.rw true 0], [], [], []]

/-- The final state of the one-write simulation. -/
def stfEx7 : SimState := (simRun 8 (initState cfgEx tracesEx7)).getD (initState cfgEx [])

theorem run_instruction_accounting_witness :
    stfEx7.totalInstructions
      = u32 ((stfEx7.processors.getD 0 default).instructionsExecuted
          + (stfEx7.processors.getD 1 default).instructionsExecuted
          + (stfEx7.processors.getD 2 default).instructionsExecuted
          + (stfEx7.processors.getD 3 default).instructionsExecuted)
    ∧ (∀ i : Nat, i < 4 →
        (stfEx7.processors.getD i default).blocked = false
        ∧ (stfEx7.processors.getD i default).instructionsExecuted
            = u32 (stfEx7.traces.getD i default).consumedRW)
    ∧ stfEx7.totalInstructions
        = u32 ((stfEx7.traces.getD 0 default).consumedRW
            + (stfEx7.traces.getD 1 default).consumedRW
            + (stfEx7.traces.getD 2 default).consumedRW
            + (stfEx7.traces.getD 3 default).consumedRW) :=
  run_instruction_accounting cfgEx tracesEx7 8 stfEx7 rfl
end CacheSim
